import Mathlib

/-!
# navro: deriving an Avro schema from a Go type

A shallow embedding of `navro.go` (`Generate`, `schemaByType`,
`getNameByJSONTag`) together with the properties established about it.

Go's `reflect.Type` values form a graph (a struct may mention itself through a
slice, a map, a pointer or a field), so a type is represented by an index into
a table of type descriptors.  The recursion of `schemaByType` is bounded by an
explicit budget; running out of budget is reported as `Outcome.outOfFuel`, so
that "the call returns" is the statement "some budget gives `returned`".
-/

namespace Navro

/-! ## The part of package `reflect` used by the walker -/

/-- The values of `reflect.Kind`, in the order of the Go declaration. -/
inductive Kind where
  | Invalid | Bool | Int | Int8 | Int16 | Int32 | Int64
  | Uint | Uint8 | Uint16 | Uint32 | Uint64 | Uintptr
  | Float32 | Float64 | Complex64 | Complex128
  | Array | Chan | Func | Interface | Map | Ptr | Slice | String | Struct
  | UnsafePointer
  deriving DecidableEq, Repr

/-- The method `reflect.Kind.String`. -/
def kindString : Kind → String
  | .Invalid => "invalid"
  | .Bool => "bool"
  | .Int => "int"
  | .Int8 => "int8"
  | .Int16 => "int16"
  | .Int32 => "int32"
  | .Int64 => "int64"
  | .Uint => "uint"
  | .Uint8 => "uint8"
  | .Uint16 => "uint16"
  | .Uint32 => "uint32"
  | .Uint64 => "uint64"
  | .Uintptr => "uintptr"
  | .Float32 => "float32"
  | .Float64 => "float64"
  | .Complex64 => "complex64"
  | .Complex128 => "complex128"
  | .Array => "array"
  | .Chan => "chan"
  | .Func => "func"
  | .Interface => "interface"
  | .Map => "map"
  | .Ptr => "ptr"
  | .Slice => "slice"
  | .String => "string"
  | .Struct => "struct"
  | .UnsafePointer => "unsafe.Pointer"

/-- A `reflect.StructField`: the declared name, the package path (empty exactly
for an exported field), the index of the field's type in the type table, the
`key:"value"` pairs of the struct tag in the order written, and whether the
field is embedded. -/
structure StructField where
  Name : String
  PkgPath : String
  Typ : Nat
  Tag : List (String × String)
  Anonymous : Bool
  deriving DecidableEq, Repr

/-- What the walker reads from a `reflect.Type`: `Kind()`, `Name()`, `Elem()`
(meaningful for arrays, slices, maps and pointers), `Key()` (meaningful for
maps) and the fields `Field(0) .. Field(NumField()-1)` (meaningful for
structs).  `elem`, `key` and the field types are indices into the type
table. -/
structure TypeDesc where
  kind : Kind
  name : String
  elem : Nat
  key : Nat
  fields : List StructField
  deriving DecidableEq, Repr

/-- The type table: every `reflect.Type` of the program, by index. -/
abbrev Env := Nat → TypeDesc

/-! ## Schema nodes -/

mutual
/-- Modelled from the spec: the schema node types (`NullSchema` ..
`RecursiveSchema`, `RecordSchema`, `SchemaField`) are declared in a file of the
package that is not among the sources; section 3 of the spec gives the
variants: the eight primitives, `Array{items}`, `Map{values}`,
`Record{name, fields}`, `Union{variants}` and `Recursive{ref}`, the reference
being to a previously built record.  `navro.go` fixes the Go field names
(`Items`, `Values`, `Name`, `Fields`, `Types`, `Actual`, `Type`; the last is
written `Typ` here, `Type` being reserved). -/
inductive Schema where
  | NullSchema
  | BooleanSchema
  | IntSchema
  | LongSchema
  | StringSchema
  | FloatSchema
  | DoubleSchema
  | BytesSchema
  | ArraySchema (Items : Schema)
  | MapSchema (Values : Schema)
  | RecordSchema (r : RecordSchema)
  | UnionSchema (Types : List Schema)
  | RecursiveSchema (Actual : RecordSchema)
/-- Modelled from the spec: a record, `Record{name, fields}`. -/
inductive RecordSchema where
  | mk (Name : String) (Fields : List SchemaField)
/-- Modelled from the spec: a field, `{name, type}`. -/
inductive SchemaField where
  | mk (Name : String) (Typ : Schema)
end

/-- The `Name` of a record. -/
def RecordSchema.Name : RecordSchema → String
  | .mk n _ => n

/-- The `Fields` of a record. -/
def RecordSchema.Fields : RecordSchema → List SchemaField
  | .mk _ fs => fs

/-- The `Name` of a schema field. -/
def SchemaField.Name : SchemaField → String
  | .mk n _ => n

/-- The `Type` of a schema field. -/
def SchemaField.Typ : SchemaField → Schema
  | .mk _ t => t

mutual
/-- The names of the `Record` nodes of a schema tree, in the order met, one
entry per node.  A `Recursive` node is a reference, not a definition: it is
not entered. -/
def Schema.recordNodes : Schema → List String
  | .ArraySchema s => s.recordNodes
  | .MapSchema s => s.recordNodes
  | .RecordSchema r => r.recordNodes
  | .UnionSchema ts => Schema.recordNodesList ts
  | _ => []
/-- The `Record` nodes of a record: itself, then those of its fields. -/
def RecordSchema.recordNodes : RecordSchema → List String
  | .mk n fs => n :: SchemaField.recordNodesList fs
/-- The `Record` nodes below one field. -/
def SchemaField.recordNodes : SchemaField → List String
  | .mk _ t => t.recordNodes
/-- The `Record` nodes of the variants of a union. -/
def Schema.recordNodesList : List Schema → List String
  | [] => []
  | t :: ts => t.recordNodes ++ Schema.recordNodesList ts
/-- The `Record` nodes of a list of fields. -/
def SchemaField.recordNodesList : List SchemaField → List String
  | [] => []
  | f :: fs => f.recordNodes ++ SchemaField.recordNodesList fs
end

/-! ## Errors, outcomes, maps -/

/-- The error type `errorSupport`; it is the only implementation of the
interface `NotSupported`, so every `errorSupport` is a `NotSupported`. -/
structure errorSupport where
  msg : String
  deriving DecidableEq, Repr

/-- The method `Error` of `errorSupport`. -/
def errorSupport.Error (e : errorSupport) : String := e.msg

/-- How a call ends: the recursion budget of the embedding ran out before the
call returned, the call panicked, or it returned a value. -/
inductive Outcome (α : Type) where
  | outOfFuel
  | panic
  | returned (a : α)

/-- A Go `map[string]V`: a list of entries with pairwise distinct keys (the
order carries no meaning). -/
abbrev GoMap (V : Type) := List (String × V)

/-- The expression `m[k]` for a map of pointers: `none` is the nil result of a
missing key. -/
def GoMap.get {V : Type} (m : GoMap V) (k : String) : Option V :=
  match m with
  | [] => none
  | (k1, v) :: rest => if k1 = k then some v else GoMap.get rest k

/-- The statement `m[k] = v`: the entry of `k` is replaced or added. -/
def GoMap.set {V : Type} (m : GoMap V) (k : String) (v : V) : GoMap V :=
  (k, v) :: m.filter (fun e => decide (e.1 ≠ k))

/-- The keys of a map. -/
def GoMap.keys {V : Type} (m : GoMap V) : List String := m.map Prod.fst

/-- The registry `map[string]*RecordSchema`.  A record is stored once it is
complete and is not modified afterwards, so the pointer is represented by the
record it points to. -/
abbrev Registry := GoMap RecordSchema

/-- What `schemaByType` hands back: the pair `(Schema, error)` (a schema, or
`nil` and an error) and the registry as the call left it. -/
abbrev Derived := Except errorSupport Schema × Registry

/-! ## navro.go -/

/-- The package variable `defaultTag`. -/
def defaultTag : String := "avro"

/-- The pieces of a character sequence between occurrences of `sep`. -/
def splitChars (sep : Char) : List Char → List (List Char)
  | [] => [[]]
  | c :: cs =>
    if c = sep then [] :: splitChars sep cs
    else
      match splitChars sep cs with
      | [] => [[c]]
      | p :: ps => (c :: p) :: ps

/-- The call `strings.Split(s, sep)` for a separator of one character. -/
def stringsSplit (s : String) (sep : Char) : List String :=
  (splitChars sep s.data).map String.mk

/-- The method `reflect.StructTag.Lookup`: the value of the first pair with the
key, if any. -/
def tagLookup (tag : List (String × String)) (key : String) : Option String :=
  match tag with
  | [] => none
  | (k, v) :: rest => if k = key then some v else tagLookup rest key

/-- The function `getNameByJSONTag`. -/
def getNameByJSONTag (st : StructField) : String :=
  match tagLookup st.Tag defaultTag with
  | none => st.Name
  | some tagValue => (stringsSplit tagValue ',').headD ""

/-- The loop `for i := 0; i < t.NumField(); i++` of the struct case of
`schemaByType`: `derive` is the recursive call, `acc` the fields appended to
the record so far.  The first field whose derivation fails ends the loop. -/
def structFields (derive : Nat → Registry → Outcome Derived) :
    List StructField → List SchemaField → Registry →
      Outcome (Except errorSupport (List SchemaField) × Registry)
  | [], acc, schemas => .returned (.ok acc, schemas)
  | structField :: rest, acc, schemas =>
    match derive structField.Typ schemas with
    | .outOfFuel => .outOfFuel
    | .panic => .panic
    | .returned (.error err, schemas1) => .returned (.error err, schemas1)
    | .returned (.ok fieldTypeSchema, schemas1) =>
      structFields derive rest
        (acc ++ [SchemaField.mk (getNameByJSONTag structField) fieldTypeSchema]) schemas1

/-- The function `schemaByType`.  The first argument bounds the depth of the
recursion; `t` is `none` for the nil `reflect.Type`, on which `t.Kind()`
panics. -/
def schemaByType (env : Env) : Nat → Option Nat → Registry → Outcome Derived
  | 0, _, _ => .outOfFuel
  | _ + 1, none, _ => .panic
  | fuel + 1, some t, schemas =>
    match (env t).kind with
    | .Invalid => .returned (.ok .NullSchema, schemas)
    | .Bool => .returned (.ok .BooleanSchema, schemas)
    | .Uint8 | .Int8 | .Int16 | .Int32 | .Uint16 => .returned (.ok .IntSchema, schemas)
    | .Int | .Uint32 | .Int64 | .Uint64 => .returned (.ok .LongSchema, schemas)
    | .String => .returned (.ok .StringSchema, schemas)
    | .Float32 => .returned (.ok .FloatSchema, schemas)
    | .Float64 => .returned (.ok .DoubleSchema, schemas)
    | .Array | .Slice =>
      if (env (env t).elem).kind = .Uint8 then .returned (.ok .BytesSchema, schemas)
      else
        match schemaByType env fuel (some (env t).elem) schemas with
        | .outOfFuel => .outOfFuel
        | .panic => .panic
        | .returned (.error err, schemas1) => .returned (.error err, schemas1)
        | .returned (.ok elemSchema, schemas1) =>
          .returned (.ok (.ArraySchema elemSchema), schemas1)
    | .Map =>
      if (env (env t).key).kind ≠ .String then
        .returned (.error ⟨"Do not support map with non-string key"⟩, schemas)
      else
        match schemaByType env fuel (some (env t).elem) schemas with
        | .outOfFuel => .outOfFuel
        | .panic => .panic
        | .returned (.error err, schemas1) => .returned (.error err, schemas1)
        | .returned (.ok elemSchema, schemas1) =>
          .returned (.ok (.MapSchema elemSchema), schemas1)
    | .Struct =>
      match schemas.get (env t).name with
      | some actual => .returned (.ok (.RecursiveSchema actual), schemas)
      | none =>
        match structFields (fun ft s => schemaByType env fuel (some ft) s)
            (env t).fields [] schemas with
        | .outOfFuel => .outOfFuel
        | .panic => .panic
        | .returned (.error err, schemas1) => .returned (.error err, schemas1)
        | .returned (.ok fields, schemas1) =>
          .returned (.ok (.RecordSchema (.mk (env t).name fields)),
            schemas1.set (env t).name (.mk (env t).name fields))
    | .Ptr =>
      match schemaByType env fuel (some (env t).elem) schemas with
      | .outOfFuel => .outOfFuel
      | .panic => .panic
      | .returned (.error err, schemas1) => .returned (.error err, schemas1)
      | .returned (.ok elemSchema, schemas1) =>
        .returned (.ok (.UnionSchema [.NullSchema, elemSchema]), schemas1)
    | k => .returned (.error ⟨kindString k ++ " will not be supported"⟩, schemas)

/-- The three results of `Generate`: the rendered schema, the name set (`none`
is the nil map) and the error (`none` is nil). -/
structure Generated where
  schema : String
  recordNames : Option (GoMap Bool)
  err : Option errorSupport

/-- The function `Generate`.  `i` is the dynamic type of the argument, `none`
for a nil interface value (`reflect.TypeOf` then returns the nil type).
`render` is the method `String` of schema nodes, which is declared outside the
given sources. -/
def Generate (env : Env) (render : Schema → String) (fuel : Nat) (i : Option Nat) :
    Outcome Generated :=
  match schemaByType env fuel i [] with
  | .outOfFuel => .outOfFuel
  | .panic => .panic
  | .returned (.error err, _) => .returned ⟨"", none, some err⟩
  | .returned (.ok schema, recordSchemas) =>
    .returned ⟨render schema,
      some (recordSchemas.keys.foldl (fun recordNames recordName =>
        GoMap.set recordNames recordName true) []), none⟩

/-! ## Concrete type tables -/

/-- An exported field without a tag. -/
def exportedField (name : String) (typ : Nat) : StructField :=
  ⟨name, "", typ, [], false⟩

/-- A non-exported field of package `navro` without a tag. -/
def privateField (name : String) (typ : Nat) : StructField :=
  ⟨name, "navro", typ, [], false⟩

/-- The types of `navro_test.go`, and a few more scalars and a map keyed by
`int`:
`0 someType`, `1 int`, `2 map[string]int`, `3 string`, `4 anotherType`,
`5 []string`, `6 []byte`, `7 uint8`, `8 [3]int`, `9 []map[string]int`,
`10 someMore`, `11 []someMore`, `12 noInterface`, `13 interface{}`,
`14 Pointer`, `15 *int`, `16 StructPointer`, `17 []*Pointer`, `18 *Pointer`,
`19 float64`, `20 uint`, `21 map[int]string`, `22 uint32`, `23 **int`,
`24 *map[int]string`,
`25 Holder` for `type Holder struct { Name string; M map[int]string }`,
`26 bool`. -/
def sampleEnv : Env := fun
  | 0 => ⟨.Struct, "someType", 0, 0,
      [privateField "num" 1, privateField "amap" 2, privateField "another" 4,
       ⟨"someMore", "navro", 10, [], true⟩, privateField "arraystr" 11]⟩
  | 1 => ⟨.Int, "int", 0, 0, []⟩
  | 2 => ⟨.Map, "", 1, 3, []⟩
  | 3 => ⟨.String, "string", 0, 0, []⟩
  | 4 => ⟨.Struct, "anotherType", 0, 0,
      [privateField "list" 5, privateField "bits" 6, privateField "fix" 8,
       privateField "arraymap" 9]⟩
  | 5 => ⟨.Slice, "", 3, 0, []⟩
  | 6 => ⟨.Slice, "", 7, 0, []⟩
  | 7 => ⟨.Uint8, "uint8", 0, 0, []⟩
  | 8 => ⟨.Array, "", 1, 0, []⟩
  | 9 => ⟨.Slice, "", 2, 0, []⟩
  | 10 => ⟨.Struct, "someMore", 0, 0, [privateField "name" 3]⟩
  | 11 => ⟨.Slice, "", 10, 0, []⟩
  | 12 => ⟨.Struct, "noInterface", 0, 0, [privateField "in" 13]⟩
  | 13 => ⟨.Interface, "", 0, 0, []⟩
  | 14 => ⟨.Struct, "Pointer", 0, 0, [privateField "in" 15]⟩
  | 15 => ⟨.Ptr, "", 1, 0, []⟩
  | 16 => ⟨.Struct, "StructPointer", 0, 0, [exportedField "P" 17, exportedField "PND" 18]⟩
  | 17 => ⟨.Slice, "", 18, 0, []⟩
  | 18 => ⟨.Ptr, "", 14, 0, []⟩
  | 19 => ⟨.Float64, "float64", 0, 0, []⟩
  | 20 => ⟨.Uint, "uint", 0, 0, []⟩
  | 21 => ⟨.Map, "", 3, 1, []⟩
  | 22 => ⟨.Uint32, "uint32", 0, 0, []⟩
  | 23 => ⟨.Ptr, "", 15, 0, []⟩
  | 24 => ⟨.Ptr, "", 21, 0, []⟩
  | 25 => ⟨.Struct, "Holder", 0, 0, [exportedField "Name" 3, exportedField "M" 21]⟩
  | _ => ⟨.Bool, "bool", 0, 0, []⟩

/-- The self-referential type `type Node struct { Children []Node }`:
`0 Node`, `1 []Node`. -/
def nodeEnv : Env := fun
  | 0 => ⟨.Struct, "Node", 0, 0, [exportedField "Children" 1]⟩
  | _ => ⟨.Slice, "", 0, 0, []⟩

/-- The type `struct { A struct { X int } }`, an anonymous struct inside an
anonymous struct (`Name()` is empty for both): `0` the outer struct, `1` the
inner struct, `2 int`. -/
def nestedAnonEnv : Env := fun
  | 0 => ⟨.Struct, "", 0, 0, [exportedField "A" 1]⟩
  | 1 => ⟨.Struct, "", 0, 0, [exportedField "X" 2]⟩
  | _ => ⟨.Int, "int", 0, 0, []⟩

/-- The type `struct { A struct{}; B struct { Y Bar } }` with
`type Bar struct{}`: `0` the outer struct, `1 struct{}`,
`2 struct { Y Bar }`, `3 Bar`. -/
def shadowEnv : Env := fun
  | 0 => ⟨.Struct, "", 0, 0, [exportedField "A" 1, exportedField "B" 2]⟩
  | 1 => ⟨.Struct, "", 0, 0, []⟩
  | 2 => ⟨.Struct, "", 0, 0, [exportedField "Y" 3]⟩
  | _ => ⟨.Struct, "Bar", 0, 0, []⟩

/-! ## Auxiliary definitions used in the statements and proofs -/

/-- The continuation shared by the array, slice, map and pointer cases: an
outcome of the recursive call that is not a schema is passed on, a schema is
wrapped. -/
def wrapElem (wrap : Schema → Schema) : Outcome Derived → Outcome Derived
  | .outOfFuel => .outOfFuel
  | .panic => .panic
  | .returned (.error err, schemas1) => .returned (.error err, schemas1)
  | .returned (.ok elemSchema, schemas1) => .returned (.ok (wrap elemSchema), schemas1)

/-- The end of the struct case: an outcome of the field loop that is not a
field list is passed on, a field list is made into the record, which is stored
under its name. -/
def finishRecord (name : String) :
    Outcome (Except errorSupport (List SchemaField) × Registry) → Outcome Derived
  | .outOfFuel => .outOfFuel
  | .panic => .panic
  | .returned (.error err, schemas1) => .returned (.error err, schemas1)
  | .returned (.ok fields, schemas1) =>
    .returned (.ok (.RecordSchema (.mk name fields)), schemas1.set name (.mk name fields))

/-- The nested calls of a run: `Calls env t schemas u schemas1` when the call
`schemaByType(t, schemas)` reaches, directly or through nested calls, the call
`schemaByType(u, schemas1)`.  A field of a struct is reached once the fields
before it have been derived without error. -/
inductive Calls (env : Env) : Nat → Registry → Nat → Registry → Prop
  | here (t : Nat) (schemas : Registry) : Calls env t schemas t schemas
  | elem {t u : Nat} {schemas schemas1 : Registry} :
      ((env t).kind = .Array ∨ (env t).kind = .Slice) →
      (env (env t).elem).kind ≠ .Uint8 →
      Calls env (env t).elem schemas u schemas1 → Calls env t schemas u schemas1
  | value {t u : Nat} {schemas schemas1 : Registry} :
      (env t).kind = .Map → (env (env t).key).kind = .String →
      Calls env (env t).elem schemas u schemas1 → Calls env t schemas u schemas1
  | referent {t u : Nat} {schemas schemas1 : Registry} :
      (env t).kind = .Ptr →
      Calls env (env t).elem schemas u schemas1 → Calls env t schemas u schemas1
  | field {t u : Nat} {schemas schemas0 schemas1 : Registry} {fuel : Nat}
      {before after : List StructField} {sf : StructField} {acc : List SchemaField} :
      (env t).kind = .Struct → GoMap.get schemas (env t).name = none →
      (env t).fields = before ++ sf :: after →
      structFields (fun ft s => schemaByType env fuel (some ft) s) before [] schemas =
        .returned (.ok acc, schemas0) →
      Calls env sf.Typ schemas0 u schemas1 → Calls env t schemas u schemas1

/-- One step of the walk: from a type to a component type, that is the element
of an array or slice that is not a byte sequence, the value type of a map, the
referent of a pointer, or the type of a struct field. -/
inductive Component (env : Env) : Nat → Nat → Prop
  | elem {t : Nat} : ((env t).kind = .Array ∨ (env t).kind = .Slice) →
      (env (env t).elem).kind ≠ .Uint8 → Component env t (env t).elem
  | value {t : Nat} : (env t).kind = .Map → Component env t (env t).elem
  | referent {t : Nat} : (env t).kind = .Ptr → Component env t (env t).elem
  | field {t : Nat} {sf : StructField} : (env t).kind = .Struct → sf ∈ (env t).fields →
      Component env t sf.Typ

/-- The types reachable from `t` through components, `t` included. -/
def Reachable (env : Env) (t u : Nat) : Prop := Relation.ReflTransGen (Component env) t u

/-- Every struct type reachable from `t` has its name among the keys of `s`. -/
def Covered (env : Env) (t : Nat) (s : Registry) : Prop :=
  ∀ v, Reachable env t v → (env v).kind = .Struct → (env v).name ∈ s.keys

/-- For a struct type reachable from `root` whose name is a key of `s`, the
names of the struct types reachable from it are keys of `s` too. -/
def Closed (env : Env) (root : Nat) (s : Registry) : Prop :=
  ∀ u, Reachable env root u → (env u).kind = .Struct → (env u).name ∈ s.keys →
    Covered env u s

/-- Among the types reachable from `root`, struct types with the same name are
the same type. -/
def DistinctNames (env : Env) (root : Nat) : Prop :=
  ∀ u v, Reachable env root u → Reachable env root v →
    (env u).kind = .Struct → (env v).kind = .Struct → (env u).name = (env v).name →
    env u = env v

/-- The fields of a struct derived one after the other, as the spec describes
the record: `FieldsDerive env fuel fs s fl s1` when deriving the types of `fs`
in declaration order, each with the registry left by the fields before it
(the first with `s`), succeeds for every field and gives the schema fields
`fl`, one per field of `fs` and in the same order, leaving the registry
`s1`. -/
inductive FieldsDerive (env : Env) (fuel : Nat) :
    List StructField → Registry → List SchemaField → Registry → Prop
  | nil (s : Registry) : FieldsDerive env fuel [] s [] s
  | cons {sf : StructField} {rest : List StructField} {s s1 s2 : Registry}
      {fieldType : Schema} {fl : List SchemaField} :
      schemaByType env fuel (some sf.Typ) s = .returned (.ok fieldType, s1) →
      FieldsDerive env fuel rest s1 fl s2 →
      FieldsDerive env fuel (sf :: rest) s (SchemaField.mk (getNameByJSONTag sf) fieldType :: fl) s2

/-- The record `R` was built for the name `k` in the run of the call
`schemaByType(t, s)`: that call reaches a call on a struct type `u` named `k`,
made when the registry held no entry for `k`, which returned the record
`R`. -/
def BuiltIn (env : Env) (t : Nat) (s : Registry) (k : String) (R : RecordSchema) : Prop :=
  ∃ (u : Nat) (s0 : Registry) (f : Nat) (s1 : Registry),
    Calls env t s u s0 ∧ (env u).kind = .Struct ∧ (env u).name = k ∧ s0.get k = none ∧
    schemaByType env f (some u) s0 = .returned (.ok (.RecordSchema R), s1)

/-- The type `struct { A struct { X int }; B struct { Y string };
C struct { Y string } }` named `Root`: `0 Root`, `1 struct { X int }`,
`2 struct { Y string }` (the type of both `B` and `C`), `3 int`,
`4 string`. -/
def collideEnv : Env := fun
  | 0 => ⟨.Struct, "Root", 0, 0, [exportedField "A" 1, exportedField "B" 2, exportedField "C" 2]⟩
  | 1 => ⟨.Struct, "", 0, 0, [exportedField "X" 3]⟩
  | 2 => ⟨.Struct, "", 0, 0, [exportedField "Y" 4]⟩
  | 3 => ⟨.Int, "int", 0, 0, []⟩
  | _ => ⟨.String, "string", 0, 0, []⟩

/-! ## The walker without a registry, and the expansion of references -/

/-- The field loop of the registry-free walker. -/
def naiveFields (derive : Nat → Outcome (Except errorSupport Schema)) :
    List StructField → List SchemaField → Outcome (Except errorSupport (List SchemaField))
  | [], acc => .returned (.ok acc)
  | structField :: rest, acc =>
    match derive structField.Typ with
    | .outOfFuel => .outOfFuel
    | .panic => .panic
    | .returned (.error err) => .returned (.error err)
    | .returned (.ok fieldTypeSchema) =>
      naiveFields derive rest
        (acc ++ [SchemaField.mk (getNameByJSONTag structField) fieldTypeSchema])

/-- The registry-free walker of the comparison: the cases of `schemaByType`,
except that a struct is always expanded into a full record (nothing is looked
up and nothing is stored). -/
def naiveSchema (env : Env) : Nat → Nat → Outcome (Except errorSupport Schema)
  | 0, _ => .outOfFuel
  | fuel + 1, t =>
    match (env t).kind with
    | .Invalid => .returned (.ok .NullSchema)
    | .Bool => .returned (.ok .BooleanSchema)
    | .Uint8 | .Int8 | .Int16 | .Int32 | .Uint16 => .returned (.ok .IntSchema)
    | .Int | .Uint32 | .Int64 | .Uint64 => .returned (.ok .LongSchema)
    | .String => .returned (.ok .StringSchema)
    | .Float32 => .returned (.ok .FloatSchema)
    | .Float64 => .returned (.ok .DoubleSchema)
    | .Array | .Slice =>
      if (env (env t).elem).kind = .Uint8 then .returned (.ok .BytesSchema)
      else
        match naiveSchema env fuel (env t).elem with
        | .outOfFuel => .outOfFuel
        | .panic => .panic
        | .returned (.error err) => .returned (.error err)
        | .returned (.ok elemSchema) => .returned (.ok (.ArraySchema elemSchema))
    | .Map =>
      if (env (env t).key).kind ≠ .String then
        .returned (.error ⟨"Do not support map with non-string key"⟩)
      else
        match naiveSchema env fuel (env t).elem with
        | .outOfFuel => .outOfFuel
        | .panic => .panic
        | .returned (.error err) => .returned (.error err)
        | .returned (.ok elemSchema) => .returned (.ok (.MapSchema elemSchema))
    | .Struct =>
      match naiveFields (fun ft => naiveSchema env fuel ft) (env t).fields [] with
      | .outOfFuel => .outOfFuel
      | .panic => .panic
      | .returned (.error err) => .returned (.error err)
      | .returned (.ok fields) => .returned (.ok (.RecordSchema (.mk (env t).name fields)))
    | .Ptr =>
      match naiveSchema env fuel (env t).elem with
      | .outOfFuel => .outOfFuel
      | .panic => .panic
      | .returned (.error err) => .returned (.error err)
      | .returned (.ok elemSchema) => .returned (.ok (.UnionSchema [.NullSchema, elemSchema]))
    | k => .returned (.error ⟨kindString k ++ " will not be supported"⟩)

mutual
/-- Every `Recursive` node replaced by the record it refers to, in that record
too, until none is left. -/
def Schema.expand : Schema → Schema
  | .ArraySchema s => .ArraySchema s.expand
  | .MapSchema s => .MapSchema s.expand
  | .RecordSchema r => .RecordSchema r.expand
  | .UnionSchema ts => .UnionSchema (Schema.expandList ts)
  | .RecursiveSchema r => .RecordSchema r.expand
  | .NullSchema => .NullSchema
  | .BooleanSchema => .BooleanSchema
  | .IntSchema => .IntSchema
  | .LongSchema => .LongSchema
  | .StringSchema => .StringSchema
  | .FloatSchema => .FloatSchema
  | .DoubleSchema => .DoubleSchema
  | .BytesSchema => .BytesSchema
/-- The expansion of the references inside a record. -/
def RecordSchema.expand : RecordSchema → RecordSchema
  | .mk n fs => .mk n (SchemaField.expandList fs)
/-- The expansion of the references inside a field. -/
def SchemaField.expand : SchemaField → SchemaField
  | .mk n t => .mk n t.expand
/-- The expansion of the references inside the variants of a union. -/
def Schema.expandList : List Schema → List Schema
  | [] => []
  | t :: ts => t.expand :: Schema.expandList ts
/-- The expansion of the references inside a list of fields. -/
def SchemaField.expandList : List SchemaField → List SchemaField
  | [] => []
  | f :: fs => f.expand :: SchemaField.expandList fs
end

/-- The expansion applied to what a call returns: a schema is expanded, an
error is kept. -/
def expandResult : Except errorSupport Schema → Except errorSupport Schema
  | .ok s => .ok s.expand
  | .error e => .error e

/-- Every record of the registry expands to what the registry-free walker
gives for the struct types of that name reachable from `root`. -/
def Agrees (env : Env) (root : Nat) (s : Registry) : Prop :=
  ∀ k R, s.get k = some R → ∀ u, Reachable env root u → (env u).kind = .Struct →
    (env u).name = k → ∃ f, naiveSchema env f u = .returned (.ok (.RecordSchema R.expand))

/-! ## The occurrences of struct types in a derived tree -/

mutual
/-- The occurrences of struct types in the tree `schemaByType` derived for the
type `t`, in the order of the walk: the tree is read along the type, an
`Array` or `Map` node against the element type, the variants of a `Union`
against the referent, the fields of a `Record` against the declared fields;
each `Record` node and each `Recursive` node is one occurrence, of the struct
type at that place, and a `Record` comes before the occurrences inside its
fields. -/
def Schema.occurrences (env : Env) : Schema → Nat → List (Nat × Schema)
  | .ArraySchema s, t => s.occurrences env (env t).elem
  | .MapSchema s, t => s.occurrences env (env t).elem
  | .UnionSchema ts, t => Schema.occurrencesList env ts (env t).elem
  | .RecordSchema r, t => (t, .RecordSchema r) :: r.occurrences env t
  | .RecursiveSchema r, t => [(t, .RecursiveSchema r)]
  | .NullSchema, _ => []
  | .BooleanSchema, _ => []
  | .IntSchema, _ => []
  | .LongSchema, _ => []
  | .StringSchema, _ => []
  | .FloatSchema, _ => []
  | .DoubleSchema, _ => []
  | .BytesSchema, _ => []
/-- The occurrences inside the fields of a record derived for the struct type
`t`. -/
def RecordSchema.occurrences (env : Env) : RecordSchema → Nat → List (Nat × Schema)
  | .mk _ fs, t => SchemaField.occurrencesList env fs (env t).fields
/-- The occurrences inside a schema field derived for a field of type `t`. -/
def SchemaField.occurrences (env : Env) : SchemaField → Nat → List (Nat × Schema)
  | .mk _ ty, t => ty.occurrences env t
/-- The occurrences inside the variants of a union, each read against `t`. -/
def Schema.occurrencesList (env : Env) : List Schema → Nat → List (Nat × Schema)
  | [], _ => []
  | x :: xs, t => x.occurrences env t ++ Schema.occurrencesList env xs t
/-- The occurrences inside the schema fields derived for the declared fields,
in declaration order. -/
def SchemaField.occurrencesList (env : Env) :
    List SchemaField → List StructField → List (Nat × Schema)
  | [], _ => []
  | _ :: _, [] => []
  | f :: fs, sf :: sfs => f.occurrences env sf.Typ ++ SchemaField.occurrencesList env fs sfs
end

/-- The occurrences of a walk are deduplicated with respect to the table
`built` of the records built so far, by name: an occurrence of a struct whose
name has no record in the table is a `Record`, which enters the table; an
occurrence of a struct whose name has a record in the table is the `Recursive`
reference to that record. -/
inductive Deduplicated (env : Env) :
    (String → Option RecordSchema) → List (Nat × Schema) → Prop
  | nil (built : String → Option RecordSchema) : Deduplicated env built []
  | first {built : String → Option RecordSchema} {u : Nat} {R : RecordSchema}
      {rest : List (Nat × Schema)} :
      built (env u).name = none →
      Deduplicated env (Function.update built (env u).name (some R)) rest →
      Deduplicated env built ((u, .RecordSchema R) :: rest)
  | later {built : String → Option RecordSchema} {u : Nat} {R : RecordSchema}
      {rest : List (Nat × Schema)} :
      built (env u).name = some R → Deduplicated env built rest →
      Deduplicated env built ((u, .RecursiveSchema R) :: rest)

/-- The table of the records built, after the occurrences `occ`. -/
def builtAfter (env : Env) :
    (String → Option RecordSchema) → List (Nat × Schema) → String → Option RecordSchema
  | built, [] => built
  | built, (u, .RecordSchema R) :: rest =>
    builtAfter env (Function.update built (env u).name (some R)) rest
  | built, _ :: rest => builtAfter env built rest

/-! # Theorems -/

/-! ## Reading `schemaByType` case by case -/

theorem schemaByType_seq (env : Env) (fuel t : Nat) (schemas : Registry)
    (hk : (env t).kind = .Array ∨ (env t).kind = .Slice) :
    schemaByType env (fuel + 1) (some t) schemas =
      if (env (env t).elem).kind = .Uint8 then .returned (.ok .BytesSchema, schemas)
      else wrapElem .ArraySchema (schemaByType env fuel (some (env t).elem) schemas) := by
  rcases hk with hk | hk <;>
  · simp only [schemaByType, hk]
    split
    · rfl
    · unfold wrapElem; split <;> simp_all

theorem schemaByType_map (env : Env) (fuel t : Nat) (schemas : Registry)
    (hk : (env t).kind = .Map) :
    schemaByType env (fuel + 1) (some t) schemas =
      if (env (env t).key).kind ≠ .String then
        .returned (.error ⟨"Do not support map with non-string key"⟩, schemas)
      else wrapElem .MapSchema (schemaByType env fuel (some (env t).elem) schemas) := by
  simp only [schemaByType, hk]
  split
  · rfl
  · unfold wrapElem; split <;> simp_all

theorem schemaByType_ptr (env : Env) (fuel t : Nat) (schemas : Registry)
    (hk : (env t).kind = .Ptr) :
    schemaByType env (fuel + 1) (some t) schemas =
      wrapElem (fun s => .UnionSchema [.NullSchema, s])
        (schemaByType env fuel (some (env t).elem) schemas) := by
  simp only [schemaByType, hk]
  unfold wrapElem; split <;> simp_all

theorem schemaByType_struct (env : Env) (fuel t : Nat) (schemas : Registry)
    (hk : (env t).kind = .Struct) :
    schemaByType env (fuel + 1) (some t) schemas =
      match schemas.get (env t).name with
      | some actual => .returned (.ok (.RecursiveSchema actual), schemas)
      | none =>
        finishRecord (env t).name
          (structFields (fun ft s => schemaByType env fuel (some ft) s)
            (env t).fields [] schemas) := by
  simp only [schemaByType, hk]
  split
  · rfl
  · unfold finishRecord; split <;> simp_all

/-! ## A larger budget does not change a result -/

theorem wrapElem_returned {wrap : Schema → Schema} {o : Outcome Derived} {r : Derived}
    (h : wrapElem wrap o = .returned r) : ∃ r0, o = .returned r0 := by
  cases o with
  | outOfFuel => simp [wrapElem] at h
  | panic => simp [wrapElem] at h
  | returned r0 => exact ⟨r0, rfl⟩

theorem finishRecord_returned {name : String}
    {o : Outcome (Except errorSupport (List SchemaField) × Registry)} {r : Derived}
    (h : finishRecord name o = .returned r) : ∃ r0, o = .returned r0 := by
  cases o with
  | outOfFuel => simp [finishRecord] at h
  | panic => simp [finishRecord] at h
  | returned r0 => exact ⟨r0, rfl⟩

theorem structFields_mono (d1 d2 : Nat → Registry → Outcome Derived)
    (hd : ∀ t s r, d1 t s = .returned r → d2 t s = .returned r) :
    ∀ (fs : List StructField) (acc : List SchemaField) (s : Registry)
      (r : Except errorSupport (List SchemaField) × Registry),
      structFields d1 fs acc s = .returned r → structFields d2 fs acc s = .returned r := by
  intro fs
  induction fs with
  | nil => intro acc s r h; simpa [structFields] using h
  | cons sf rest ih =>
    intro acc s r h
    unfold structFields at h ⊢
    cases h1 : d1 sf.Typ s with
    | outOfFuel => rw [h1] at h; simp at h
    | panic => rw [h1] at h; simp at h
    | returned x =>
      rw [h1] at h
      rw [hd _ _ _ h1]
      obtain ⟨res, s1⟩ := x
      cases res with
      | error e => simpa using h
      | ok sch => exact ih _ _ _ h

theorem schemaByType_succ (env : Env) :
    ∀ (fuel : Nat) (t : Option Nat) (s : Registry) (r : Derived),
      schemaByType env fuel t s = .returned r →
      schemaByType env (fuel + 1) t s = .returned r := by
  intro fuel
  induction fuel with
  | zero => intro t s r h; simp [schemaByType] at h
  | succ n ih =>
    intro t s r h
    cases t with
    | none => simp [schemaByType] at h
    | some t =>
      by_cases hseq : (env t).kind = .Array ∨ (env t).kind = .Slice
      · rw [schemaByType_seq _ _ _ _ hseq] at h ⊢
        split
        · simpa [*] using h
        · rename_i hne
          rw [if_neg hne] at h
          obtain ⟨r0, h0⟩ := wrapElem_returned h
          rw [ih _ _ _ h0, ← h0]; exact h
      by_cases hmap : (env t).kind = .Map
      · rw [schemaByType_map _ _ _ _ hmap] at h ⊢
        split
        · simpa [*] using h
        · rename_i hne
          rw [if_neg hne] at h
          obtain ⟨r0, h0⟩ := wrapElem_returned h
          rw [ih _ _ _ h0, ← h0]; exact h
      by_cases hptr : (env t).kind = .Ptr
      · rw [schemaByType_ptr _ _ _ _ hptr] at h ⊢
        obtain ⟨r0, h0⟩ := wrapElem_returned h
        rw [ih _ _ _ h0, ← h0]; exact h
      by_cases hst : (env t).kind = .Struct
      · rw [schemaByType_struct _ _ _ _ hst] at h ⊢
        cases hg : GoMap.get s (env t).name with
        | some actual => rw [hg] at h; simpa using h
        | none =>
          rw [hg] at h
          simp only at h ⊢
          obtain ⟨r0, h0⟩ := finishRecord_returned h
          rw [structFields_mono _ _ (fun ft s r hr => ih (some ft) s r hr) _ _ _ _ h0, ← h0]
          exact h
      · push_neg at hseq
        cases hk : (env t).kind <;> simp_all [schemaByType]

theorem schemaByType_mono (env : Env) {fuel fuel1 : Nat} (hle : fuel ≤ fuel1)
    {t : Option Nat} {s : Registry} {r : Derived}
    (h : schemaByType env fuel t s = .returned r) :
    schemaByType env fuel1 t s = .returned r := by
  induction hle with
  | refl => exact h
  | step _ ih => exact schemaByType_succ env _ _ _ _ ih

/-! ## Nested calls and the propagation of an error -/

theorem structFields_cons (d : Nat → Registry → Outcome Derived) (x : StructField)
    (rest : List StructField) (acc : List SchemaField) (s : Registry) :
    structFields d (x :: rest) acc s =
      match d x.Typ s with
      | .outOfFuel => .outOfFuel
      | .panic => .panic
      | .returned (.error err, schemas1) => .returned (.error err, schemas1)
      | .returned (.ok fieldTypeSchema, schemas1) =>
        structFields d rest
          (acc ++ [SchemaField.mk (getNameByJSONTag x) fieldTypeSchema]) schemas1 := by
  rw [structFields]

theorem structFields_append (d : Nat → Registry → Outcome Derived) :
    ∀ (xs ys : List StructField) (acc acc1 : List SchemaField) (s s1 : Registry),
      structFields d xs acc s = .returned (.ok acc1, s1) →
      structFields d (xs ++ ys) acc s = structFields d ys acc1 s1 := by
  intro xs
  induction xs with
  | nil =>
    intro ys acc acc1 s s1 h
    simp [structFields] at h
    obtain ⟨h1, h2⟩ := h
    subst h1; subst h2; rfl
  | cons x rest ih =>
    intro ys acc acc1 s s1 h
    rw [structFields_cons] at h
    rw [List.cons_append, structFields_cons]
    cases hx : d x.Typ s with
    | outOfFuel => rw [hx] at h; simp at h
    | panic => rw [hx] at h; simp at h
    | returned r =>
      rw [hx] at h
      obtain ⟨res, s2⟩ := r
      cases res with
      | error e => simp at h
      | ok sch => exact ih _ _ _ _ _ h

theorem calls_error (env : Env) {t u : Nat} {schemas schemas1 : Registry}
    (hc : Calls env t schemas u schemas1) (e : errorSupport) (s2 : Registry)
    (hu : ∃ f0, ∀ f, f0 ≤ f → schemaByType env f (some u) schemas1 = .returned (.error e, s2)) :
    ∃ f0, ∀ f, f0 ≤ f → schemaByType env f (some t) schemas = .returned (.error e, s2) := by
  induction hc with
  | here t schemas => exact hu
  | elem hk he _ ih =>
    obtain ⟨f0, h0⟩ := ih hu
    refine ⟨f0 + 1, fun f hf => ?_⟩
    obtain ⟨f1, rfl⟩ : ∃ f1, f = f1 + 1 := ⟨f - 1, by omega⟩
    rw [schemaByType_seq env f1 _ _ hk, if_neg he, h0 f1 (by omega)]
    rfl
  | value hk he _ ih =>
    obtain ⟨f0, h0⟩ := ih hu
    refine ⟨f0 + 1, fun f hf => ?_⟩
    obtain ⟨f1, rfl⟩ : ∃ f1, f = f1 + 1 := ⟨f - 1, by omega⟩
    rw [schemaByType_map env f1 _ _ hk, if_neg (by simp [he]), h0 f1 (by omega)]
    rfl
  | referent hk _ ih =>
    obtain ⟨f0, h0⟩ := ih hu
    refine ⟨f0 + 1, fun f hf => ?_⟩
    obtain ⟨f1, rfl⟩ : ∃ f1, f = f1 + 1 := ⟨f - 1, by omega⟩
    rw [schemaByType_ptr env f1 _ _ hk, h0 f1 (by omega)]
    rfl
  | @field t u schemas schemas0 schemas1 fuel before after sf acc hk hg hf hb _ ih =>
    obtain ⟨f0, h0⟩ := ih hu
    refine ⟨max fuel f0 + 1, fun f hfl => ?_⟩
    obtain ⟨f1, rfl⟩ : ∃ f1, f = f1 + 1 := ⟨f - 1, by omega⟩
    have hb1 : structFields (fun ft s => schemaByType env f1 (some ft) s) before [] schemas =
        .returned (.ok acc, schemas0) :=
      structFields_mono _ _
        (fun ft s r hr => schemaByType_mono env (by omega : fuel ≤ f1) hr) _ _ _ _ hb
    rw [schemaByType_struct env f1 _ _ hk, hg, hf]
    simp only
    rw [structFields_append _ _ _ _ _ _ _ hb1, structFields_cons]
    simp only [h0 f1 (by omega)]
    rfl

/-! ## Maps -/

theorem GoMap.mem_keys_set {V : Type} (m : GoMap V) (k : String) (v : V) (k1 : String) :
    k1 ∈ (m.set k v).keys ↔ k1 = k ∨ k1 ∈ m.keys := by
  simp only [GoMap.set, GoMap.keys, List.map_cons, List.mem_cons, List.mem_map, List.mem_filter]
  constructor
  · rintro (h | ⟨e, ⟨he, _⟩, rfl⟩)
    · exact Or.inl h
    · exact Or.inr ⟨e, he, rfl⟩
  · rintro (h | ⟨e, he, rfl⟩)
    · exact Or.inl h
    · by_cases hk : e.1 = k
      · exact Or.inl hk
      · exact Or.inr ⟨e, ⟨he, by simpa using hk⟩, rfl⟩

theorem GoMap.mem_keys_of_get {V : Type} (m : GoMap V) (k : String) (v : V)
    (h : m.get k = some v) : k ∈ m.keys := by
  induction m with
  | nil => simp [GoMap.get] at h
  | cons e rest ih =>
    obtain ⟨k1, v1⟩ := e
    simp only [GoMap.get] at h
    by_cases hk : k1 = k
    · simp [GoMap.keys, hk]
    · rw [if_neg hk] at h
      have := ih h
      simp only [GoMap.keys, List.map_cons, List.mem_cons]
      exact Or.inr this

/-! ## What a returned outcome says about the recursive call -/

theorem wrapElem_reg {wrap : Schema → Schema} {o : Outcome Derived}
    {res : Except errorSupport Schema} {s1 : Registry}
    (h : wrapElem wrap o = .returned (res, s1)) : ∃ res0, o = .returned (res0, s1) := by
  cases o with
  | outOfFuel => simp [wrapElem] at h
  | panic => simp [wrapElem] at h
  | returned r0 =>
    obtain ⟨res0, s0⟩ := r0
    cases res0 with
    | error e => simp [wrapElem] at h; exact ⟨_, by rw [h.2]⟩
    | ok sch => simp [wrapElem] at h; exact ⟨_, by rw [h.2]⟩

theorem wrapElem_ok {wrap : Schema → Schema} {o : Outcome Derived}
    {r : Schema} {s1 : Registry}
    (h : wrapElem wrap o = .returned (.ok r, s1)) :
    ∃ r0, o = .returned (.ok r0, s1) ∧ r = wrap r0 := by
  cases o with
  | outOfFuel => simp [wrapElem] at h
  | panic => simp [wrapElem] at h
  | returned r0 =>
    obtain ⟨res0, s0⟩ := r0
    cases res0 with
    | error e => simp [wrapElem] at h
    | ok sch => simp [wrapElem] at h; exact ⟨sch, by rw [h.2], h.1.symm⟩

theorem schemaByType_leaf (env : Env) (fuel t : Nat) (s s1 : Registry)
    (res : Except errorSupport Schema)
    (h1 : (env t).kind ≠ .Array) (h2 : (env t).kind ≠ .Slice) (h3 : (env t).kind ≠ .Map)
    (h4 : (env t).kind ≠ .Ptr) (h5 : (env t).kind ≠ .Struct)
    (h : schemaByType env (fuel + 1) (some t) s = .returned (res, s1)) : s1 = s := by
  cases hk : (env t).kind <;> simp_all [schemaByType]

theorem reachable_head {env : Env} {t w v : Nat} (hc : Component env t w)
    (hr : Reachable env w v) : Reachable env t v :=
  Relation.ReflTransGen.head hc hr

/-! ## The keys of the registry are names of reachable struct types -/

theorem structFields_keys (env : Env) (d : Nat → Registry → Outcome Derived)
    (hd : ∀ t a res b, d t a = .returned (res, b) → ∀ k ∈ b.keys,
      k ∈ a.keys ∨ ∃ v, Reachable env t v ∧ (env v).kind = .Struct ∧ (env v).name = k) :
    ∀ (fs : List StructField) (acc : List SchemaField) (s s1 : Registry)
      (res : Except errorSupport (List SchemaField)),
      structFields d fs acc s = .returned (res, s1) → ∀ k ∈ s1.keys,
        k ∈ s.keys ∨ ∃ sf ∈ fs, ∃ v, Reachable env sf.Typ v ∧ (env v).kind = .Struct ∧
          (env v).name = k := by
  intro fs
  induction fs with
  | nil =>
    intro acc s s1 res h k hk
    simp [structFields] at h
    rw [← h.2] at hk
    exact Or.inl hk
  | cons x rest ih =>
    intro acc s s1 res h k hk
    rw [structFields_cons] at h
    cases hx : d x.Typ s with
    | outOfFuel => rw [hx] at h; simp at h
    | panic => rw [hx] at h; simp at h
    | returned r =>
      rw [hx] at h
      obtain ⟨resx, s2⟩ := r
      have hstep := hd _ _ _ _ hx
      cases resx with
      | error e =>
        simp at h
        rw [← h.2] at hk
        rcases hstep k hk with h1 | ⟨v, hv⟩
        · exact Or.inl h1
        · exact Or.inr ⟨x, List.mem_cons_self _ _, v, hv⟩
      | ok sch =>
        rcases ih _ _ _ _ h k hk with h1 | ⟨sf, hsf, v, hv⟩
        · rcases hstep k h1 with h2 | ⟨v, hv⟩
          · exact Or.inl h2
          · exact Or.inr ⟨x, List.mem_cons_self _ _, v, hv⟩
        · exact Or.inr ⟨sf, List.mem_cons_of_mem _ hsf, v, hv⟩

theorem schemaByType_keys (env : Env) :
    ∀ (fuel t : Nat) (s s1 : Registry) (res : Except errorSupport Schema),
      schemaByType env fuel (some t) s = .returned (res, s1) → ∀ k ∈ s1.keys,
        k ∈ s.keys ∨ ∃ v, Reachable env t v ∧ (env v).kind = .Struct ∧ (env v).name = k := by
  intro fuel
  induction fuel with
  | zero => intro t s s1 res h; simp [schemaByType] at h
  | succ n ih =>
    intro t s s1 res h k hk
    by_cases hseq : (env t).kind = .Array ∨ (env t).kind = .Slice
    · rw [schemaByType_seq _ _ _ _ hseq] at h
      by_cases he : (env (env t).elem).kind = .Uint8
      · rw [if_pos he] at h
        simp at h
        rw [← h.2] at hk; exact Or.inl hk
      · rw [if_neg he] at h
        obtain ⟨res0, h0⟩ := wrapElem_reg h
        rcases ih _ _ _ _ h0 k hk with h1 | ⟨v, hv, hs⟩
        · exact Or.inl h1
        · exact Or.inr ⟨v, reachable_head (Component.elem hseq he) hv, hs⟩
    by_cases hmap : (env t).kind = .Map
    · rw [schemaByType_map _ _ _ _ hmap] at h
      by_cases he : (env (env t).key).kind ≠ .String
      · rw [if_pos he] at h
        simp at h
        rw [← h.2] at hk; exact Or.inl hk
      · rw [if_neg he] at h
        obtain ⟨res0, h0⟩ := wrapElem_reg h
        rcases ih _ _ _ _ h0 k hk with h1 | ⟨v, hv, hs⟩
        · exact Or.inl h1
        · exact Or.inr ⟨v, reachable_head (Component.value hmap) hv, hs⟩
    by_cases hptr : (env t).kind = .Ptr
    · rw [schemaByType_ptr _ _ _ _ hptr] at h
      obtain ⟨res0, h0⟩ := wrapElem_reg h
      rcases ih _ _ _ _ h0 k hk with h1 | ⟨v, hv, hs⟩
      · exact Or.inl h1
      · exact Or.inr ⟨v, reachable_head (Component.referent hptr) hv, hs⟩
    by_cases hst : (env t).kind = .Struct
    · rw [schemaByType_struct _ _ _ _ hst] at h
      cases hg : GoMap.get s (env t).name with
      | some actual =>
        rw [hg] at h
        simp at h
        rw [← h.2] at hk; exact Or.inl hk
      | none =>
        rw [hg] at h
        simp only at h
        obtain ⟨r0, h0⟩ := finishRecord_returned h
        obtain ⟨resf, s2⟩ := r0
        have hfields := structFields_keys env _ (fun t a res b hr => ih t a b res hr) _ _ _ _ _ h0
        rw [h0] at h
        have hin : k ∈ s2.keys ∨ k = (env t).name := by
          cases resf with
          | error e =>
            simp [finishRecord] at h
            rw [← h.2] at hk; exact Or.inl hk
          | ok fl =>
            simp [finishRecord] at h
            rw [← h.2] at hk
            rcases (GoMap.mem_keys_set _ _ _ _).1 hk with h1 | h1
            · exact Or.inr h1
            · exact Or.inl h1
        rcases hin with h1 | h1
        · rcases hfields k h1 with h2 | ⟨sf, hsf, v, hv, hs⟩
          · exact Or.inl h2
          · exact Or.inr ⟨v, reachable_head (Component.field hst hsf) hv, hs⟩
        · exact Or.inr ⟨t, Relation.ReflTransGen.refl, hst, h1.symm⟩
    · push_neg at hseq
      have := schemaByType_leaf env n t s s1 res hseq.1 hseq.2 hmap hptr hst h
      rw [this] at hk; exact Or.inl hk

/-! ## Every reachable struct type is registered -/

theorem finishRecord_ok {name : String}
    {o : Outcome (Except errorSupport (List SchemaField) × Registry)} {r : Schema}
    {s1 : Registry} (h : finishRecord name o = .returned (.ok r, s1)) :
    ∃ fl s2, o = .returned (.ok fl, s2) ∧ s1 = s2.set name (.mk name fl) ∧
      r = .RecordSchema (.mk name fl) := by
  cases o with
  | outOfFuel => simp [finishRecord] at h
  | panic => simp [finishRecord] at h
  | returned r0 =>
    obtain ⟨res0, s0⟩ := r0
    cases res0 with
    | error e => simp [finishRecord] at h
    | ok fl => simp [finishRecord] at h; exact ⟨fl, s0, rfl, h.2.symm, h.1.symm⟩

theorem no_component_of_leaf (env : Env) (t : Nat)
    (h1 : (env t).kind ≠ .Array) (h2 : (env t).kind ≠ .Slice) (h3 : (env t).kind ≠ .Map)
    (h4 : (env t).kind ≠ .Ptr) (h5 : (env t).kind ≠ .Struct) :
    ∀ w, ¬ Component env t w := by
  intro w hc
  cases hc with
  | elem hk _ => rcases hk with hk | hk <;> contradiction
  | value hk => contradiction
  | referent hk => contradiction
  | field hk _ => contradiction

theorem covered_of_components {env : Env} {t : Nat} {s : Registry}
    (hself : (env t).kind = .Struct → (env t).name ∈ s.keys)
    (hcomp : ∀ w, Component env t w → Covered env w s) : Covered env t s := by
  intro v hv hs
  rcases Relation.ReflTransGen.cases_head hv with heq | ⟨w, hw, hwv⟩
  · subst heq; exact hself hs
  · exact hcomp w hw v hwv hs

theorem covered_mono {env : Env} {t : Nat} {s s1 : Registry}
    (hsub : ∀ k ∈ s.keys, k ∈ s1.keys) (h : Covered env t s) : Covered env t s1 :=
  fun v hv hs => hsub _ (h v hv hs)

theorem structFields_closed (env : Env) (root : Nat) (d : Nat → Registry → Outcome Derived)
    (hd : ∀ t a r b, Reachable env root t → Closed env root a → d t a = .returned (.ok r, b) →
      Closed env root b ∧ (∀ k ∈ a.keys, k ∈ b.keys) ∧ Covered env t b) :
    ∀ (fs : List StructField) (acc fl : List SchemaField) (s s1 : Registry),
      (∀ sf ∈ fs, Reachable env root sf.Typ) → Closed env root s →
      structFields d fs acc s = .returned (.ok fl, s1) →
      Closed env root s1 ∧ (∀ k ∈ s.keys, k ∈ s1.keys) ∧
        ∀ sf ∈ fs, Covered env sf.Typ s1 := by
  intro fs
  induction fs with
  | nil =>
    intro acc fl s s1 _ hcl h
    simp [structFields] at h
    rw [← h.2]
    exact ⟨hcl, fun k hk => hk, fun sf hsf => by simp at hsf⟩
  | cons x rest ih =>
    intro acc fl s s1 hreach hcl h
    rw [structFields_cons] at h
    cases hx : d x.Typ s with
    | outOfFuel => rw [hx] at h; simp at h
    | panic => rw [hx] at h; simp at h
    | returned r =>
      rw [hx] at h
      obtain ⟨resx, s2⟩ := r
      cases resx with
      | error e => simp at h
      | ok sch =>
        obtain ⟨hcl2, hsub2, hcov2⟩ := hd _ _ _ _ (hreach x (List.mem_cons_self _ _)) hcl hx
        obtain ⟨hcl1, hsub1, hcov1⟩ :=
          ih _ _ _ _ (fun sf hsf => hreach sf (List.mem_cons_of_mem _ hsf)) hcl2 h
        refine ⟨hcl1, fun k hk => hsub1 k (hsub2 k hk), fun sf hsf => ?_⟩
        rcases List.mem_cons.1 hsf with heq | hmem
        · subst heq; exact covered_mono hsub1 hcov2
        · exact hcov1 sf hmem

theorem schemaByType_closed (env : Env) (root : Nat) (hnames : DistinctNames env root) :
    ∀ (fuel t : Nat) (s s1 : Registry) (r : Schema),
      Reachable env root t → Closed env root s →
      schemaByType env fuel (some t) s = .returned (.ok r, s1) →
      Closed env root s1 ∧ (∀ k ∈ s.keys, k ∈ s1.keys) ∧ Covered env t s1 := by
  intro fuel
  induction fuel with
  | zero => intro t s s1 r _ _ h; simp [schemaByType] at h
  | succ n ih =>
    intro t s s1 r hrt hcl h
    by_cases hseq : (env t).kind = .Array ∨ (env t).kind = .Slice
    · have hns : (env t).kind ≠ .Struct := by rcases hseq with hk | hk <;> simp [hk]
      rw [schemaByType_seq _ _ _ _ hseq] at h
      by_cases he : (env (env t).elem).kind = .Uint8
      · rw [if_pos he] at h
        simp at h
        rw [← h.2]
        refine ⟨hcl, fun k hk => hk, covered_of_components (fun hs => absurd hs hns) ?_⟩
        intro w hw
        cases hw with
        | elem _ he1 => exact absurd he he1
        | value hk => rcases hseq with h1 | h1 <;> rw [h1] at hk <;> simp at hk
        | referent hk => rcases hseq with h1 | h1 <;> rw [h1] at hk <;> simp at hk
        | field hk _ => exact absurd hk hns
      · rw [if_neg he] at h
        obtain ⟨r0, h0, _⟩ := wrapElem_ok h
        obtain ⟨hcl1, hsub1, hcov1⟩ :=
          ih _ _ _ _ (Relation.ReflTransGen.tail hrt (Component.elem hseq he)) hcl h0
        refine ⟨hcl1, hsub1, covered_of_components (fun hs => absurd hs hns) ?_⟩
        intro w hw
        cases hw with
        | elem _ _ => exact hcov1
        | value hk => rcases hseq with h1 | h1 <;> rw [h1] at hk <;> simp at hk
        | referent hk => rcases hseq with h1 | h1 <;> rw [h1] at hk <;> simp at hk
        | field hk _ => exact absurd hk hns
    by_cases hmap : (env t).kind = .Map
    · have hns : (env t).kind ≠ .Struct := by simp [hmap]
      rw [schemaByType_map _ _ _ _ hmap] at h
      by_cases he : (env (env t).key).kind ≠ .String
      · rw [if_pos he] at h; simp at h
      · rw [if_neg he] at h
        obtain ⟨r0, h0, _⟩ := wrapElem_ok h
        obtain ⟨hcl1, hsub1, hcov1⟩ :=
          ih _ _ _ _ (Relation.ReflTransGen.tail hrt (Component.value hmap)) hcl h0
        refine ⟨hcl1, hsub1, covered_of_components (fun hs => absurd hs hns) ?_⟩
        intro w hw
        cases hw with
        | elem hk _ => exact absurd hk hseq
        | value _ => exact hcov1
        | referent hk => rw [hmap] at hk; simp at hk
        | field hk _ => exact absurd hk hns
    by_cases hptr : (env t).kind = .Ptr
    · have hns : (env t).kind ≠ .Struct := by simp [hptr]
      rw [schemaByType_ptr _ _ _ _ hptr] at h
      obtain ⟨r0, h0, _⟩ := wrapElem_ok h
      obtain ⟨hcl1, hsub1, hcov1⟩ :=
        ih _ _ _ _ (Relation.ReflTransGen.tail hrt (Component.referent hptr)) hcl h0
      refine ⟨hcl1, hsub1, covered_of_components (fun hs => absurd hs hns) ?_⟩
      intro w hw
      cases hw with
      | elem hk _ => exact absurd hk hseq
      | value hk => exact absurd hk hmap
      | referent _ => exact hcov1
      | field hk _ => exact absurd hk hns
    by_cases hst : (env t).kind = .Struct
    · rw [schemaByType_struct _ _ _ _ hst] at h
      cases hg : GoMap.get s (env t).name with
      | some actual =>
        rw [hg] at h
        simp at h
        rw [← h.2]
        exact ⟨hcl, fun k hk => hk, hcl t hrt hst (GoMap.mem_keys_of_get _ _ _ hg)⟩
      | none =>
        rw [hg] at h
        simp only at h
        obtain ⟨fl, s2, h0, hs1, _⟩ := finishRecord_ok h
        obtain ⟨hcl2, hsub2, hcov2⟩ :=
          structFields_closed env root _ (fun t a r b hr hc hd => ih t a b r hr hc hd)
            _ _ _ _ _
            (fun sf hsf => Relation.ReflTransGen.tail hrt (Component.field hst hsf)) hcl h0
        have hsub : ∀ k ∈ s2.keys, k ∈ s1.keys := by
          intro k hk; rw [hs1]; exact (GoMap.mem_keys_set _ _ _ _).2 (Or.inr hk)
        have hself : (env t).name ∈ s1.keys := by
          rw [hs1]; exact (GoMap.mem_keys_set _ _ _ _).2 (Or.inl rfl)
        have hcovt : Covered env t s1 := by
          refine covered_of_components (fun _ => hself) ?_
          intro w hw
          cases hw with
          | elem hk _ => exact absurd hk hseq
          | value hk => exact absurd hk hmap
          | referent hk => exact absurd hk hptr
          | field _ hsf => exact covered_mono hsub (hcov2 _ hsf)
        refine ⟨?_, fun k hk => hsub k (hsub2 k hk), hcovt⟩
        intro u hru hus hu
        rw [hs1] at hu
        rcases (GoMap.mem_keys_set _ _ _ _).1 hu with hname | hin
        · have henv : env u = env t := hnames u t hru hrt hus hst hname
          refine covered_of_components (fun _ => by rw [henv]; exact hself) ?_
          intro w hw
          have hw1 : Component env t w := by
            cases hw with
            | elem hk _ => rcases hk with hk | hk <;> rw [hus] at hk <;> simp at hk
            | value hk => rw [hus] at hk; simp at hk
            | referent hk => rw [hus] at hk; simp at hk
            | field _ hsf => rw [henv] at hsf; exact Component.field hst hsf
          exact fun v hv hs => hcovt v (reachable_head hw1 hv) hs
        · exact covered_mono hsub (hcl2 u hru hus hin)
    · push_neg at hseq
      have hs1 := schemaByType_leaf env n t s s1 (.ok r) hseq.1 hseq.2 hmap hptr hst h
      have hno := no_component_of_leaf env t hseq.1 hseq.2 hmap hptr hst
      rw [hs1]
      exact ⟨hcl, fun k hk => hk,
        covered_of_components (fun hs => absurd hs hst) (fun w hw => absurd hw (hno w))⟩

/-! ## The name set built by `Generate`, and the sample table -/

theorem nameSet_keys (l : List String) :
    ∀ (acc : GoMap Bool) (k : String),
      k ∈ (l.foldl (fun recordNames recordName => GoMap.set recordNames recordName true)
        acc).keys ↔ k ∈ l ∨ k ∈ acc.keys := by
  induction l with
  | nil => intro acc k; simp
  | cons x rest ih =>
    intro acc k
    rw [List.foldl_cons, ih, GoMap.mem_keys_set, List.mem_cons]
    tauto

theorem nameSet_true (l : List String) :
    ∀ (acc : GoMap Bool), (∀ e ∈ acc, e.2 = true) →
      ∀ e ∈ l.foldl (fun recordNames recordName => GoMap.set recordNames recordName true) acc,
        e.2 = true := by
  induction l with
  | nil => intro acc h; simpa using h
  | cons x rest ih =>
    intro acc h
    rw [List.foldl_cons]
    apply ih
    intro e he
    simp only [GoMap.set, List.mem_cons, List.mem_filter] at he
    rcases he with rfl | ⟨he, _⟩
    · rfl
    · exact h e he

theorem sampleEnv_struct (u : Nat) (h : (sampleEnv u).kind = .Struct) :
    u = 0 ∨ u = 4 ∨ u = 10 ∨ u = 12 ∨ u = 14 ∨ u = 16 ∨ u = 25 := by
  unfold sampleEnv at h
  split at h <;> simp_all

theorem sampleEnv_distinctNames (root : Nat) : DistinctNames sampleEnv root := by
  intro u v _ _ hu hv hn
  rcases sampleEnv_struct u hu with rfl | rfl | rfl | rfl | rfl | rfl | rfl <;>
    rcases sampleEnv_struct v hv with rfl | rfl | rfl | rfl | rfl | rfl | rfl <;>
    first
      | rfl
      | exact absurd hn (by decide)

/-! ## C1, C2: records are stored after their fields -/

theorem nodeEnv_outOfFuel (fuel : Nat) :
    schemaByType nodeEnv fuel (some 0) [] = .outOfFuel ∧
    schemaByType nodeEnv fuel (some 1) [] = .outOfFuel := by
  induction fuel with
  | zero => exact ⟨rfl, rfl⟩
  | succ n ih =>
    constructor
    · rw [schemaByType_struct nodeEnv n 0 [] rfl]
      simp [GoMap.get, nodeEnv, exportedField, structFields, ih.2, finishRecord]
    · rw [schemaByType_seq nodeEnv n 1 [] (Or.inr rfl)]
      simp [nodeEnv, ih.1, wrapElem]

/-- C1 (the code at the failing input): for `type Node struct { Children
[]Node }` and an empty registry, `schemaByType` does not return, whatever the
recursion budget; `Generate` does not return either.  The record is stored
only after the loop over its fields, so the inner occurrence of `Node` finds
no entry and is expanded again. -/
theorem C1_self_reference_never_returns (fuel : Nat) :
    schemaByType nodeEnv fuel (some 0) [] = .outOfFuel ∧
    ∀ render : Schema → String, Generate nodeEnv render fuel (some 0) = .outOfFuel := by
  refine ⟨(nodeEnv_outOfFuel fuel).1, fun render => ?_⟩
  simp [Generate, (nodeEnv_outOfFuel fuel).1]

/-- C2 (the code at the failing input): for `struct { A struct { X int } }`
and an empty registry, `schemaByType` returns a record named `""` whose field
`A` is again a full record named `""`, not a reference: the name occurs twice
as a `Record` node of the tree. -/
theorem C2_nested_same_name_two_records :
    schemaByType nestedAnonEnv 3 (some 0) [] =
      .returned (.ok (.RecordSchema (.mk "" [.mk "A" (.RecordSchema (.mk "" [.mk "X" .LongSchema]))])),
        [("", .mk "" [.mk "A" (.RecordSchema (.mk "" [.mk "X" .LongSchema]))])]) ∧
    (Schema.RecordSchema (.mk "" [.mk "A" (.RecordSchema (.mk "" [.mk "X" .LongSchema]))])).recordNodes
      = ["", ""] := by
  exact ⟨rfl, rfl⟩

/-! ## C3: the name set of `Generate` -/

/-- C3 (counterexample): for `struct { A struct{}; B struct { Y Bar } }`
`Generate` succeeds with the name set `{"": true}`, although the struct type
`Bar` is reachable from the input (field `B`, then field `Y`): the type of `B`
has the name of the type of `A`, which is registered by then, so its fields
are not walked. -/
theorem C3_shadowed_struct_not_named :
    (∀ render : Schema → String, Generate shadowEnv render 3 (some 0) =
      .returned ⟨render (.RecordSchema (.mk "" [.mk "A" (.RecordSchema (.mk "" [])),
          .mk "B" (.RecursiveSchema (.mk "" []))])), some [("", true)], none⟩) ∧
    Reachable shadowEnv 0 3 ∧ (shadowEnv 3).kind = .Struct ∧ (shadowEnv 3).name = "Bar" ∧
    "Bar" ∉ GoMap.keys [("", true)] := by
  refine ⟨fun render => rfl, ?_, rfl, rfl, by decide⟩
  exact Relation.ReflTransGen.head
    (@Component.field shadowEnv 0 (exportedField "B" 2) rfl (by simp [shadowEnv]))
    (Relation.ReflTransGen.single
      (@Component.field shadowEnv 2 (exportedField "Y" 3) rfl (by simp [shadowEnv])))

/-! ## C4 .. C7: scalars and bytes -/

/-- C4: on a scalar type `schemaByType` returns without error and leaves the
registry as it was, the schema being fixed by the kind alone: `bool` gives
Boolean; `int8`, `int16`, `int32`, `uint8`, `uint16` give Int; `int`, `int64`,
`uint64` give Long; `string` gives String; `float32` gives Float; `float64`
gives Double. -/
theorem C4_scalar_kinds (env : Env) (fuel t : Nat) (schemas : Registry) :
    ((env t).kind = .Bool →
      schemaByType env (fuel + 1) (some t) schemas = .returned (.ok .BooleanSchema, schemas)) ∧
    (((env t).kind = .Int8 ∨ (env t).kind = .Int16 ∨ (env t).kind = .Int32 ∨
        (env t).kind = .Uint8 ∨ (env t).kind = .Uint16) →
      schemaByType env (fuel + 1) (some t) schemas = .returned (.ok .IntSchema, schemas)) ∧
    (((env t).kind = .Int ∨ (env t).kind = .Int64 ∨ (env t).kind = .Uint64) →
      schemaByType env (fuel + 1) (some t) schemas = .returned (.ok .LongSchema, schemas)) ∧
    ((env t).kind = .String →
      schemaByType env (fuel + 1) (some t) schemas = .returned (.ok .StringSchema, schemas)) ∧
    ((env t).kind = .Float32 →
      schemaByType env (fuel + 1) (some t) schemas = .returned (.ok .FloatSchema, schemas)) ∧
    ((env t).kind = .Float64 →
      schemaByType env (fuel + 1) (some t) schemas = .returned (.ok .DoubleSchema, schemas)) := by
  refine ⟨?_, ?_, ?_, ?_, ?_, ?_⟩
  · intro h; simp only [schemaByType, h]
  · intro h; rcases h with h | h | h | h | h <;> simp only [schemaByType, h]
  · intro h; rcases h with h | h | h <;> simp only [schemaByType, h]
  · intro h; simp only [schemaByType, h]
  · intro h; simp only [schemaByType, h]
  · intro h; simp only [schemaByType, h]

/-- C5 (the code at the failing input): a type of kind `int` derives to Long,
but a type of kind `uint` is rejected with the error of an unsupported kind;
`Generate` on a `uint` value returns that error. -/
theorem C5_uint_is_rejected :
    (∀ (fuel : Nat) (schemas : Registry),
      schemaByType sampleEnv (fuel + 1) (some 1) schemas = .returned (.ok .LongSchema, schemas)) ∧
    (sampleEnv 20).kind = .Uint ∧
    (∀ (fuel : Nat) (schemas : Registry),
      schemaByType sampleEnv (fuel + 1) (some 20) schemas =
        .returned (.error ⟨"uint will not be supported"⟩, schemas)) ∧
    (∀ (render : Schema → String) (fuel : Nat),
      Generate sampleEnv render (fuel + 1) (some 20) =
        .returned ⟨"", none, some ⟨"uint will not be supported"⟩⟩) := by
  refine ⟨fun fuel schemas => rfl, rfl, fun fuel schemas => ?_, fun render fuel => ?_⟩
  · simp [schemaByType, sampleEnv]; decide
  · simp [Generate, schemaByType, sampleEnv]; decide

/-- C6 (counterexample): the type `uint32`, a fixed-width integer of 32 bits,
derives to Long, not to Int. -/
theorem C6_uint32_is_long :
    (sampleEnv 22).kind = .Uint32 ∧
    schemaByType sampleEnv 1 (some 22) [] = .returned (.ok .LongSchema, []) ∧
    schemaByType sampleEnv 1 (some 22) [] ≠ .returned (.ok .IntSchema, []) := by
  refine ⟨rfl, rfl, ?_⟩
  intro h
  have h2 : schemaByType sampleEnv 1 (some 22) [] = .returned (.ok .LongSchema, []) := rfl
  rw [h2] at h
  simp at h

/-- C6 (amended): the kinds `int8`, `int16`, `int32`, `uint8` and `uint16`
derive to Int; the kind `uint32` derives to Long; in both cases the registry
is left as it was. -/
theorem C6_int_kinds (env : Env) (fuel t : Nat) (schemas : Registry) :
    (((env t).kind = .Int8 ∨ (env t).kind = .Int16 ∨ (env t).kind = .Int32 ∨
        (env t).kind = .Uint8 ∨ (env t).kind = .Uint16) →
      schemaByType env (fuel + 1) (some t) schemas = .returned (.ok .IntSchema, schemas)) ∧
    ((env t).kind = .Uint32 →
      schemaByType env (fuel + 1) (some t) schemas = .returned (.ok .LongSchema, schemas)) := by
  refine ⟨?_, ?_⟩
  · intro h; rcases h with h | h | h | h | h <;> simp only [schemaByType, h]
  · intro h; simp only [schemaByType, h]

/-- C7: an array or slice whose element kind is `uint8` derives to Bytes, for
every registry, which is left as it was; one level of budget is enough, the
element type is not derived. -/
theorem C7_bytes (env : Env) (fuel t : Nat) (schemas : Registry)
    (hk : (env t).kind = .Array ∨ (env t).kind = .Slice)
    (he : (env (env t).elem).kind = .Uint8) :
    schemaByType env (fuel + 1) (some t) schemas = .returned (.ok .BytesSchema, schemas) := by
  rw [schemaByType_seq env fuel t schemas hk, if_pos he]

/-- C7 (witness): `[]byte`, with the record of another type in the registry. -/
theorem C7_bytes_witness :
    schemaByType sampleEnv 1 (some 6) [("someMore", .mk "someMore" [])] =
      .returned (.ok .BytesSchema, [("someMore", .mk "someMore" [])]) :=
  C7_bytes sampleEnv 0 6 [("someMore", .mk "someMore" [])] (Or.inr rfl) rfl

/-! ## C8 .. C10: sequences, maps, pointers -/

/-- C8: when the element type derives to schema `s`, leaving registry
`schemas1`, an array or slice whose element kind is not `uint8` derives to
`Array{Items: s}` and a map whose key kind is `string` derives to
`Map{Values: s}`, in both cases leaving registry `schemas1`. -/
theorem C8_array_and_map (env : Env) (fuel t : Nat) (schemas schemas1 : Registry) (s : Schema)
    (hd : schemaByType env fuel (some (env t).elem) schemas = .returned (.ok s, schemas1)) :
    (((env t).kind = .Array ∨ (env t).kind = .Slice) → (env (env t).elem).kind ≠ .Uint8 →
      schemaByType env (fuel + 1) (some t) schemas =
        .returned (.ok (.ArraySchema s), schemas1)) ∧
    ((env t).kind = .Map → (env (env t).key).kind = .String →
      schemaByType env (fuel + 1) (some t) schemas =
        .returned (.ok (.MapSchema s), schemas1)) := by
  constructor
  · intro hk he
    rw [schemaByType_seq env fuel t schemas hk, if_neg he, hd]
    rfl
  · intro hk he
    rw [schemaByType_map env fuel t schemas hk, if_neg (by simp [he]), hd]
    rfl

/-- C8 (witness): `[]someMore` derives to an array of the record `someMore`,
which the call leaves in the registry, and `map[string]int` to a map of
Long. -/
theorem C8_array_and_map_witness :
    schemaByType sampleEnv 3 (some 11) [] =
      .returned (.ok (.ArraySchema (.RecordSchema (.mk "someMore" [.mk "name" .StringSchema]))),
        [("someMore", .mk "someMore" [.mk "name" .StringSchema])]) ∧
    schemaByType sampleEnv 2 (some 2) [] = .returned (.ok (.MapSchema .LongSchema), []) :=
  ⟨(C8_array_and_map sampleEnv 2 11 [] _ _ rfl).1 (Or.inr rfl) (by decide),
   (C8_array_and_map sampleEnv 1 2 [] _ _ rfl).2 rfl rfl⟩

/-- C9: a map type whose key kind is not `string` is rejected by
`schemaByType` with the error of `errorSupport` for such maps, for every
registry, which is left as it was, and with one level of budget (the value
type is not derived); and when a run of `Generate` reaches such a map in a
nested call, `Generate` returns the empty string, the nil name set and that
error. -/
theorem C9_map_key_rejected (env : Env) (t : Nat)
    (hk : (env t).kind = .Map) (hkey : (env (env t).key).kind ≠ .String) :
    (∀ (fuel : Nat) (schemas : Registry),
      schemaByType env (fuel + 1) (some t) schemas =
        .returned (.error ⟨"Do not support map with non-string key"⟩, schemas)) ∧
    (∀ (root : Nat) (schemas1 : Registry), Calls env root [] t schemas1 →
      ∃ fuel0, ∀ fuel, fuel0 ≤ fuel → ∀ render : Schema → String,
        Generate env render fuel (some root) =
          .returned ⟨"", none, some ⟨"Do not support map with non-string key"⟩⟩) := by
  have h1 : ∀ (fuel : Nat) (schemas : Registry),
      schemaByType env (fuel + 1) (some t) schemas =
        .returned (.error ⟨"Do not support map with non-string key"⟩, schemas) := by
    intro fuel schemas
    rw [schemaByType_map env fuel t schemas hk, if_pos hkey]
  refine ⟨h1, fun root schemas1 hc => ?_⟩
  obtain ⟨f0, h0⟩ := calls_error env hc _ schemas1
    ⟨1, fun f hf => by
      obtain ⟨f1, rfl⟩ : ∃ f1, f = f1 + 1 := ⟨f - 1, by omega⟩
      exact h1 f1 schemas1⟩
  refine ⟨f0, fun fuel hf render => ?_⟩
  simp [Generate, h0 fuel hf]

/-- C9 (witness): `map[int]string` is rejected, and so is `Holder`, a struct
whose second field is that map. -/
theorem C9_map_key_rejected_witness :
    schemaByType sampleEnv 1 (some 21) [] =
      .returned (.error ⟨"Do not support map with non-string key"⟩, []) ∧
    ∃ fuel0, ∀ fuel, fuel0 ≤ fuel → ∀ render : Schema → String,
      Generate sampleEnv render fuel (some 25) =
        .returned ⟨"", none, some ⟨"Do not support map with non-string key"⟩⟩ :=
  ⟨(C9_map_key_rejected sampleEnv 21 rfl (by decide)).1 0 [],
   (C9_map_key_rejected sampleEnv 21 rfl (by decide)).2 25 []
     (@Calls.field sampleEnv 25 21 [] [] [] 1 [exportedField "Name" 3] []
       (exportedField "M" 21) [.mk "Name" .StringSchema]
       rfl rfl rfl rfl (Calls.here 21 []))⟩

/-- C10: for a pointer type, when the referent derives to schema `s` the
pointer derives to the union of exactly Null and `s`, in that order, with the
registry the referent left; when the referent fails with an error the pointer
fails with the same error. -/
theorem C10_pointer (env : Env) (fuel t : Nat) (schemas : Registry)
    (hk : (env t).kind = .Ptr) :
    (∀ (s : Schema) (schemas1 : Registry),
      schemaByType env fuel (some (env t).elem) schemas = .returned (.ok s, schemas1) →
      schemaByType env (fuel + 1) (some t) schemas =
        .returned (.ok (.UnionSchema [.NullSchema, s]), schemas1)) ∧
    (∀ (e : errorSupport) (schemas1 : Registry),
      schemaByType env fuel (some (env t).elem) schemas = .returned (.error e, schemas1) →
      schemaByType env (fuel + 1) (some t) schemas = .returned (.error e, schemas1)) := by
  constructor
  · intro s schemas1 hd
    rw [schemaByType_ptr env fuel t schemas hk, hd]
    rfl
  · intro e schemas1 hd
    rw [schemaByType_ptr env fuel t schemas hk, hd]
    rfl

/-- C10 (witness): `*int` (a primitive), `*Pointer` with `Pointer` already in
the registry (a reference), `**int` (a pointer) and `*map[int]string` (a
failing referent). -/
theorem C10_pointer_witness :
    schemaByType sampleEnv 2 (some 15) [] =
      .returned (.ok (.UnionSchema [.NullSchema, .LongSchema]), []) ∧
    schemaByType sampleEnv 2 (some 18) [("Pointer", .mk "Pointer" [])] =
      .returned (.ok (.UnionSchema [.NullSchema, .RecursiveSchema (.mk "Pointer" [])]),
        [("Pointer", .mk "Pointer" [])]) ∧
    schemaByType sampleEnv 3 (some 23) [] =
      .returned (.ok (.UnionSchema [.NullSchema, .UnionSchema [.NullSchema, .LongSchema]]), []) ∧
    schemaByType sampleEnv 2 (some 24) [] =
      .returned (.error ⟨"Do not support map with non-string key"⟩, []) :=
  ⟨(C10_pointer sampleEnv 1 15 [] rfl).1 _ _ rfl,
   (C10_pointer sampleEnv 1 18 [("Pointer", .mk "Pointer" [])] rfl).1 _ _ rfl,
   (C10_pointer sampleEnv 2 23 [] rfl).1 _ _ rfl,
   (C10_pointer sampleEnv 1 24 [] rfl).2 _ _ rfl⟩

/-! ## The loop over the fields -/

theorem structFields_of_fieldsDerive (env : Env) (fuel : Nat) {fs : List StructField}
    {s s1 : Registry} {fl : List SchemaField} (h : FieldsDerive env fuel fs s fl s1) :
    ∀ acc : List SchemaField,
      structFields (fun ft r => schemaByType env fuel (some ft) r) fs acc s =
        .returned (.ok (acc ++ fl), s1) := by
  induction h with
  | nil s => intro acc; simp [structFields]
  | cons hd _ ih =>
    intro acc
    rw [structFields_cons]
    simp only [hd]
    rw [ih]
    simp

theorem fieldsDerive_of_structFields (env : Env) (fuel : Nat) :
    ∀ (fs : List StructField) (acc out : List SchemaField) (s s1 : Registry),
      structFields (fun ft r => schemaByType env fuel (some ft) r) fs acc s =
        .returned (.ok out, s1) →
      ∃ fl, out = acc ++ fl ∧ FieldsDerive env fuel fs s fl s1 := by
  intro fs
  induction fs with
  | nil =>
    intro acc out s s1 h
    simp [structFields] at h
    exact ⟨[], by simp [h.1], by rw [h.2]; exact FieldsDerive.nil _⟩
  | cons x rest ih =>
    intro acc out s s1 h
    rw [structFields_cons] at h
    cases hx : schemaByType env fuel (some x.Typ) s with
    | outOfFuel => simp only [hx] at h; simp at h
    | panic => simp only [hx] at h; simp at h
    | returned r =>
      simp only [hx] at h
      obtain ⟨res, s2⟩ := r
      cases res with
      | error e => simp at h
      | ok sch =>
        obtain ⟨fl, hout, hfd⟩ := ih _ _ _ _ h
        exact ⟨_ :: fl, by simp [hout], FieldsDerive.cons hx hfd⟩

theorem fieldsDerive_length {env : Env} {fuel : Nat} {fs : List StructField}
    {s s1 : Registry} {fl : List SchemaField} (h : FieldsDerive env fuel fs s fl s1) :
    fl.length = fs.length ∧ fl.map SchemaField.Name = fs.map getNameByJSONTag := by
  induction h with
  | nil s => simp
  | cons _ _ ih => simp [ih.1, ih.2, SchemaField.Name]

theorem GoMap.get_filter_ne {V : Type} (m : GoMap V) (k k1 : String) (hk : k ≠ k1) :
    GoMap.get (m.filter (fun e => decide (e.1 ≠ k))) k1 = GoMap.get m k1 := by
  induction m with
  | nil => rfl
  | cons e rest ih =>
    obtain ⟨k2, v2⟩ := e
    rw [List.filter_cons]
    by_cases h2 : k2 = k
    · have hd : decide ((k2, v2).1 ≠ k) = false := by simp [h2]
      rw [hd]
      simp only [Bool.false_eq_true, if_false]
      rw [ih]
      subst h2
      simp [GoMap.get, hk]
    · have hd : decide ((k2, v2).1 ≠ k) = true := by simp [h2]
      rw [hd]
      simp only [if_true, GoMap.get]
      rw [ih]

theorem GoMap.get_set {V : Type} (m : GoMap V) (k : String) (v : V) (k1 : String) :
    (m.set k v).get k1 = if k = k1 then some v else m.get k1 := by
  by_cases hk : k = k1
  · simp [GoMap.set, GoMap.get, hk]
  · simp only [GoMap.set, GoMap.get, if_neg hk]
    exact GoMap.get_filter_ne m k k1 hk

/-! ## C11: the record of a struct -/

/-- C11: for a struct type whose name is not in the registry and whose fields
derive one after the other (each with the registry left by the fields before
it) to the schema fields `fl`, leaving `schemas1`, `schemaByType` returns the
record with the type's name and the fields `fl`: one entry per declared field,
in declaration order, named by `getNameByJSONTag`; the registry after the call
is `schemas1` with that same record stored under the type's name. -/
theorem C11_record (env : Env) (fuel t : Nat) (schemas schemas1 : Registry)
    (fl : List SchemaField)
    (hk : (env t).kind = .Struct) (hg : schemas.get (env t).name = none)
    (hf : FieldsDerive env fuel (env t).fields schemas fl schemas1) :
    ∃ after : Registry,
      schemaByType env (fuel + 1) (some t) schemas =
        .returned (.ok (.RecordSchema (.mk (env t).name fl)), after) ∧
      after = schemas1.set (env t).name (.mk (env t).name fl) ∧
      after.get (env t).name = some (.mk (env t).name fl) ∧
      fl.length = (env t).fields.length ∧
      fl.map SchemaField.Name = (env t).fields.map getNameByJSONTag := by
  refine ⟨_, ?_, rfl, ?_, (fieldsDerive_length hf).1, (fieldsDerive_length hf).2⟩
  · rw [schemaByType_struct env fuel t schemas hk, hg]
    simp only
    rw [structFields_of_fieldsDerive env fuel hf []]
    rfl
  · rw [GoMap.get_set]; simp

/-- C11 (witness): `anotherType`, four fields; the registry holds `someMore`
before the call and both records after it. -/
theorem C11_record_witness :
    ∃ after : Registry,
      schemaByType sampleEnv 4 (some 4) [("someMore", .mk "someMore" [])] =
        .returned (.ok (.RecordSchema (.mk "anotherType"
          [.mk "list" (.ArraySchema .StringSchema), .mk "bits" .BytesSchema,
           .mk "fix" (.ArraySchema .LongSchema),
           .mk "arraymap" (.ArraySchema (.MapSchema .LongSchema))])), after) ∧
      after = GoMap.set [("someMore", .mk "someMore" [])] "anotherType" (.mk "anotherType"
          [.mk "list" (.ArraySchema .StringSchema), .mk "bits" .BytesSchema,
           .mk "fix" (.ArraySchema .LongSchema),
           .mk "arraymap" (.ArraySchema (.MapSchema .LongSchema))]) ∧
      after.get "anotherType" = some (.mk "anotherType"
          [.mk "list" (.ArraySchema .StringSchema), .mk "bits" .BytesSchema,
           .mk "fix" (.ArraySchema .LongSchema),
           .mk "arraymap" (.ArraySchema (.MapSchema .LongSchema))]) ∧
      [SchemaField.mk "list" (.ArraySchema .StringSchema), .mk "bits" .BytesSchema,
           .mk "fix" (.ArraySchema .LongSchema),
           .mk "arraymap" (.ArraySchema (.MapSchema .LongSchema))].length = 4 ∧
      [SchemaField.mk "list" (.ArraySchema .StringSchema), .mk "bits" .BytesSchema,
           .mk "fix" (.ArraySchema .LongSchema),
           .mk "arraymap" (.ArraySchema (.MapSchema .LongSchema))].map SchemaField.Name =
        ["list", "bits", "fix", "arraymap"] :=
  C11_record sampleEnv 3 4 [("someMore", .mk "someMore" [])] _ _ rfl rfl
    (FieldsDerive.cons (by rfl) (FieldsDerive.cons (by rfl) (FieldsDerive.cons (by rfl)
      (FieldsDerive.cons (by rfl) (FieldsDerive.nil _)))))

/-! ## C12: the name of a schema field -/

theorem splitChars_head (sep : Char) :
    ∀ cs : List Char, ∃ p ps rest, splitChars sep cs = p :: ps ∧ cs = p ++ rest ∧ sep ∉ p ∧
      (rest = [] ∨ ∃ r, rest = sep :: r) := by
  intro cs
  induction cs with
  | nil => exact ⟨[], [], [], rfl, rfl, by simp, Or.inl rfl⟩
  | cons c cs ih =>
    obtain ⟨p, ps, rest, hsplit, hcs, hp, hrest⟩ := ih
    by_cases hc : c = sep
    · refine ⟨[], splitChars sep cs, c :: cs, ?_, rfl, by simp, Or.inr ⟨cs, by rw [hc]⟩⟩
      simp [splitChars, hc]
    · refine ⟨c :: p, ps, rest, ?_, by rw [hcs]; rfl, ?_, hrest⟩
      · simp [splitChars, hc, hsplit]
      · intro hmem
        rcases List.mem_cons.1 hmem with h | h
        · exact hc h.symm
        · exact hp h

theorem splitChars_no_sep (sep : Char) :
    ∀ cs : List Char, sep ∉ cs → splitChars sep cs = [cs] := by
  intro cs
  induction cs with
  | nil => intro _; rfl
  | cons c cs ih =>
    intro h
    have hc : c ≠ sep := fun e => h (by simp [e])
    have hcs : sep ∉ cs := fun e => h (List.mem_cons_of_mem _ e)
    simp [splitChars, hc, ih hcs]

theorem splitChars_head_takeWhile (sep : Char) :
    ∀ cs : List Char, (splitChars sep cs).headD [] = cs.takeWhile (fun c => decide (c ≠ sep)) := by
  intro cs
  induction cs with
  | nil => rfl
  | cons c cs ih =>
    by_cases hc : c = sep
    · simp [splitChars, hc]
    · obtain ⟨p, ps, rest, hsplit, _, _, _⟩ := splitChars_head sep cs
      rw [hsplit] at ih
      simp only [List.headD_cons] at ih
      simp [splitChars, hc, hsplit, List.takeWhile_cons, ih]

theorem tagLookup_first (key value : String) :
    ∀ (before after : List (String × String)), (∀ p ∈ before, p.1 ≠ key) →
      tagLookup (before ++ (key, value) :: after) key = some value := by
  intro before
  induction before with
  | nil => intro after _; simp [tagLookup]
  | cons p rest ih =>
    intro after h
    obtain ⟨k, v⟩ := p
    have hk : k ≠ key := h (k, v) (List.mem_cons_self _ _)
    simp only [List.cons_append, tagLookup, if_neg hk]
    exact ih after (fun q hq => h q (List.mem_cons_of_mem _ hq))

theorem tagLookup_absent (key : String) :
    ∀ tag : List (String × String), (∀ p ∈ tag, p.1 ≠ key) → tagLookup tag key = none := by
  intro tag
  induction tag with
  | nil => intro _; rfl
  | cons p rest ih =>
    intro h
    obtain ⟨k, v⟩ := p
    have hk : k ≠ key := h (k, v) (List.mem_cons_self _ _)
    simp only [tagLookup, if_neg hk]
    exact ih (fun q hq => h q (List.mem_cons_of_mem _ hq))

/-- C12: the name `getNameByJSONTag` gives a schema field.  When the tag of
the field has a pair with the key `avro`, the name is the part, before its
first comma, of the value of the first such pair: the value is the name
followed by nothing or by a comma and more, and the name holds no comma; it
is the whole value when the value has no comma (the empty string for an empty
value); the declared name plays no part.  When the tag has no pair with the
key `avro` the name is the declared field name. -/
theorem C12_field_name (st : StructField) :
    (∀ (before : List (String × String)) (tagValue : String)
      (after : List (String × String)),
      st.Tag = before ++ ("avro", tagValue) :: after → (∀ p ∈ before, p.1 ≠ "avro") →
      getNameByJSONTag st = String.mk (tagValue.data.takeWhile (fun c => decide (c ≠ ','))) ∧
      (∃ rest : List Char, tagValue.data = (getNameByJSONTag st).data ++ rest ∧
        ',' ∉ (getNameByJSONTag st).data ∧ (rest = [] ∨ ∃ r, rest = ',' :: r)) ∧
      (',' ∉ tagValue.data → getNameByJSONTag st = tagValue)) ∧
    ((∀ p ∈ st.Tag, p.1 ≠ "avro") → getNameByJSONTag st = st.Name) := by
  constructor
  · intro before tagValue after htag hbefore
    have hl : tagLookup st.Tag "avro" = some tagValue := by
      rw [htag]; exact tagLookup_first "avro" tagValue before after hbefore
    have hname : getNameByJSONTag st =
        ((splitChars ',' tagValue.data).map String.mk).headD "" := by
      simp [getNameByJSONTag, defaultTag, hl, stringsSplit]
    obtain ⟨p, ps, rest, hsplit, hcs, hp, hrest⟩ := splitChars_head ',' tagValue.data
    have htw := splitChars_head_takeWhile ',' tagValue.data
    rw [hsplit] at htw
    simp only [List.headD_cons] at htw
    have hmk : getNameByJSONTag st = String.mk p := by rw [hname, hsplit]; rfl
    refine ⟨by rw [hmk, htw], ⟨rest, ?_, ?_, hrest⟩, ?_⟩
    · rw [hmk]; exact hcs
    · rw [hmk]; exact hp
    · intro hno
      rw [hname, splitChars_no_sep ',' _ hno]
      rfl
  · intro habsent
    have hl : tagLookup st.Tag "avro" = none := tagLookup_absent "avro" st.Tag habsent
    simp [getNameByJSONTag, defaultTag, hl]

/-- C12 (witness): a field `UserID` tagged `json:"id" avro:"user_id,omitempty"`
is named `user_id`; tagged `avro:""` it is named by the empty string; tagged
`json:"id"` only it is named `UserID`. -/
theorem C12_field_name_witness :
    getNameByJSONTag ⟨"UserID", "", 3, [("json", "id"), ("avro", "user_id,omitempty")], false⟩
      = "user_id" ∧
    getNameByJSONTag ⟨"UserID", "", 3, [("avro", "")], false⟩ = "" ∧
    getNameByJSONTag ⟨"UserID", "", 3, [("json", "id")], false⟩ = "UserID" :=
  ⟨(((C12_field_name
        ⟨"UserID", "", 3, [("json", "id"), ("avro", "user_id,omitempty")], false⟩).1
      [("json", "id")] "user_id,omitempty" [] rfl (by decide)).1).trans (by decide),
   ((C12_field_name ⟨"UserID", "", 3, [("avro", "")], false⟩).1
      [] "" [] rfl (by decide)).2.2 (by decide),
   (C12_field_name ⟨"UserID", "", 3, [("json", "id")], false⟩).2 (by decide)⟩

theorem getNameByJSONTag_examples :
    getNameByJSONTag ⟨"UserID", "", 3, [("json", "id"), ("avro", "user_id,omitempty")], false⟩
      = "user_id" ∧
    getNameByJSONTag ⟨"UserID", "", 3, [("avro", "")], false⟩ = "" ∧
    getNameByJSONTag ⟨"UserID", "", 3, [("avro", ",omitempty")], false⟩ = "" ∧
    getNameByJSONTag ⟨"UserID", "", 3, [("json", "id")], false⟩ = "UserID" ∧
    getNameByJSONTag ⟨"someMore", "navro", 10, [], true⟩ = "someMore" := by
  refine ⟨?_, ?_, ?_, ?_, ?_⟩ <;> decide

/-! ## C13: non-exported fields -/

theorem fieldsDerive_append {env : Env} {fuel : Nat} {xs : List StructField}
    {s s1 : Registry} {fl : List SchemaField} (h : FieldsDerive env fuel xs s fl s1) :
    ∀ {ys : List StructField} {fl1 : List SchemaField} {s2 : Registry},
      FieldsDerive env fuel ys s1 fl1 s2 → FieldsDerive env fuel (xs ++ ys) s (fl ++ fl1) s2 := by
  induction h with
  | nil s => intro ys fl1 s2 h2; simpa using h2
  | cons hd _ ih => intro ys fl1 s2 h2; exact FieldsDerive.cons hd (ih h2)

theorem schemaByType_field_error (env : Env) (fuel t : Nat) (schemas schemas0 s1 : Registry)
    (before after : List StructField) (sf : StructField) (flb : List SchemaField)
    (e : errorSupport)
    (hk : (env t).kind = .Struct) (hg : schemas.get (env t).name = none)
    (hf : (env t).fields = before ++ sf :: after)
    (hb : FieldsDerive env fuel before schemas flb schemas0)
    (he : schemaByType env fuel (some sf.Typ) schemas0 = .returned (.error e, s1)) :
    schemaByType env (fuel + 1) (some t) schemas = .returned (.error e, s1) := by
  rw [schemaByType_struct env fuel t schemas hk, hg, hf]
  simp only
  rw [structFields_append _ _ _ _ _ _ _ (structFields_of_fieldsDerive env fuel hb []),
    structFields_cons]
  simp only [he]
  rfl

theorem schemaByType_record (env : Env) (fuel t : Nat) (schemas schemas1 : Registry)
    (fl : List SchemaField)
    (hk : (env t).kind = .Struct) (hg : schemas.get (env t).name = none)
    (hf : FieldsDerive env fuel (env t).fields schemas fl schemas1) :
    schemaByType env (fuel + 1) (some t) schemas =
      .returned (.ok (.RecordSchema (.mk (env t).name fl)),
        schemas1.set (env t).name (.mk (env t).name fl)) := by
  rw [schemaByType_struct env fuel t schemas hk, hg]
  simp only
  rw [structFields_of_fieldsDerive env fuel hf []]
  rfl

/-- C13 (counterexample): `noInterface`, whose only field `in interface{}` is
not exported, is rejected with the error of the field's kind; and the
non-exported field `in *int` of `Pointer` has its entry in the record. -/
theorem C13_private_field_not_skipped :
    (sampleEnv 12).fields = [privateField "in" 13] ∧ (privateField "in" 13).PkgPath ≠ "" ∧
    schemaByType sampleEnv 2 (some 12) [] =
      .returned (.error ⟨"interface will not be supported"⟩, []) ∧
    (sampleEnv 14).fields = [privateField "in" 15] ∧ (privateField "in" 15).PkgPath ≠ "" ∧
    schemaByType sampleEnv 3 (some 14) [] =
      .returned (.ok (.RecordSchema (.mk "Pointer"
          [.mk "in" (.UnionSchema [.NullSchema, .LongSchema])])),
        [("Pointer", .mk "Pointer" [.mk "in" (.UnionSchema [.NullSchema, .LongSchema])])]) := by
  refine ⟨rfl, by decide, ?_, rfl, by decide, rfl⟩
  simp [schemaByType, sampleEnv, privateField, GoMap.get, structFields]
  decide

/-- C13 (amended): for a struct type whose name is not in the registry and a
non-exported field of it before which the declared fields derive without
error, the field is derived, not skipped: when the type of the field fails to
derive, the derivation of the struct fails with that error; when it derives,
and the fields declared after it derive too, the field has its entry in the
record, at its place in the declaration order. -/
theorem C13_private_field_walked (env : Env) (fuel t : Nat) (schemas schemas0 : Registry)
    (before after : List StructField) (sf : StructField) (flb : List SchemaField)
    (hk : (env t).kind = .Struct) (hg : schemas.get (env t).name = none)
    (hf : (env t).fields = before ++ sf :: after) (_hp : sf.PkgPath ≠ "")
    (hb : FieldsDerive env fuel before schemas flb schemas0) :
    (∀ (e : errorSupport) (s1 : Registry),
      schemaByType env fuel (some sf.Typ) schemas0 = .returned (.error e, s1) →
      schemaByType env (fuel + 1) (some t) schemas = .returned (.error e, s1)) ∧
    (∀ (fieldType : Schema) (s1 s2 : Registry) (fla : List SchemaField),
      schemaByType env fuel (some sf.Typ) schemas0 = .returned (.ok fieldType, s1) →
      FieldsDerive env fuel after s1 fla s2 →
      schemaByType env (fuel + 1) (some t) schemas =
        .returned (.ok (.RecordSchema (.mk (env t).name
            (flb ++ SchemaField.mk (getNameByJSONTag sf) fieldType :: fla))),
          s2.set (env t).name (.mk (env t).name
            (flb ++ SchemaField.mk (getNameByJSONTag sf) fieldType :: fla)))) := by
  constructor
  · intro e s1 he
    exact schemaByType_field_error env fuel t schemas schemas0 s1 before after sf flb e
      hk hg hf hb he
  · intro fieldType s1 s2 fla hd ha
    apply schemaByType_record env fuel t schemas s2 _ hk hg
    rw [hf]
    exact fieldsDerive_append hb (FieldsDerive.cons hd ha)

/-- C13 (witness): the non-exported field `in interface{}` of `noInterface`
fails the struct, and the non-exported field `bits []byte` of `anotherType`
is the second entry of the record. -/
theorem C13_private_field_walked_witness :
    schemaByType sampleEnv 2 (some 12) [] =
      .returned (.error ⟨"interface will not be supported"⟩, []) ∧
    schemaByType sampleEnv 4 (some 4) [] =
      .returned (.ok (.RecordSchema (.mk "anotherType"
          ([.mk "list" (.ArraySchema .StringSchema)] ++ SchemaField.mk "bits" .BytesSchema ::
            [.mk "fix" (.ArraySchema .LongSchema),
             .mk "arraymap" (.ArraySchema (.MapSchema .LongSchema))]))),
        GoMap.set [] "anotherType" (.mk "anotherType"
          ([.mk "list" (.ArraySchema .StringSchema)] ++ SchemaField.mk "bits" .BytesSchema ::
            [.mk "fix" (.ArraySchema .LongSchema),
             .mk "arraymap" (.ArraySchema (.MapSchema .LongSchema))]))) :=
  ⟨(C13_private_field_walked sampleEnv 1 12 [] [] [] [] (privateField "in" 13) []
      rfl rfl rfl (by decide) (FieldsDerive.nil _)).1 _ _ (by
        simp [schemaByType, sampleEnv, privateField]; decide),
   (C13_private_field_walked sampleEnv 3 4 [] []
      [privateField "list" 5] [privateField "fix" 8, privateField "arraymap" 9]
      (privateField "bits" 6) [.mk "list" (.ArraySchema .StringSchema)]
      rfl rfl rfl (by decide) (FieldsDerive.cons (by rfl) (FieldsDerive.nil _))).2 _ _ _ _
      (by rfl) (FieldsDerive.cons (by rfl) (FieldsDerive.cons (by rfl) (FieldsDerive.nil _)))⟩

/-! ## C15, C17: unsupported kinds and the nil input -/

/-- C15: a type whose kind is handled by no case of the switch (that is
`interface`, `func`, `chan`, `complex64`, `complex128`, `uintptr`,
`unsafe.Pointer` or `uint`) is rejected with the error whose message is the
name of the kind followed by " will not be supported"; no schema is returned
and the registry is left as it was. -/
theorem C15_unsupported_kind (env : Env) (fuel t : Nat) (schemas : Registry)
    (hk : (env t).kind ∉ [Kind.Invalid, Kind.Bool, Kind.Uint8, Kind.Int8, Kind.Int16,
      Kind.Int32, Kind.Uint16, Kind.Int, Kind.Uint32, Kind.Int64, Kind.Uint64, Kind.String,
      Kind.Float32, Kind.Float64, Kind.Array, Kind.Slice, Kind.Map, Kind.Struct, Kind.Ptr]) :
    ((env t).kind = .Interface ∨ (env t).kind = .Func ∨ (env t).kind = .Chan ∨
      (env t).kind = .Complex64 ∨ (env t).kind = .Complex128 ∨ (env t).kind = .Uintptr ∨
      (env t).kind = .UnsafePointer ∨ (env t).kind = .Uint) ∧
    schemaByType env (fuel + 1) (some t) schemas =
      .returned (.error ⟨kindString (env t).kind ++ " will not be supported"⟩, schemas) ∧
    ((env t).kind = .Interface →
      schemaByType env (fuel + 1) (some t) schemas =
        .returned (.error ⟨"interface will not be supported"⟩, schemas)) := by
  cases hkind : (env t).kind <;> simp [hkind] at hk <;>
    (simp [schemaByType, hkind]; try decide)

/-- C15 (witness): `interface{}`. -/
theorem C15_unsupported_kind_witness :
    ((sampleEnv 13).kind = .Interface ∨ (sampleEnv 13).kind = .Func ∨
      (sampleEnv 13).kind = .Chan ∨
      (sampleEnv 13).kind = .Complex64 ∨ (sampleEnv 13).kind = .Complex128 ∨
      (sampleEnv 13).kind = .Uintptr ∨
      (sampleEnv 13).kind = .UnsafePointer ∨ (sampleEnv 13).kind = .Uint) ∧
    schemaByType sampleEnv 1 (some 13) [] =
      .returned (.error ⟨kindString (sampleEnv 13).kind ++ " will not be supported"⟩, []) ∧
    ((sampleEnv 13).kind = .Interface →
      schemaByType sampleEnv 1 (some 13) [] =
        .returned (.error ⟨"interface will not be supported"⟩, [])) :=
  C15_unsupported_kind sampleEnv 0 13 [] (by decide)

/-- C17 (the code at the failing input): for a nil input value
`reflect.TypeOf` gives the nil type, and `schemaByType` panics on it at
`t.Kind()`, so `Generate` panics: it returns neither the rendering of Null nor
a name set.  The case `reflect.Invalid` of the switch gives Null only for a
descriptor whose kind is `Invalid`. -/
theorem C17_nil_input_panics :
    (∀ (env : Env) (fuel : Nat) (schemas : Registry),
      schemaByType env (fuel + 1) none schemas = .panic) ∧
    (∀ (env : Env) (render : Schema → String) (fuel : Nat),
      Generate env render (fuel + 1) none = .panic) ∧
    (∀ (env : Env) (render : Schema → String) (fuel : Nat) (g : Generated),
      Generate env render fuel none ≠ .returned g) ∧
    (∀ (env : Env) (fuel t : Nat) (schemas : Registry), (env t).kind = .Invalid →
      schemaByType env (fuel + 1) (some t) schemas = .returned (.ok .NullSchema, schemas)) := by
  refine ⟨fun env fuel schemas => rfl, fun env render fuel => rfl, ?_, ?_⟩
  · intro env render fuel g
    cases fuel <;> simp [Generate, schemaByType]
  · intro env fuel t schemas h
    simp only [schemaByType, h]

/-! ## C16: errors -/

theorem wrapElem_error {wrap : Schema → Schema} {o : Outcome Derived}
    {e : errorSupport} {s1 : Registry}
    (h : wrapElem wrap o = .returned (.error e, s1)) : o = .returned (.error e, s1) := by
  cases o with
  | outOfFuel => simp [wrapElem] at h
  | panic => simp [wrapElem] at h
  | returned r0 =>
    obtain ⟨res0, s0⟩ := r0
    cases res0 with
    | error e0 => simpa [wrapElem] using h
    | ok sch => simp [wrapElem] at h

theorem finishRecord_error {name : String}
    {o : Outcome (Except errorSupport (List SchemaField) × Registry)}
    {e : errorSupport} {s1 : Registry}
    (h : finishRecord name o = .returned (.error e, s1)) : o = .returned (.error e, s1) := by
  cases o with
  | outOfFuel => simp [finishRecord] at h
  | panic => simp [finishRecord] at h
  | returned r0 =>
    obtain ⟨res0, s0⟩ := r0
    cases res0 with
    | error e0 => simpa [finishRecord] using h
    | ok fl => simp [finishRecord] at h

theorem structFields_error (d : Nat → Registry → Outcome Derived) :
    ∀ (fs : List StructField) (acc : List SchemaField) (s s1 : Registry) (e : errorSupport),
      structFields d fs acc s = .returned (.error e, s1) →
      ∃ sf ∈ fs, ∃ a, d sf.Typ a = .returned (.error e, s1) := by
  intro fs
  induction fs with
  | nil => intro acc s s1 e h; simp [structFields] at h
  | cons x rest ih =>
    intro acc s s1 e h
    rw [structFields_cons] at h
    cases hx : d x.Typ s with
    | outOfFuel => simp only [hx] at h; simp at h
    | panic => simp only [hx] at h; simp at h
    | returned r =>
      simp only [hx] at h
      obtain ⟨res, s2⟩ := r
      cases res with
      | error e0 =>
        simp at h
        exact ⟨x, List.mem_cons_self _ _, s, by rw [hx, h.1, h.2]⟩
      | ok sch =>
        obtain ⟨sf, hsf, a, ha⟩ := ih _ _ _ _ h
        exact ⟨sf, List.mem_cons_of_mem _ hsf, a, ha⟩

theorem schemaByType_error_msg (env : Env) :
    ∀ (fuel : Nat) (t : Option Nat) (s s1 : Registry) (e : errorSupport),
      schemaByType env fuel t s = .returned (.error e, s1) →
      e = ⟨"Do not support map with non-string key"⟩ ∨
        ∃ k : Kind, e = ⟨kindString k ++ " will not be supported"⟩ := by
  intro fuel
  induction fuel with
  | zero => intro t s s1 e h; simp [schemaByType] at h
  | succ n ih =>
    intro t s s1 e h
    cases t with
    | none => simp [schemaByType] at h
    | some t =>
      by_cases hseq : (env t).kind = .Array ∨ (env t).kind = .Slice
      · rw [schemaByType_seq _ _ _ _ hseq] at h
        by_cases he : (env (env t).elem).kind = .Uint8
        · rw [if_pos he] at h; simp at h
        · rw [if_neg he] at h
          exact ih _ _ _ _ (wrapElem_error h)
      by_cases hmap : (env t).kind = .Map
      · rw [schemaByType_map _ _ _ _ hmap] at h
        by_cases he : (env (env t).key).kind ≠ .String
        · rw [if_pos he] at h
          simp at h
          exact Or.inl h.1.symm
        · rw [if_neg he] at h
          exact ih _ _ _ _ (wrapElem_error h)
      by_cases hptr : (env t).kind = .Ptr
      · rw [schemaByType_ptr _ _ _ _ hptr] at h
        exact ih _ _ _ _ (wrapElem_error h)
      by_cases hst : (env t).kind = .Struct
      · rw [schemaByType_struct _ _ _ _ hst] at h
        cases hg : GoMap.get s (env t).name with
        | some actual => rw [hg] at h; simp at h
        | none =>
          rw [hg] at h
          simp only at h
          obtain ⟨sf, _, a, ha⟩ := structFields_error _ _ _ _ _ _ (finishRecord_error h)
          exact ih _ _ _ _ ha
      · push_neg at hseq
        refine Or.inr ⟨(env t).kind, ?_⟩
        cases hk : (env t).kind <;> simp_all [schemaByType]

/-- C16: an error passes unchanged through every enclosing call and ends the
derivation.  When a call on `root` reaches a nested call (an element of an
array or slice, a map value, a pointer referent, or a struct field before
which the fields derived without error) and that call fails with `e`, the call
on `root` fails with `e`, with the registry of the failure and no schema.  For
a struct that is not registered, the error is that of the first field, in
declaration order, that fails.  `Generate` then returns the empty string, the
nil name set and `e`; and every error `Generate` returns is an `errorSupport`,
that is a `NotSupported`, built at one of the two places of `schemaByType`
that build one. -/
theorem C16_errors_propagate (env : Env) :
    (∀ (root t fuel : Nat) (s s1 s2 : Registry) (e : errorSupport),
      Calls env root s t s1 →
      schemaByType env fuel (some t) s1 = .returned (.error e, s2) →
      ∃ fuel0, ∀ f, fuel0 ≤ f → schemaByType env f (some root) s = .returned (.error e, s2)) ∧
    (∀ (t fuel : Nat) (s s0 s1 : Registry) (before after : List StructField)
      (sf : StructField) (flb : List SchemaField) (e : errorSupport),
      (env t).kind = .Struct → s.get (env t).name = none →
      (env t).fields = before ++ sf :: after →
      FieldsDerive env fuel before s flb s0 →
      schemaByType env fuel (some sf.Typ) s0 = .returned (.error e, s1) →
      schemaByType env (fuel + 1) (some t) s = .returned (.error e, s1)) ∧
    (∀ (root t fuel : Nat) (s1 s2 : Registry) (e : errorSupport),
      Calls env root [] t s1 →
      schemaByType env fuel (some t) s1 = .returned (.error e, s2) →
      ∃ fuel0, ∀ f, fuel0 ≤ f → ∀ render : Schema → String,
        Generate env render f (some root) = .returned ⟨"", none, some e⟩) ∧
    (∀ (render : Schema → String) (fuel : Nat) (i : Option Nat) (g : Generated)
      (e : errorSupport),
      Generate env render fuel i = .returned g → g.err = some e →
      g.schema = "" ∧ g.recordNames = none ∧
      (e = ⟨"Do not support map with non-string key"⟩ ∨
        ∃ k : Kind, e = ⟨kindString k ++ " will not be supported"⟩)) := by
  have hprop : ∀ (root t fuel : Nat) (s s1 s2 : Registry) (e : errorSupport),
      Calls env root s t s1 →
      schemaByType env fuel (some t) s1 = .returned (.error e, s2) →
      ∃ fuel0, ∀ f, fuel0 ≤ f →
        schemaByType env f (some root) s = .returned (.error e, s2) :=
    fun root t fuel s s1 s2 e hc he =>
      calls_error env hc e s2 ⟨fuel, fun f hf => schemaByType_mono env hf he⟩
  refine ⟨hprop, ?_, ?_, ?_⟩
  · intro t fuel s s0 s1 before after sf flb e hk hg hf hb he
    exact schemaByType_field_error env fuel t s s0 s1 before after sf flb e hk hg hf hb he
  · intro root t fuel s1 s2 e hc he
    obtain ⟨f0, h0⟩ := hprop root t fuel [] s1 s2 e hc he
    exact ⟨f0, fun f hf render => by simp [Generate, h0 f hf]⟩
  · intro render fuel i g e hg herr
    unfold Generate at hg
    cases hrun : schemaByType env fuel i [] with
    | outOfFuel => rw [hrun] at hg; simp at hg
    | panic => rw [hrun] at hg; simp at hg
    | returned r =>
      rw [hrun] at hg
      obtain ⟨res, regs⟩ := r
      cases res with
      | ok schema =>
        simp at hg
        rw [← hg] at herr
        simp at herr
      | error e0 =>
        simp at hg
        rw [← hg] at herr ⊢
        simp at herr
        subst herr
        exact ⟨rfl, rfl, schemaByType_error_msg env _ _ _ _ _ hrun⟩

/-- C16 (witness): `Holder` fails with the error of its second field, the
first having derived, whether the failing call is given as a nested call or as
the first failing field; `Generate` on `noInterface` returns the empty string,
the nil name set and the error of the field. -/
theorem C16_errors_propagate_witness :
    (∃ fuel0, ∀ f, fuel0 ≤ f → schemaByType sampleEnv f (some 25) [] =
      .returned (.error ⟨"Do not support map with non-string key"⟩, [])) ∧
    schemaByType sampleEnv 2 (some 25) [] =
      .returned (.error ⟨"Do not support map with non-string key"⟩, []) ∧
    (∃ fuel0, ∀ f, fuel0 ≤ f → ∀ render : Schema → String,
      Generate sampleEnv render f (some 12) =
        .returned ⟨"", none, some ⟨"interface will not be supported"⟩⟩) :=
  ⟨(C16_errors_propagate sampleEnv).1 25 21 1 [] [] [] _
      (@Calls.field sampleEnv 25 21 [] [] [] 1 [exportedField "Name" 3] []
        (exportedField "M" 21) [.mk "Name" .StringSchema]
        rfl rfl rfl rfl (Calls.here 21 [])) rfl,
   (C16_errors_propagate sampleEnv).2.1 25 1 [] [] [] [exportedField "Name" 3] []
      (exportedField "M" 21) [.mk "Name" .StringSchema] _ rfl rfl rfl
      (FieldsDerive.cons (by rfl) (FieldsDerive.nil _)) rfl,
   (C16_errors_propagate sampleEnv).2.2.1 12 13 1 [] [] ⟨"interface will not be supported"⟩
      (@Calls.field sampleEnv 12 13 [] [] [] 0 [] [] (privateField "in" 13) []
        rfl rfl rfl rfl (Calls.here 13 []))
      (by simp [schemaByType, sampleEnv]; decide)⟩

/-! ## The entries of the registry -/

theorem GoMap.get_of_mem_keys {V : Type} (m : GoMap V) (k : String) (h : k ∈ m.keys) :
    ∃ v, m.get k = some v := by
  induction m with
  | nil => simp [GoMap.keys] at h
  | cons e rest ih =>
    obtain ⟨k1, v1⟩ := e
    by_cases hk : k1 = k
    · exact ⟨v1, by simp [GoMap.get, hk]⟩
    · simp only [GoMap.keys, List.map_cons, List.mem_cons] at h
      rcases h with h | h
      · exact absurd h.symm hk
      · obtain ⟨v, hv⟩ := ih h
        exact ⟨v, by simp [GoMap.get, hk, hv]⟩

theorem GoMap.get_none_of_not_mem {V : Type} (m : GoMap V) (k : String) (h : k ∉ m.keys) :
    m.get k = none := by
  cases hg : m.get k with
  | none => rfl
  | some v => exact absurd (GoMap.mem_keys_of_get m k v hg) h

theorem calls_reachable {env : Env} {t u : Nat} {s s1 : Registry}
    (h : Calls env t s u s1) : Reachable env t u := by
  induction h with
  | here t s => exact Relation.ReflTransGen.refl
  | elem hk he _ ih => exact reachable_head (Component.elem hk he) ih
  | value hk _ _ ih => exact reachable_head (Component.value hk) ih
  | referent hk _ ih => exact reachable_head (Component.referent hk) ih
  | field hk _ hf _ _ ih =>
    exact reachable_head (Component.field hk (by rw [hf]; simp)) ih

theorem builtIn_lift {env : Env} {t w : Nat} {s s0 : Registry} {k : String}
    {R : RecordSchema}
    (hstep : ∀ u s1, Calls env w s0 u s1 → Calls env t s u s1)
    (h : BuiltIn env w s0 k R) : BuiltIn env t s k R := by
  obtain ⟨u, s1, f, s2, hc, hk, hn, hg, hr⟩ := h
  exact ⟨u, s1, f, s2, hstep u s1 hc, hk, hn, hg, hr⟩

theorem structFields_entries (env : Env) (n t : Nat) (s : Registry)
    (hk : (env t).kind = .Struct) (hg : s.get (env t).name = none)
    (ih : ∀ (x : Nat) (a b : Registry) (res : Except errorSupport Schema),
      schemaByType env n (some x) a = .returned (res, b) →
      ∀ k R, b.get k = some R → a.get k = some R ∨ BuiltIn env x a k R) :
    ∀ (rest before tail : List StructField) (acc : List SchemaField) (sa s2 : Registry)
      (resf : Except errorSupport (List SchemaField)),
      (env t).fields = before ++ (rest ++ tail) →
      structFields (fun ft r => schemaByType env n (some ft) r) before [] s =
        .returned (.ok acc, sa) →
      structFields (fun ft r => schemaByType env n (some ft) r) rest acc sa =
        .returned (resf, s2) →
      (∀ k R, sa.get k = some R → s.get k = some R ∨ BuiltIn env t s k R) →
      ∀ k R, s2.get k = some R → s.get k = some R ∨ BuiltIn env t s k R := by
  intro rest
  induction rest with
  | nil =>
    intro before tail acc sa s2 resf _ _ hrun hsa k R hget
    simp [structFields] at hrun
    rw [← hrun.2] at hget
    exact hsa k R hget
  | cons x rest ihr =>
    intro before tail acc sa s2 resf hf hb hrun hsa k R hget
    rw [structFields_cons] at hrun
    cases hx : schemaByType env n (some x.Typ) sa with
    | outOfFuel => simp only [hx] at hrun; simp at hrun
    | panic => simp only [hx] at hrun; simp at hrun
    | returned r =>
      simp only [hx] at hrun
      obtain ⟨resx, sb⟩ := r
      have hsb : ∀ k R, sb.get k = some R → s.get k = some R ∨ BuiltIn env t s k R := by
        intro k R hk1
        rcases ih _ _ _ _ hx k R hk1 with h1 | h1
        · exact hsa k R h1
        · exact Or.inr (builtIn_lift (fun u s1 hc => Calls.field hk hg hf hb hc) h1)
      cases resx with
      | error e =>
        simp at hrun
        rw [← hrun.2] at hget
        exact hsb k R hget
      | ok sch =>
        have hb1 : structFields (fun ft r => schemaByType env n (some ft) r)
            (before ++ [x]) [] s =
            .returned (.ok (acc ++ [SchemaField.mk (getNameByJSONTag x) sch]), sb) := by
          rw [structFields_append _ _ _ _ _ _ _ hb, structFields_cons]
          simp only [hx]
          rfl
        exact ihr (before ++ [x]) tail _ sb s2 resf (by rw [hf]; simp) hb1 hrun hsb k R hget

theorem schemaByType_entries (env : Env) :
    ∀ (fuel t : Nat) (s s1 : Registry) (res : Except errorSupport Schema),
      schemaByType env fuel (some t) s = .returned (res, s1) →
      ∀ k R, s1.get k = some R → s.get k = some R ∨ BuiltIn env t s k R := by
  intro fuel
  induction fuel with
  | zero => intro t s s1 res h; simp [schemaByType] at h
  | succ n ih =>
    intro t s s1 res h k R hget
    by_cases hseq : (env t).kind = .Array ∨ (env t).kind = .Slice
    · rw [schemaByType_seq _ _ _ _ hseq] at h
      by_cases he : (env (env t).elem).kind = .Uint8
      · rw [if_pos he] at h
        simp at h
        rw [← h.2] at hget; exact Or.inl hget
      · rw [if_neg he] at h
        obtain ⟨res0, h0⟩ := wrapElem_reg h
        rcases ih _ _ _ _ h0 k R hget with h1 | h1
        · exact Or.inl h1
        · exact Or.inr (builtIn_lift (fun u s1 hc => Calls.elem hseq he hc) h1)
    by_cases hmap : (env t).kind = .Map
    · rw [schemaByType_map _ _ _ _ hmap] at h
      by_cases he : (env (env t).key).kind ≠ .String
      · rw [if_pos he] at h
        simp at h
        rw [← h.2] at hget; exact Or.inl hget
      · rw [if_neg he] at h
        obtain ⟨res0, h0⟩ := wrapElem_reg h
        rcases ih _ _ _ _ h0 k R hget with h1 | h1
        · exact Or.inl h1
        · exact Or.inr (builtIn_lift
            (fun u s1 hc => Calls.value hmap (by simpa using he) hc) h1)
    by_cases hptr : (env t).kind = .Ptr
    · rw [schemaByType_ptr _ _ _ _ hptr] at h
      obtain ⟨res0, h0⟩ := wrapElem_reg h
      rcases ih _ _ _ _ h0 k R hget with h1 | h1
      · exact Or.inl h1
      · exact Or.inr (builtIn_lift (fun u s1 hc => Calls.referent hptr hc) h1)
    by_cases hst : (env t).kind = .Struct
    · have hcall := h
      rw [schemaByType_struct _ _ _ _ hst] at h
      cases hg : GoMap.get s (env t).name with
      | some actual =>
        rw [hg] at h
        simp at h
        rw [← h.2] at hget; exact Or.inl hget
      | none =>
        rw [hg] at h
        simp only at h
        obtain ⟨r0, h0⟩ := finishRecord_returned h
        obtain ⟨resf, s2⟩ := r0
        have hfields := structFields_entries env n t s hst hg ih (env t).fields [] [] [] s s2
          resf (by simp) (by simp [structFields]) h0 (fun k R hk1 => Or.inl hk1)
        rw [h0] at h
        cases resf with
        | error e =>
          simp [finishRecord] at h
          rw [← h.2] at hget
          exact hfields k R hget
        | ok fl =>
          simp [finishRecord] at h
          rw [← h.2, GoMap.get_set] at hget
          by_cases hname : (env t).name = k
          · rw [if_pos hname] at hget
            simp at hget
            refine Or.inr ⟨t, s, n + 1, s1, Calls.here t s, hst, hname, by rw [← hname]; exact hg, ?_⟩
            rw [hcall, ← h.1, ← hget]
          · rw [if_neg hname] at hget
            exact hfields k R hget
    · push_neg at hseq
      have := schemaByType_leaf env n t s s1 res hseq.1 hseq.2 hmap hptr hst h
      rw [this] at hget; exact Or.inl hget

theorem calls_entries (env : Env) {t u : Nat} {s s1 : Registry} (hc : Calls env t s u s1) :
    ∀ k R, s1.get k = some R → s.get k = some R ∨ BuiltIn env t s k R := by
  induction hc with
  | here t s => intro k R h; exact Or.inl h
  | elem hk he _ ih =>
    intro k R h
    rcases ih k R h with h1 | h1
    · exact Or.inl h1
    · exact Or.inr (builtIn_lift (fun u s1 hc => Calls.elem hk he hc) h1)
  | value hk he _ ih =>
    intro k R h
    rcases ih k R h with h1 | h1
    · exact Or.inl h1
    · exact Or.inr (builtIn_lift (fun u s1 hc => Calls.value hk he hc) h1)
  | referent hk _ ih =>
    intro k R h
    rcases ih k R h with h1 | h1
    · exact Or.inl h1
    · exact Or.inr (builtIn_lift (fun u s1 hc => Calls.referent hk hc) h1)
  | @field t u s s0 s1 fuel before after sf acc hk hg hf hb _ ih =>
    intro k R h
    rcases ih k R h with h1 | h1
    · exact structFields_entries env fuel t s hk hg
        (fun x a b res hr => schemaByType_entries env fuel x a b res hr)
        before [] (sf :: after) [] s s0 (.ok acc) (by simpa using hf) (by simp [structFields])
        hb (fun k R hk1 => Or.inl hk1) k R h1
    · exact Or.inr (builtIn_lift (fun u s1 hc => Calls.field hk hg hf hb hc) h1)

theorem structFields_keys_mono (d : Nat → Registry → Outcome Derived)
    (hd : ∀ x a res b, d x a = .returned (res, b) → ∀ k ∈ a.keys, k ∈ b.keys) :
    ∀ (fs : List StructField) (acc : List SchemaField) (s s1 : Registry)
      (resf : Except errorSupport (List SchemaField)),
      structFields d fs acc s = .returned (resf, s1) → ∀ k ∈ s.keys, k ∈ s1.keys := by
  intro fs
  induction fs with
  | nil =>
    intro acc s s1 resf h k hk
    simp [structFields] at h
    rw [← h.2]; exact hk
  | cons x rest ih =>
    intro acc s s1 resf h k hk
    rw [structFields_cons] at h
    cases hx : d x.Typ s with
    | outOfFuel => simp only [hx] at h; simp at h
    | panic => simp only [hx] at h; simp at h
    | returned r =>
      simp only [hx] at h
      obtain ⟨resx, s2⟩ := r
      have h2 := hd _ _ _ _ hx k hk
      cases resx with
      | error e =>
        simp at h
        rw [← h.2]; exact h2
      | ok sch => exact ih _ _ _ _ h k h2

theorem schemaByType_keys_mono (env : Env) :
    ∀ (fuel t : Nat) (s s1 : Registry) (res : Except errorSupport Schema),
      schemaByType env fuel (some t) s = .returned (res, s1) → ∀ k ∈ s.keys, k ∈ s1.keys := by
  intro fuel
  induction fuel with
  | zero => intro t s s1 res h; simp [schemaByType] at h
  | succ n ih =>
    intro t s s1 res h k hk
    by_cases hseq : (env t).kind = .Array ∨ (env t).kind = .Slice
    · rw [schemaByType_seq _ _ _ _ hseq] at h
      by_cases he : (env (env t).elem).kind = .Uint8
      · rw [if_pos he] at h
        simp at h
        rw [← h.2]; exact hk
      · rw [if_neg he] at h
        obtain ⟨res0, h0⟩ := wrapElem_reg h
        exact ih _ _ _ _ h0 k hk
    by_cases hmap : (env t).kind = .Map
    · rw [schemaByType_map _ _ _ _ hmap] at h
      by_cases he : (env (env t).key).kind ≠ .String
      · rw [if_pos he] at h
        simp at h
        rw [← h.2]; exact hk
      · rw [if_neg he] at h
        obtain ⟨res0, h0⟩ := wrapElem_reg h
        exact ih _ _ _ _ h0 k hk
    by_cases hptr : (env t).kind = .Ptr
    · rw [schemaByType_ptr _ _ _ _ hptr] at h
      obtain ⟨res0, h0⟩ := wrapElem_reg h
      exact ih _ _ _ _ h0 k hk
    by_cases hst : (env t).kind = .Struct
    · rw [schemaByType_struct _ _ _ _ hst] at h
      cases hg : GoMap.get s (env t).name with
      | some actual =>
        rw [hg] at h
        simp at h
        rw [← h.2]; exact hk
      | none =>
        rw [hg] at h
        simp only at h
        obtain ⟨r0, h0⟩ := finishRecord_returned h
        obtain ⟨resf, s2⟩ := r0
        have h2 := structFields_keys_mono _ (fun x a res b hr => ih x a b res hr) _ _ _ _ _ h0 k hk
        rw [h0] at h
        cases resf with
        | error e =>
          simp [finishRecord] at h
          rw [← h.2]; exact h2
        | ok fl =>
          simp [finishRecord] at h
          rw [← h.2]
          exact (GoMap.mem_keys_set _ _ _ _).2 (Or.inr h2)
    · push_neg at hseq
      have := schemaByType_leaf env n t s s1 res hseq.1 hseq.2 hmap hptr hst h
      rw [this]; exact hk

theorem structFields_error_split (env : Env) (n : Nat) :
    ∀ (fs : List StructField) (acc : List SchemaField) (s s1 : Registry) (e : errorSupport),
      structFields (fun ft r => schemaByType env n (some ft) r) fs acc s =
        .returned (.error e, s1) →
      ∃ (before : List StructField) (sf : StructField) (after : List StructField)
        (flb : List SchemaField) (s0 : Registry),
        fs = before ++ sf :: after ∧ FieldsDerive env n before s flb s0 ∧
        schemaByType env n (some sf.Typ) s0 = .returned (.error e, s1) := by
  intro fs
  induction fs with
  | nil => intro acc s s1 e h; simp [structFields] at h
  | cons x rest ih =>
    intro acc s s1 e h
    rw [structFields_cons] at h
    cases hx : schemaByType env n (some x.Typ) s with
    | outOfFuel => simp only [hx] at h; simp at h
    | panic => simp only [hx] at h; simp at h
    | returned r =>
      simp only [hx] at h
      obtain ⟨resx, s2⟩ := r
      cases resx with
      | error e0 =>
        simp at h
        exact ⟨[], x, rest, [], s, rfl, FieldsDerive.nil _, by rw [hx, h.1, h.2]⟩
      | ok sch =>
        obtain ⟨before, sf, after, flb, s0, hfs, hfd, he⟩ := ih _ _ _ _ h
        exact ⟨x :: before, sf, after, _, s0, by rw [hfs]; rfl, FieldsDerive.cons hx hfd, he⟩

/-! ## C14: a struct whose name is registered -/

/-- C14 (counterexample): in `Root`, the struct type `struct { Y string }`
occurs twice, as the type of `B` and of `C`.  Neither occurrence is a record:
both are references to the record built for `struct { X int }`, the type of
`A`, a different struct type with the same (empty) name; no record with a
field `Y` is built. -/
theorem C14_reference_to_another_type :
    (collideEnv 0).fields = [exportedField "A" 1, exportedField "B" 2, exportedField "C" 2] ∧
    (collideEnv 2).fields = [exportedField "Y" 4] ∧
    schemaByType collideEnv 3 (some 0) [] =
      .returned (.ok (.RecordSchema (.mk "Root"
          [.mk "A" (.RecordSchema (.mk "" [.mk "X" .LongSchema])),
           .mk "B" (.RecursiveSchema (.mk "" [.mk "X" .LongSchema])),
           .mk "C" (.RecursiveSchema (.mk "" [.mk "X" .LongSchema]))])),
        [("Root", .mk "Root"
          [.mk "A" (.RecordSchema (.mk "" [.mk "X" .LongSchema])),
           .mk "B" (.RecursiveSchema (.mk "" [.mk "X" .LongSchema])),
           .mk "C" (.RecursiveSchema (.mk "" [.mk "X" .LongSchema]))]),
         ("", .mk "" [.mk "X" .LongSchema])]) ∧
    (Schema.RecordSchema (.mk "Root"
          [.mk "A" (.RecordSchema (.mk "" [.mk "X" .LongSchema])),
           .mk "B" (.RecursiveSchema (.mk "" [.mk "X" .LongSchema])),
           .mk "C" (.RecursiveSchema (.mk "" [.mk "X" .LongSchema]))])).occurrences
        collideEnv 0 =
      [(0, .RecordSchema (.mk "Root"
          [.mk "A" (.RecordSchema (.mk "" [.mk "X" .LongSchema])),
           .mk "B" (.RecursiveSchema (.mk "" [.mk "X" .LongSchema])),
           .mk "C" (.RecursiveSchema (.mk "" [.mk "X" .LongSchema]))])),
       (1, .RecordSchema (.mk "" [.mk "X" .LongSchema])),
       (2, .RecursiveSchema (.mk "" [.mk "X" .LongSchema])),
       (2, .RecursiveSchema (.mk "" [.mk "X" .LongSchema]))] ∧
    collideEnv 0 ≠ collideEnv 2 ∧ collideEnv 1 ≠ collideEnv 2 :=
  ⟨rfl, rfl, rfl, rfl, by decide, by decide⟩

/-! ## C19: the registry only grows -/

/-- C19: whatever `schemaByType` returns, a schema or an error, every key of
the registry before the call is a key after it, and every key added by the
call is the name of a struct type for which a call reached in this run, made
when the name was not registered, returned a record, which is the record
stored.  When the call is on a struct that is not registered and fails, the
registry after it is the one left by the failing field, the fields before it
having derived: the struct itself is not stored. -/
theorem C19_registry_grows (env : Env) (fuel t : Nat) (s s1 : Registry)
    (res : Except errorSupport Schema)
    (h : schemaByType env fuel (some t) s = .returned (res, s1)) :
    (∀ k ∈ s.keys, k ∈ s1.keys) ∧
    (∀ k ∈ s1.keys, k ∉ s.keys → ∃ R, s1.get k = some R ∧ BuiltIn env t s k R) ∧
    (∀ e : errorSupport, res = .error e → (env t).kind = .Struct →
      s.get (env t).name = none →
      ∃ (n : Nat) (before : List StructField) (sf : StructField) (after : List StructField)
        (flb : List SchemaField) (s0 : Registry),
        fuel = n + 1 ∧ (env t).fields = before ++ sf :: after ∧
        FieldsDerive env n before s flb s0 ∧
        schemaByType env n (some sf.Typ) s0 = .returned (.error e, s1)) := by
  refine ⟨schemaByType_keys_mono env fuel t s s1 res h, ?_, ?_⟩
  · intro k hk hnot
    obtain ⟨R, hR⟩ := GoMap.get_of_mem_keys s1 k hk
    rcases schemaByType_entries env fuel t s s1 res h k R hR with h1 | h1
    · exact absurd (GoMap.mem_keys_of_get s k R h1) hnot
    · exact ⟨R, hR, h1⟩
  · intro e hres hk hg
    subst hres
    cases fuel with
    | zero => simp [schemaByType] at h
    | succ n =>
      rw [schemaByType_struct env n t s hk, hg] at h
      simp only at h
      obtain ⟨before, sf, after, flb, s0, hfs, hfd, he⟩ :=
        structFields_error_split env n _ _ _ _ _ (finishRecord_error h)
      exact ⟨n, before, sf, after, flb, s0, rfl, hfs, hfd, he⟩

/-- C19 (witness): `Pointer` derived with `someMore` registered: `someMore`
stays and `Pointer` is added, with the record the call returned; `Holder`
fails at its second field and is not stored. -/
theorem C19_registry_grows_witness :
    "someMore" ∈ GoMap.keys [("Pointer", RecordSchema.mk "Pointer"
        [.mk "in" (.UnionSchema [.NullSchema, .LongSchema])]),
      ("someMore", RecordSchema.mk "someMore" [])] ∧
    (∃ R, GoMap.get [("Pointer", RecordSchema.mk "Pointer"
          [.mk "in" (.UnionSchema [.NullSchema, .LongSchema])]),
        ("someMore", RecordSchema.mk "someMore" [])] "Pointer" = some R ∧
      BuiltIn sampleEnv 14 [("someMore", RecordSchema.mk "someMore" [])] "Pointer" R) ∧
    (∃ (n : Nat) (before : List StructField) (sf : StructField) (after : List StructField)
      (flb : List SchemaField) (s0 : Registry),
      2 = n + 1 ∧ (sampleEnv 25).fields = before ++ sf :: after ∧
      FieldsDerive sampleEnv n before [] flb s0 ∧
      schemaByType sampleEnv n (some sf.Typ) s0 =
        .returned (.error ⟨"Do not support map with non-string key"⟩, [])) :=
  ⟨(C19_registry_grows sampleEnv 3 14 [("someMore", .mk "someMore" [])] _ _ rfl).1
      "someMore" (by decide),
   (C19_registry_grows sampleEnv 3 14 [("someMore", .mk "someMore" [])] _ _ rfl).2.1
      "Pointer" (by decide) (by decide),
   (C19_registry_grows sampleEnv 2 25 [] [] (.error ⟨"Do not support map with non-string key"⟩)
      rfl).2.2 _ rfl rfl rfl⟩

/-! ## The registry-free walker -/

theorem naiveSchema_seq (env : Env) (fuel t : Nat)
    (hk : (env t).kind = .Array ∨ (env t).kind = .Slice) :
    naiveSchema env (fuel + 1) t =
      if (env (env t).elem).kind = .Uint8 then .returned (.ok .BytesSchema)
      else
        match naiveSchema env fuel (env t).elem with
        | .outOfFuel => .outOfFuel
        | .panic => .panic
        | .returned (.error err) => .returned (.error err)
        | .returned (.ok elemSchema) => .returned (.ok (.ArraySchema elemSchema)) := by
  rcases hk with hk | hk <;> simp only [naiveSchema, hk]

theorem naiveSchema_map (env : Env) (fuel t : Nat) (hk : (env t).kind = .Map) :
    naiveSchema env (fuel + 1) t =
      if (env (env t).key).kind ≠ .String then
        .returned (.error ⟨"Do not support map with non-string key"⟩)
      else
        match naiveSchema env fuel (env t).elem with
        | .outOfFuel => .outOfFuel
        | .panic => .panic
        | .returned (.error err) => .returned (.error err)
        | .returned (.ok elemSchema) => .returned (.ok (.MapSchema elemSchema)) := by
  simp only [naiveSchema, hk]

theorem naiveSchema_ptr (env : Env) (fuel t : Nat) (hk : (env t).kind = .Ptr) :
    naiveSchema env (fuel + 1) t =
      match naiveSchema env fuel (env t).elem with
      | .outOfFuel => .outOfFuel
      | .panic => .panic
      | .returned (.error err) => .returned (.error err)
      | .returned (.ok elemSchema) =>
        .returned (.ok (.UnionSchema [.NullSchema, elemSchema])) := by
  simp only [naiveSchema, hk]

theorem naiveSchema_struct (env : Env) (fuel t : Nat) (hk : (env t).kind = .Struct) :
    naiveSchema env (fuel + 1) t =
      match naiveFields (fun ft => naiveSchema env fuel ft) (env t).fields [] with
      | .outOfFuel => .outOfFuel
      | .panic => .panic
      | .returned (.error err) => .returned (.error err)
      | .returned (.ok fields) =>
        .returned (.ok (.RecordSchema (.mk (env t).name fields))) := by
  simp only [naiveSchema, hk]

theorem naiveFields_cons (d : Nat → Outcome (Except errorSupport Schema)) (x : StructField)
    (rest : List StructField) (acc : List SchemaField) :
    naiveFields d (x :: rest) acc =
      match d x.Typ with
      | .outOfFuel => .outOfFuel
      | .panic => .panic
      | .returned (.error err) => .returned (.error err)
      | .returned (.ok fieldTypeSchema) =>
        naiveFields d rest (acc ++ [SchemaField.mk (getNameByJSONTag x) fieldTypeSchema]) := by
  rw [naiveFields]

theorem naiveFields_mono (d1 d2 : Nat → Outcome (Except errorSupport Schema))
    (hd : ∀ t r, d1 t = .returned r → d2 t = .returned r) :
    ∀ (fs : List StructField) (acc : List SchemaField)
      (r : Except errorSupport (List SchemaField)),
      naiveFields d1 fs acc = .returned r → naiveFields d2 fs acc = .returned r := by
  intro fs
  induction fs with
  | nil => intro acc r h; simpa [naiveFields] using h
  | cons x rest ih =>
    intro acc r h
    rw [naiveFields_cons] at h ⊢
    cases h1 : d1 x.Typ with
    | outOfFuel => rw [h1] at h; simp at h
    | panic => rw [h1] at h; simp at h
    | returned y =>
      rw [h1] at h
      rw [hd _ _ h1]
      cases y with
      | error e => simpa using h
      | ok sch => exact ih _ _ h

theorem naiveSchema_succ (env : Env) :
    ∀ (fuel t : Nat) (r : Except errorSupport Schema),
      naiveSchema env fuel t = .returned r → naiveSchema env (fuel + 1) t = .returned r := by
  intro fuel
  induction fuel with
  | zero => intro t r h; simp [naiveSchema] at h
  | succ n ih =>
    intro t r h
    by_cases hseq : (env t).kind = .Array ∨ (env t).kind = .Slice
    · rw [naiveSchema_seq _ _ _ hseq] at h ⊢
      by_cases he : (env (env t).elem).kind = .Uint8
      · rw [if_pos he] at h ⊢; exact h
      · rw [if_neg he] at h ⊢
        cases h0 : naiveSchema env n (env t).elem with
        | outOfFuel => rw [h0] at h; simp at h
        | panic => rw [h0] at h; simp at h
        | returned y => rw [ih _ _ h0]; rw [h0] at h; exact h
    by_cases hmap : (env t).kind = .Map
    · rw [naiveSchema_map _ _ _ hmap] at h ⊢
      by_cases he : (env (env t).key).kind ≠ .String
      · rw [if_pos he] at h ⊢; exact h
      · rw [if_neg he] at h ⊢
        cases h0 : naiveSchema env n (env t).elem with
        | outOfFuel => rw [h0] at h; simp at h
        | panic => rw [h0] at h; simp at h
        | returned y => rw [ih _ _ h0]; rw [h0] at h; exact h
    by_cases hptr : (env t).kind = .Ptr
    · rw [naiveSchema_ptr _ _ _ hptr] at h ⊢
      cases h0 : naiveSchema env n (env t).elem with
      | outOfFuel => rw [h0] at h; simp at h
      | panic => rw [h0] at h; simp at h
      | returned y => rw [ih _ _ h0]; rw [h0] at h; exact h
    by_cases hst : (env t).kind = .Struct
    · rw [naiveSchema_struct _ _ _ hst] at h ⊢
      cases h0 : naiveFields (fun ft => naiveSchema env n ft) (env t).fields [] with
      | outOfFuel => rw [h0] at h; simp at h
      | panic => rw [h0] at h; simp at h
      | returned y =>
        rw [naiveFields_mono _ _ (fun ft r hr => ih ft r hr) _ _ _ h0]
        rw [h0] at h; exact h
    · push_neg at hseq
      clear ih
      cases hk : (env t).kind <;> simp_all [naiveSchema]

theorem naiveSchema_mono (env : Env) {fuel fuel1 : Nat} (hle : fuel ≤ fuel1) {t : Nat}
    {r : Except errorSupport Schema} (h : naiveSchema env fuel t = .returned r) :
    naiveSchema env fuel1 t = .returned r := by
  induction hle with
  | refl => exact h
  | step _ ih => exact naiveSchema_succ env _ _ _ ih

theorem naiveSchema_det (env : Env) {f1 f2 t : Nat} {r1 r2 : Except errorSupport Schema}
    (h1 : naiveSchema env f1 t = .returned r1) (h2 : naiveSchema env f2 t = .returned r2) :
    r1 = r2 := by
  have a := naiveSchema_mono env (Nat.le_max_left f1 f2) h1
  have b := naiveSchema_mono env (Nat.le_max_right f1 f2) h2
  rw [a] at b
  simpa using b

theorem naiveSchema_congr (env : Env) {t u : Nat} (h : env u = env t) (fuel : Nat) :
    naiveSchema env fuel u = naiveSchema env fuel t := by
  cases fuel with
  | zero => rfl
  | succ n => simp only [naiveSchema, h]

/-! ## The registry walker against the registry-free walker -/

theorem naiveFields_append (d : Nat → Outcome (Except errorSupport Schema)) :
    ∀ (xs ys : List StructField) (acc acc1 : List SchemaField),
      naiveFields d xs acc = .returned (.ok acc1) →
      naiveFields d (xs ++ ys) acc = naiveFields d ys acc1 := by
  intro xs
  induction xs with
  | nil =>
    intro ys acc acc1 h
    simp [naiveFields] at h
    subst h; rfl
  | cons x rest ih =>
    intro ys acc acc1 h
    rw [naiveFields_cons] at h
    rw [List.cons_append, naiveFields_cons]
    cases hx : d x.Typ with
    | outOfFuel => rw [hx] at h; simp at h
    | panic => rw [hx] at h; simp at h
    | returned r =>
      rw [hx] at h
      cases r with
      | error e => simp at h
      | ok sch => exact ih _ _ _ h

theorem fieldsDerive_agrees (env : Env) (root n : Nat)
    (ih : ∀ (t : Nat) (s s1 : Registry) (res : Except errorSupport Schema),
      Reachable env root t → Agrees env root s →
      schemaByType env n (some t) s = .returned (res, s1) →
      Agrees env root s1 ∧ ∃ f, naiveSchema env f t = .returned (expandResult res))
    {fs : List StructField} {s s1 : Registry} {fl : List SchemaField}
    (h : FieldsDerive env n fs s fl s1) :
    (∀ sf ∈ fs, Reachable env root sf.Typ) → Agrees env root s →
    Agrees env root s1 ∧ ∃ f, ∀ acc : List SchemaField,
      naiveFields (fun ft => naiveSchema env f ft) fs acc =
        .returned (.ok (acc ++ SchemaField.expandList fl)) := by
  induction h with
  | nil s =>
    intro _ ha
    exact ⟨ha, 0, fun acc => by simp [naiveFields, SchemaField.expandList]⟩
  | @cons sf rest s s1 s2 fieldType fl hd _ ihr =>
    intro hreach ha
    obtain ⟨ha1, f1, hf1⟩ := ih _ _ _ _ (hreach sf (List.mem_cons_self _ _)) ha hd
    obtain ⟨ha2, f2, hf2⟩ := ihr (fun x hx => hreach x (List.mem_cons_of_mem _ hx)) ha1
    refine ⟨ha2, max f1 f2, fun acc => ?_⟩
    rw [naiveFields_cons]
    have h1 := naiveSchema_mono env (Nat.le_max_left f1 f2) hf1
    simp only [h1, expandResult]
    rw [naiveFields_mono _ _
      (fun ft r hr => naiveSchema_mono env (Nat.le_max_right f1 f2) hr) _ _ _ (hf2 _)]
    simp [SchemaField.expandList, SchemaField.expand]

theorem schemaByType_agrees (env : Env) (root : Nat) (hnames : DistinctNames env root) :
    ∀ (fuel t : Nat) (s s1 : Registry) (res : Except errorSupport Schema),
      Reachable env root t → Agrees env root s →
      schemaByType env fuel (some t) s = .returned (res, s1) →
      Agrees env root s1 ∧ ∃ f, naiveSchema env f t = .returned (expandResult res) := by
  intro fuel
  induction fuel with
  | zero => intro t s s1 res _ _ h; simp [schemaByType] at h
  | succ n ih =>
    intro t s s1 res hrt ha h
    by_cases hseq : (env t).kind = .Array ∨ (env t).kind = .Slice
    · rw [schemaByType_seq _ _ _ _ hseq] at h
      by_cases he : (env (env t).elem).kind = .Uint8
      · rw [if_pos he] at h
        simp at h
        rw [← h.1, ← h.2]
        refine ⟨ha, 1, ?_⟩
        rw [naiveSchema_seq _ _ _ hseq, if_pos he]
        simp [expandResult, Schema.expand]
      · rw [if_neg he] at h
        obtain ⟨res0, h0⟩ := wrapElem_reg h
        obtain ⟨ha1, f, hf⟩ :=
          ih _ _ _ _ (Relation.ReflTransGen.tail hrt (Component.elem hseq he)) ha h0
        refine ⟨ha1, f + 1, ?_⟩
        rw [h0] at h
        rw [naiveSchema_seq _ _ _ hseq, if_neg he, hf]
        cases res0 with
        | error e => simp [wrapElem] at h; simp [expandResult, ← h]
        | ok y => simp [wrapElem] at h; simp [expandResult, ← h, Schema.expand]
    by_cases hmap : (env t).kind = .Map
    · rw [schemaByType_map _ _ _ _ hmap] at h
      by_cases he : (env (env t).key).kind ≠ .String
      · rw [if_pos he] at h
        simp at h
        rw [← h.1, ← h.2]
        refine ⟨ha, 1, ?_⟩
        rw [naiveSchema_map _ _ _ hmap, if_pos he]
        simp [expandResult]
      · rw [if_neg he] at h
        obtain ⟨res0, h0⟩ := wrapElem_reg h
        obtain ⟨ha1, f, hf⟩ :=
          ih _ _ _ _ (Relation.ReflTransGen.tail hrt (Component.value hmap)) ha h0
        refine ⟨ha1, f + 1, ?_⟩
        rw [h0] at h
        rw [naiveSchema_map _ _ _ hmap, if_neg he, hf]
        cases res0 with
        | error e => simp [wrapElem] at h; simp [expandResult, ← h]
        | ok y => simp [wrapElem] at h; simp [expandResult, ← h, Schema.expand]
    by_cases hptr : (env t).kind = .Ptr
    · rw [schemaByType_ptr _ _ _ _ hptr] at h
      obtain ⟨res0, h0⟩ := wrapElem_reg h
      obtain ⟨ha1, f, hf⟩ :=
        ih _ _ _ _ (Relation.ReflTransGen.tail hrt (Component.referent hptr)) ha h0
      refine ⟨ha1, f + 1, ?_⟩
      rw [h0] at h
      rw [naiveSchema_ptr _ _ _ hptr, hf]
      cases res0 with
      | error e => simp [wrapElem] at h; simp [expandResult, ← h]
      | ok y =>
        simp [wrapElem] at h
        simp [expandResult, ← h, Schema.expand, Schema.expandList]
    by_cases hst : (env t).kind = .Struct
    · rw [schemaByType_struct _ _ _ _ hst] at h
      have hreach : ∀ sf ∈ (env t).fields, Reachable env root sf.Typ :=
        fun sf hsf => Relation.ReflTransGen.tail hrt (Component.field hst hsf)
      cases hg : GoMap.get s (env t).name with
      | some actual =>
        rw [hg] at h
        simp at h
        rw [← h.1, ← h.2]
        obtain ⟨f, hf⟩ := ha _ _ hg t hrt hst rfl
        exact ⟨ha, f, by rw [hf]; simp [expandResult, Schema.expand]⟩
      | none =>
        rw [hg] at h
        simp only at h
        obtain ⟨r0, h0⟩ := finishRecord_returned h
        obtain ⟨resf, s2⟩ := r0
        rw [h0] at h
        cases resf with
        | error e =>
          simp [finishRecord] at h
          rw [← h.1, ← h.2]
          obtain ⟨before, sf, after, flb, s0, hfs, hfd, he⟩ :=
            structFields_error_split env n _ _ _ _ _ h0
          have hb := fieldsDerive_agrees env root n ih hfd
            (fun x hx => hreach x (by rw [hfs]; simp [hx])) ha
          obtain ⟨ha0, f1, hf1⟩ := hb
          obtain ⟨ha1, f2, hf2⟩ := ih _ _ _ _ (hreach sf (by rw [hfs]; simp)) ha0 he
          refine ⟨ha1, max f1 f2 + 1, ?_⟩
          rw [naiveSchema_struct _ _ _ hst, hfs]
          have hpre := naiveFields_mono _ _
            (fun ft r hr => naiveSchema_mono env (Nat.le_max_left f1 f2) hr) _ _ _ (hf1 [])
          rw [naiveFields_append _ _ _ _ _ hpre, naiveFields_cons]
          have h2 := naiveSchema_mono env (Nat.le_max_right f1 f2) hf2
          simp only [h2, expandResult]
        | ok out =>
          simp [finishRecord] at h
          obtain ⟨fl, hout, hfd⟩ := fieldsDerive_of_structFields env n _ _ _ _ _ h0
          simp at hout
          subst hout
          obtain ⟨ha2, f, hf⟩ := fieldsDerive_agrees env root n ih hfd hreach ha
          have hnaive : naiveSchema env (f + 1) t =
              .returned (.ok (.RecordSchema (RecordSchema.expand (.mk (env t).name out)))) := by
            rw [naiveSchema_struct _ _ _ hst, hf []]
            simp [RecordSchema.expand]
          rw [← h.1, ← h.2]
          refine ⟨?_, f + 1, by rw [hnaive]; simp [expandResult, Schema.expand]⟩
          intro k R hget u hu hku hnu
          rw [GoMap.get_set] at hget
          by_cases hname : (env t).name = k
          · rw [if_pos hname] at hget
            simp at hget
            have henv : env u = env t := hnames u t hu hrt hku hst (hnu.trans hname.symm)
            exact ⟨f + 1, by rw [naiveSchema_congr env henv, hnaive, hget]⟩
          · rw [if_neg hname] at hget
            exact ha2 k R hget u hu hku hnu
    · push_neg at hseq
      have hs1 := schemaByType_leaf env n t s s1 res hseq.1 hseq.2 hmap hptr hst h
      rw [hs1]
      refine ⟨ha, 1, ?_⟩
      clear ih
      cases hk : (env t).kind <;> simp_all [schemaByType, naiveSchema, expandResult] <;>
        (subst_vars; simp [Schema.expand])

theorem structFields_returns_of_naive (env : Env) (root n : Nat)
    (hnames : DistinctNames env root)
    (ih : ∀ (t : Nat) (s : Registry) (r : Except errorSupport Schema),
      Reachable env root t → Agrees env root s → naiveSchema env n t = .returned r →
      ∃ res s1, schemaByType env n (some t) s = .returned (res, s1)) :
    ∀ (fs : List StructField) (acc acc1 : List SchemaField) (s : Registry)
      (rf : Except errorSupport (List SchemaField)),
      (∀ sf ∈ fs, Reachable env root sf.Typ) → Agrees env root s →
      naiveFields (fun ft => naiveSchema env n ft) fs acc1 = .returned rf →
      ∃ resf s2, structFields (fun ft r => schemaByType env n (some ft) r) fs acc s =
        .returned (resf, s2) := by
  intro fs
  induction fs with
  | nil => intro acc acc1 s rf _ _ _; exact ⟨.ok acc, s, by simp [structFields]⟩
  | cons x rest ihr =>
    intro acc acc1 s rf hreach ha h
    rw [naiveFields_cons] at h
    rw [structFields_cons]
    cases hx : naiveSchema env n x.Typ with
    | outOfFuel => rw [hx] at h; simp at h
    | panic => rw [hx] at h; simp at h
    | returned rx =>
      rw [hx] at h
      obtain ⟨resx, sb, hsb⟩ := ih _ s _ (hreach x (List.mem_cons_self _ _)) ha hx
      obtain ⟨hab, f, hf⟩ := schemaByType_agrees env root hnames _ _ _ _ _
        (hreach x (List.mem_cons_self _ _)) ha hsb
      have hdet := naiveSchema_det env hx hf
      simp only [hsb]
      cases resx with
      | error e => exact ⟨_, _, rfl⟩
      | ok y =>
        rw [hdet] at h
        simp only [expandResult] at h
        exact ihr _ _ sb rf (fun sf hsf => hreach sf (List.mem_cons_of_mem _ hsf)) hab h

theorem schemaByType_returns_of_naive (env : Env) (root : Nat)
    (hnames : DistinctNames env root) :
    ∀ (fuel t : Nat) (s : Registry) (r : Except errorSupport Schema),
      Reachable env root t → Agrees env root s → naiveSchema env fuel t = .returned r →
      ∃ res s1, schemaByType env fuel (some t) s = .returned (res, s1) := by
  intro fuel
  induction fuel with
  | zero => intro t s r _ _ h; simp [naiveSchema] at h
  | succ n ih =>
    intro t s r hrt ha h
    by_cases hseq : (env t).kind = .Array ∨ (env t).kind = .Slice
    · rw [naiveSchema_seq _ _ _ hseq] at h
      rw [schemaByType_seq _ _ _ _ hseq]
      by_cases he : (env (env t).elem).kind = .Uint8
      · rw [if_pos he]; exact ⟨_, _, rfl⟩
      · rw [if_neg he] at h ⊢
        cases h0 : naiveSchema env n (env t).elem with
        | outOfFuel => rw [h0] at h; simp at h
        | panic => rw [h0] at h; simp at h
        | returned y =>
          obtain ⟨res0, s1, h1⟩ :=
            ih _ s _ (Relation.ReflTransGen.tail hrt (Component.elem hseq he)) ha h0
          rw [h1]
          cases res0 <;> exact ⟨_, _, rfl⟩
    by_cases hmap : (env t).kind = .Map
    · rw [naiveSchema_map _ _ _ hmap] at h
      rw [schemaByType_map _ _ _ _ hmap]
      by_cases he : (env (env t).key).kind ≠ .String
      · rw [if_pos he]; exact ⟨_, _, rfl⟩
      · rw [if_neg he] at h ⊢
        cases h0 : naiveSchema env n (env t).elem with
        | outOfFuel => rw [h0] at h; simp at h
        | panic => rw [h0] at h; simp at h
        | returned y =>
          obtain ⟨res0, s1, h1⟩ :=
            ih _ s _ (Relation.ReflTransGen.tail hrt (Component.value hmap)) ha h0
          rw [h1]
          cases res0 <;> exact ⟨_, _, rfl⟩
    by_cases hptr : (env t).kind = .Ptr
    · rw [naiveSchema_ptr _ _ _ hptr] at h
      rw [schemaByType_ptr _ _ _ _ hptr]
      cases h0 : naiveSchema env n (env t).elem with
      | outOfFuel => rw [h0] at h; simp at h
      | panic => rw [h0] at h; simp at h
      | returned y =>
        obtain ⟨res0, s1, h1⟩ :=
          ih _ s _ (Relation.ReflTransGen.tail hrt (Component.referent hptr)) ha h0
        rw [h1]
        cases res0 <;> exact ⟨_, _, rfl⟩
    by_cases hst : (env t).kind = .Struct
    · rw [naiveSchema_struct _ _ _ hst] at h
      rw [schemaByType_struct _ _ _ _ hst]
      cases hg : GoMap.get s (env t).name with
      | some actual => exact ⟨_, _, rfl⟩
      | none =>
        simp only
        cases h0 : naiveFields (fun ft => naiveSchema env n ft) (env t).fields [] with
        | outOfFuel => rw [h0] at h; simp at h
        | panic => rw [h0] at h; simp at h
        | returned rf =>
          obtain ⟨resf, s2, h2⟩ := structFields_returns_of_naive env root n hnames ih
            (env t).fields [] [] s rf
            (fun sf hsf => Relation.ReflTransGen.tail hrt (Component.field hst hsf)) ha h0
          rw [h2]
          cases resf <;> exact ⟨_, _, rfl⟩
    · push_neg at hseq
      clear ih h
      cases hk : (env t).kind <;> simp_all [schemaByType]

theorem agrees_empty (env : Env) (root : Nat) : Agrees env root [] := by
  intro k R h
  simp [GoMap.get] at h

/-! ## C18: agreement with the registry-free walker -/

/-- C18: for an input among whose reachable types struct types with the same
name are the same type, the registry walker and the registry-free walker
agree.  When `schemaByType` succeeds from the empty registry, the
registry-free walker returns the result with every reference replaced by the
record it refers to; when the registry-free walker succeeds, `schemaByType`
succeeds from the empty registry and its result expands to that tree; and
`schemaByType` fails with an error from the empty registry exactly when the
registry-free walker fails with that error. -/
theorem C18_agrees_with_naive (env : Env) (root : Nat) (hnames : DistinctNames env root) :
    (∀ (fuel : Nat) (s : Schema) (s1 : Registry),
      schemaByType env fuel (some root) [] = .returned (.ok s, s1) →
      ∃ f, naiveSchema env f root = .returned (.ok s.expand)) ∧
    (∀ (f : Nat) (tree : Schema), naiveSchema env f root = .returned (.ok tree) →
      ∃ (fuel : Nat) (s : Schema) (s1 : Registry),
        schemaByType env fuel (some root) [] = .returned (.ok s, s1) ∧ s.expand = tree) ∧
    (∀ e : errorSupport,
      (∃ (fuel : Nat) (s1 : Registry),
        schemaByType env fuel (some root) [] = .returned (.error e, s1)) ↔
      (∃ f, naiveSchema env f root = .returned (.error e))) := by
  have hfwd := fun fuel res s1 h =>
    (schemaByType_agrees env root hnames fuel root [] s1 res Relation.ReflTransGen.refl
      (agrees_empty env root) h).2
  have hbwd : ∀ (f : Nat) (r : Except errorSupport Schema),
      naiveSchema env f root = .returned r →
      ∃ fuel res s1, schemaByType env fuel (some root) [] = .returned (res, s1) ∧
        expandResult res = r := by
    intro f r h
    obtain ⟨res, s1, h1⟩ := schemaByType_returns_of_naive env root hnames f root [] r
      Relation.ReflTransGen.refl (agrees_empty env root) h
    obtain ⟨f2, h2⟩ := hfwd f res s1 h1
    exact ⟨f, res, s1, h1, naiveSchema_det env h2 h⟩
  refine ⟨fun fuel s s1 h => hfwd fuel (.ok s) s1 h, ?_, fun e => ⟨?_, ?_⟩⟩
  · intro f tree h
    obtain ⟨fuel, res, s1, h1, h2⟩ := hbwd f _ h
    cases res with
    | error e => simp [expandResult] at h2
    | ok s =>
      simp [expandResult] at h2
      exact ⟨fuel, s, s1, h1, h2⟩
  · rintro ⟨fuel, s1, h⟩
    exact hfwd fuel (.error e) s1 h
  · rintro ⟨f, h⟩
    obtain ⟨fuel, res, s1, h1, h2⟩ := hbwd f _ h
    cases res with
    | ok s => simp [expandResult] at h2
    | error e1 =>
      simp [expandResult] at h2
      subst h2
      exact ⟨fuel, s1, h1⟩

/-- C18 (witness): `StructPointer`, whose second field is a reference to the
record `Pointer`: the registry-free walker gives the record in full at both
places; and `noInterface` fails in both walkers with the same error. -/
theorem C18_agrees_with_naive_witness :
    (∃ f, naiveSchema sampleEnv f 16 = .returned (.ok
      (Schema.RecordSchema (.mk "StructPointer"
        [.mk "P" (.ArraySchema (.UnionSchema [.NullSchema, .RecordSchema
          (.mk "Pointer" [.mk "in" (.UnionSchema [.NullSchema, .LongSchema])])])),
         .mk "PND" (.UnionSchema [.NullSchema, .RecursiveSchema
          (.mk "Pointer" [.mk "in" (.UnionSchema [.NullSchema, .LongSchema])])])])).expand)) ∧
    (Schema.RecordSchema (.mk "StructPointer"
        [.mk "P" (.ArraySchema (.UnionSchema [.NullSchema, .RecordSchema
          (.mk "Pointer" [.mk "in" (.UnionSchema [.NullSchema, .LongSchema])])])),
         .mk "PND" (.UnionSchema [.NullSchema, .RecursiveSchema
          (.mk "Pointer" [.mk "in" (.UnionSchema [.NullSchema, .LongSchema])])])])).expand =
      .RecordSchema (.mk "StructPointer"
        [.mk "P" (.ArraySchema (.UnionSchema [.NullSchema, .RecordSchema
          (.mk "Pointer" [.mk "in" (.UnionSchema [.NullSchema, .LongSchema])])])),
         .mk "PND" (.UnionSchema [.NullSchema, .RecordSchema
          (.mk "Pointer" [.mk "in" (.UnionSchema [.NullSchema, .LongSchema])])])]) ∧
    (∃ f, naiveSchema sampleEnv f 12 =
      .returned (.error ⟨"interface will not be supported"⟩)) :=
  ⟨(C18_agrees_with_naive sampleEnv 16 (sampleEnv_distinctNames 16)).1 6 _ _ rfl,
   rfl,
   ((C18_agrees_with_naive sampleEnv 12 (sampleEnv_distinctNames 12)).2.2 _).1
     ⟨2, [], by simp [schemaByType, sampleEnv, privateField, GoMap.get, structFields]; decide⟩⟩

/-! ## The calls of a successful run -/

theorem fieldsDerive_split {env : Env} {n : Nat} :
    ∀ (xs ys : List StructField) (s s2 : Registry) (fl : List SchemaField),
      FieldsDerive env n (xs ++ ys) s fl s2 →
      ∃ (fl1 fl2 : List SchemaField) (s1 : Registry),
        FieldsDerive env n xs s fl1 s1 ∧ FieldsDerive env n ys s1 fl2 s2 ∧ fl = fl1 ++ fl2 := by
  intro xs
  induction xs with
  | nil => intro ys s s2 fl h; exact ⟨[], fl, s, FieldsDerive.nil _, h, rfl⟩
  | cons x rest ih =>
    intro ys s s2 fl h
    cases h with
    | cons hd htl =>
      obtain ⟨fl1, fl2, s1, h1, h2, hfl⟩ := ih _ _ _ _ htl
      exact ⟨_ :: fl1, fl2, s1, FieldsDerive.cons hd h1, h2, by rw [hfl]; rfl⟩

theorem fieldsDerive_keys_mono {env : Env} {n : Nat} {fs : List StructField}
    {s s1 : Registry} {fl : List SchemaField} (h : FieldsDerive env n fs s fl s1) :
    ∀ k ∈ s.keys, k ∈ s1.keys := by
  induction h with
  | nil s => intro k hk; exact hk
  | cons hd _ ih =>
    intro k hk
    exact ih k (schemaByType_keys_mono env _ _ _ _ _ hd k hk)

theorem fieldsDerive_mono {env : Env} {n m : Nat} (hle : n ≤ m) {fs : List StructField}
    {s s1 : Registry} {fl : List SchemaField} (h : FieldsDerive env n fs s fl s1) :
    FieldsDerive env m fs s fl s1 := by
  induction h with
  | nil s => exact FieldsDerive.nil _
  | cons hd _ ih => exact FieldsDerive.cons (schemaByType_mono env hle hd) ih

theorem fieldsDerive_det {env : Env} {n : Nat} {fs : List StructField}
    {s s1 : Registry} {fl : List SchemaField} (h : FieldsDerive env n fs s fl s1) :
    ∀ {s2 : Registry} {fl2 : List SchemaField},
      FieldsDerive env n fs s fl2 s2 → fl2 = fl ∧ s2 = s1 := by
  induction h with
  | nil s => intro s2 fl2 h2; cases h2; exact ⟨rfl, rfl⟩
  | cons hd _ ih =>
    intro s2 fl2 h2
    cases h2 with
    | cons hd2 htl2 =>
      rw [hd] at hd2
      simp at hd2
      obtain ⟨h1, h2⟩ := hd2
      subst h1; subst h2
      obtain ⟨h3, h4⟩ := ih htl2
      exact ⟨by rw [h3], h4⟩

theorem struct_named (env : Env) (fuel u : Nat) (s s1 : Registry) (r : Schema)
    (hk : (env u).kind = .Struct)
    (h : schemaByType env fuel (some u) s = .returned (.ok r, s1)) :
    (env u).name ∈ s1.keys := by
  cases fuel with
  | zero => simp [schemaByType] at h
  | succ n =>
    rw [schemaByType_struct env n u s hk] at h
    cases hg : GoMap.get s (env u).name with
    | some actual =>
      rw [hg] at h
      simp at h
      rw [← h.2]
      exact GoMap.mem_keys_of_get _ _ _ hg
    | none =>
      rw [hg] at h
      simp only at h
      obtain ⟨fl, s2, _, hs1, _⟩ := finishRecord_ok h
      rw [hs1]
      exact (GoMap.mem_keys_set _ _ _ _).2 (Or.inl rfl)

theorem calls_succeed (env : Env) {t u : Nat} {s s1 : Registry} (hc : Calls env t s u s1) :
    ∀ (fuel : Nat) (r : Schema) (after : Registry),
      schemaByType env fuel (some t) s = .returned (.ok r, after) →
      ∃ (fuel1 : Nat) (r1 : Schema) (after1 : Registry),
        schemaByType env fuel1 (some u) s1 = .returned (.ok r1, after1) ∧
        ∀ k ∈ after1.keys, k ∈ after.keys := by
  induction hc with
  | here t s => intro fuel r after h; exact ⟨fuel, r, after, h, fun k hk => hk⟩
  | elem hk he _ ih =>
    intro fuel r after h
    cases fuel with
    | zero => simp [schemaByType] at h
    | succ n =>
      rw [schemaByType_seq _ _ _ _ hk, if_neg he] at h
      obtain ⟨r0, h0, _⟩ := wrapElem_ok h
      exact ih n r0 after h0
  | value hk he _ ih =>
    intro fuel r after h
    cases fuel with
    | zero => simp [schemaByType] at h
    | succ n =>
      rw [schemaByType_map _ _ _ _ hk, if_neg (by simp [he])] at h
      obtain ⟨r0, h0, _⟩ := wrapElem_ok h
      exact ih n r0 after h0
  | referent hk _ ih =>
    intro fuel r after h
    cases fuel with
    | zero => simp [schemaByType] at h
    | succ n =>
      rw [schemaByType_ptr _ _ _ _ hk] at h
      obtain ⟨r0, h0, _⟩ := wrapElem_ok h
      exact ih n r0 after h0
  | @field t u s s0 s1 fuelb before rest sf acc hk hg hf hb _ ih =>
    intro fuel r after h
    cases fuel with
    | zero => simp [schemaByType] at h
    | succ n =>
      rw [schemaByType_struct _ _ _ _ hk, hg] at h
      simp only at h
      obtain ⟨fl, s2, h0, hafter, _⟩ := finishRecord_ok h
      obtain ⟨fl0, _, hfd⟩ := fieldsDerive_of_structFields env n _ _ _ _ _ h0
      rw [hf] at hfd
      obtain ⟨fl1, fl2, sA, hA, hB, _⟩ := fieldsDerive_split _ _ _ _ _ hfd
      obtain ⟨flb, _, hbd⟩ := fieldsDerive_of_structFields env fuelb _ _ _ _ _ hb
      have hsame : s0 = sA :=
        (fieldsDerive_det (fieldsDerive_mono (Nat.le_max_left n fuelb) hA)
          (fieldsDerive_mono (Nat.le_max_right n fuelb) hbd)).2
      subst hsame
      cases hB with
      | cons hd htl =>
        obtain ⟨fuel1, r1, after1, h1, hsub⟩ := ih n _ _ hd
        refine ⟨fuel1, r1, after1, h1, fun k hk1 => ?_⟩
        rw [hafter]
        exact (GoMap.mem_keys_set _ _ _ _).2
          (Or.inr (fieldsDerive_keys_mono htl k (hsub k hk1)))

/-! ## C3: the name set of `Generate`, continued -/

/-- C3 (amended): when `Generate` succeeds, the returned name set is non-nil
and every entry of it has the value `true`; every key is the name of a struct
type reachable from the input type through struct fields, elements of arrays
and slices that are not byte sequences, map values and pointer referents; the
keys are exactly the names of the struct types on which the run calls
`schemaByType` (the fields of a struct whose name is registered are not
walked), the name of the input type among them when it is a struct; the set is
empty when no struct type is reachable; and when, among the reachable types,
struct types with the same name are the same type, the keys are exactly the
names of the reachable struct types. -/
theorem C3_name_set (env : Env) (render : Schema → String) (fuel root : Nat) (g : Generated)
    (hg : Generate env render fuel (some root) = .returned g) (hok : g.err = none) :
    ∃ names : GoMap Bool, g.recordNames = some names ∧ (∀ e ∈ names, e.2 = true) ∧
      (∀ n ∈ names.keys,
        ∃ u, Reachable env root u ∧ (env u).kind = .Struct ∧ (env u).name = n) ∧
      (∀ n, n ∈ names.keys ↔
        ∃ u s, Calls env root [] u s ∧ (env u).kind = .Struct ∧ (env u).name = n) ∧
      ((env root).kind = .Struct → (env root).name ∈ names.keys) ∧
      ((∀ u, Reachable env root u → (env u).kind ≠ .Struct) → names = []) ∧
      (DistinctNames env root → ∀ n, n ∈ names.keys ↔
        ∃ u, Reachable env root u ∧ (env u).kind = .Struct ∧ (env u).name = n) := by
  unfold Generate at hg
  cases hrun : schemaByType env fuel (some root) [] with
  | outOfFuel => rw [hrun] at hg; simp at hg
  | panic => rw [hrun] at hg; simp at hg
  | returned r =>
    rw [hrun] at hg
    obtain ⟨res, regs⟩ := r
    cases res with
    | error e =>
      simp at hg
      rw [← hg] at hok
      simp at hok
    | ok schema =>
      simp at hg
      have hmem : ∀ n, n ∈ (regs.keys.foldl (fun recordNames recordName =>
          GoMap.set recordNames recordName true) ([] : GoMap Bool)).keys ↔ n ∈ regs.keys := by
        intro n
        rw [nameSet_keys]
        simp [GoMap.keys]
      have hreach : ∀ n ∈ regs.keys,
          ∃ u, Reachable env root u ∧ (env u).kind = .Struct ∧ (env u).name = n := by
        intro n hn
        rcases schemaByType_keys env _ _ _ _ _ hrun n hn with h1 | h1
        · simp [GoMap.keys] at h1
        · exact h1
      have hcalls : ∀ n, n ∈ regs.keys ↔
          ∃ u s, Calls env root [] u s ∧ (env u).kind = .Struct ∧ (env u).name = n := by
        intro n
        constructor
        · intro hn
          obtain ⟨R, hR⟩ := GoMap.get_of_mem_keys regs n hn
          rcases schemaByType_entries env _ _ _ _ _ hrun n R hR with h1 | h1
          · simp [GoMap.get] at h1
          · obtain ⟨u, s0, _, _, hc, hk, hname, _, _⟩ := h1
            exact ⟨u, s0, hc, hk, hname⟩
        · rintro ⟨u, s, hc, hk, rfl⟩
          obtain ⟨fuel1, r1, after1, h1, hsub⟩ := calls_succeed env hc _ _ _ hrun
          exact hsub _ (struct_named env fuel1 u s after1 r1 hk h1)
      refine ⟨_, by rw [← hg], nameSet_true _ [] (by simp),
        fun n hn => hreach n ((hmem n).1 hn), fun n => (hmem n).trans (hcalls n),
        fun hk => (hmem _).2 ((hcalls _).2 ⟨root, [], Calls.here root [], hk, rfl⟩),
        fun hnone => ?_, fun hnames n => ⟨fun hn => hreach n ((hmem n).1 hn), ?_⟩⟩
      · cases hl : regs.keys.foldl (fun recordNames recordName =>
            GoMap.set recordNames recordName true) ([] : GoMap Bool) with
        | nil => rfl
        | cons e rest =>
          have : e.1 ∈ (regs.keys.foldl (fun recordNames recordName =>
              GoMap.set recordNames recordName true) ([] : GoMap Bool)).keys := by
            rw [hl]; simp [GoMap.keys]
          obtain ⟨u, hu, hs, _⟩ := hreach e.1 ((hmem e.1).1 this)
          exact absurd hs (hnone u hu)
      · rintro ⟨u, hu, hs, rfl⟩
        have hclosed : Closed env root [] := by
          intro u _ _ hin
          simp [GoMap.keys] at hin
        exact (hmem _).2 ((schemaByType_closed env root hnames _ _ _ _ _
          Relation.ReflTransGen.refl hclosed hrun).2.2 u hu hs)

/-- C3 (witness): `StructPointer`, whose record `Pointer` occurs once in full
and once as a reference; the name set has the keys `StructPointer` and
`Pointer`. -/
theorem C3_name_set_witness :
    ∃ names : GoMap Bool,
      some [("Pointer", true), ("StructPointer", true)] = some names ∧
      (∀ e ∈ names, e.2 = true) ∧
      (∀ n ∈ names.keys,
        ∃ u, Reachable sampleEnv 16 u ∧ (sampleEnv u).kind = .Struct ∧ (sampleEnv u).name = n) ∧
      (∀ n, n ∈ names.keys ↔
        ∃ u s, Calls sampleEnv 16 [] u s ∧ (sampleEnv u).kind = .Struct ∧
          (sampleEnv u).name = n) ∧
      ((sampleEnv 16).kind = .Struct → (sampleEnv 16).name ∈ names.keys) ∧
      ((∀ u, Reachable sampleEnv 16 u → (sampleEnv u).kind ≠ .Struct) → names = []) ∧
      (DistinctNames sampleEnv 16 → ∀ n, n ∈ names.keys ↔
        ∃ u, Reachable sampleEnv 16 u ∧ (sampleEnv u).kind = .Struct ∧ (sampleEnv u).name = n) :=
  C3_name_set sampleEnv (fun _ => "") 6 16
    ⟨"", some [("Pointer", true), ("StructPointer", true)], none⟩ rfl rfl

/-! ## Deduplicated occurrences -/

theorem builtAfter_append (env : Env) :
    ∀ (o1 o2 : List (Nat × Schema)) (built : String → Option RecordSchema),
      builtAfter env built (o1 ++ o2) = builtAfter env (builtAfter env built o1) o2 := by
  intro o1
  induction o1 with
  | nil => intro o2 built; rfl
  | cons p rest ih =>
    intro o2 built
    obtain ⟨u, node⟩ := p
    cases node <;> simp [builtAfter, ih]

theorem builtAfter_untouched (env : Env) (k : String) :
    ∀ (o : List (Nat × Schema)) (built : String → Option RecordSchema),
      (∀ p ∈ o, (env p.1).name ≠ k) → builtAfter env built o k = built k := by
  intro o
  induction o with
  | nil => intro built _; rfl
  | cons p rest ih =>
    intro built h
    obtain ⟨u, node⟩ := p
    have hu : (env u).name ≠ k := h (u, node) (List.mem_cons_self _ _)
    have hrest : ∀ q ∈ rest, (env q.1).name ≠ k := fun q hq => h q (List.mem_cons_of_mem _ hq)
    cases node <;> simp only [builtAfter] <;> rw [ih _ hrest]
    exact Function.update_noteq (Ne.symm hu) _ _

theorem deduplicated_append (env : Env) :
    ∀ (o1 o2 : List (Nat × Schema)) (built : String → Option RecordSchema),
      Deduplicated env built o1 → Deduplicated env (builtAfter env built o1) o2 →
      Deduplicated env built (o1 ++ o2) := by
  intro o1
  induction o1 with
  | nil => intro o2 built _ h2; exact h2
  | cons p rest ih =>
    intro o2 built h1 h2
    cases h1 with
    | first hnone hrest =>
      exact Deduplicated.first hnone (ih _ _ hrest (by simpa [builtAfter] using h2))
    | later hsome hrest =>
      exact Deduplicated.later hsome (ih _ _ hrest (by simpa [builtAfter] using h2))

theorem deduplicated_later (env : Env) (n : String) (R : RecordSchema) :
    ∀ (o : List (Nat × Schema)) (built : String → Option RecordSchema),
      Deduplicated env built o → built n = some R →
      ∀ p ∈ o, (env p.1).name = n → p.2 = .RecursiveSchema R := by
  intro o
  induction o with
  | nil => intro built _ _ p hp; simp at hp
  | cons q rest ih =>
    intro built h hb p hp hname
    cases h with
    | @first _ u R1 _ hnone hrest =>
      have hne : (env u).name ≠ n := by
        intro heq; rw [heq, hb] at hnone; simp at hnone
      rcases List.mem_cons.1 hp with heq | hmem
      · subst heq; exact absurd hname hne
      · exact ih _ hrest (by rw [Function.update_noteq (Ne.symm hne)]; exact hb) p hmem hname
    | @later _ u R1 _ hsome hrest =>
      rcases List.mem_cons.1 hp with heq | hmem
      · subst heq
        simp only at hname
        rw [hname, hb] at hsome
        simp at hsome
        simp [hsome]
      · exact ih _ hrest hb p hmem hname

theorem deduplicated_first (env : Env) (u : Nat) (node : Schema) (post : List (Nat × Schema)) :
    ∀ (pre : List (Nat × Schema)) (built : String → Option RecordSchema),
      Deduplicated env built (pre ++ (u, node) :: post) → built (env u).name = none →
      (∀ p ∈ pre, (env p.1).name ≠ (env u).name) →
      ∃ R, node = .RecordSchema R ∧
        ∀ p ∈ post, (env p.1).name = (env u).name → p.2 = .RecursiveSchema R := by
  intro pre
  induction pre with
  | nil =>
    intro built h hb _
    simp only [List.nil_append] at h
    cases h with
    | first hnone hrest =>
      exact ⟨_, rfl, deduplicated_later env _ _ _ _ hrest (by simp)⟩
    | later hsome hrest => rw [hb] at hsome; simp at hsome
  | cons q rest ih =>
    intro built h hb hpre
    have hq := hpre q (List.mem_cons_self _ _)
    have hrest1 : ∀ p ∈ rest, (env p.1).name ≠ (env u).name :=
      fun p hp => hpre p (List.mem_cons_of_mem _ hp)
    simp only [List.cons_append] at h
    cases h with
    | first hnone hrest =>
      exact ih _ hrest (by rw [Function.update_noteq (Ne.symm hq)]; exact hb) hrest1
    | later hsome hrest => exact ih _ hrest hb hrest1

/-! ## A type the registry-free walker succeeds on lies on no cycle -/

theorem naiveFields_ok_mem (d : Nat → Outcome (Except errorSupport Schema)) :
    ∀ (fs : List StructField) (acc out : List SchemaField),
      naiveFields d fs acc = .returned (.ok out) →
      ∀ sf ∈ fs, ∃ r, d sf.Typ = .returned (.ok r) := by
  intro fs
  induction fs with
  | nil => intro acc out _ sf hsf; simp at hsf
  | cons x rest ih =>
    intro acc out h sf hsf
    rw [naiveFields_cons] at h
    cases hx : d x.Typ with
    | outOfFuel => rw [hx] at h; simp at h
    | panic => rw [hx] at h; simp at h
    | returned y =>
      rw [hx] at h
      cases y with
      | error e => simp at h
      | ok sch =>
        rcases List.mem_cons.1 hsf with heq | hmem
        · subst heq; exact ⟨sch, hx⟩
        · exact ih _ _ h sf hmem

theorem naiveSchema_component (env : Env) (f t w : Nat) (r : Schema)
    (h : naiveSchema env (f + 1) t = .returned (.ok r)) (hc : Component env t w) :
    ∃ r1, naiveSchema env f w = .returned (.ok r1) := by
  cases hc with
  | elem hk he =>
    rw [naiveSchema_seq _ _ _ hk, if_neg he] at h
    cases h0 : naiveSchema env f (env t).elem with
    | outOfFuel => rw [h0] at h; simp at h
    | panic => rw [h0] at h; simp at h
    | returned y =>
      rw [h0] at h
      cases y with
      | error e => simp at h
      | ok sch => exact ⟨sch, rfl⟩
  | value hk =>
    rw [naiveSchema_map _ _ _ hk] at h
    by_cases he : (env (env t).key).kind ≠ .String
    · rw [if_pos he] at h; simp at h
    · rw [if_neg he] at h
      cases h0 : naiveSchema env f (env t).elem with
      | outOfFuel => rw [h0] at h; simp at h
      | panic => rw [h0] at h; simp at h
      | returned y =>
        rw [h0] at h
        cases y with
        | error e => simp at h
        | ok sch => exact ⟨sch, rfl⟩
  | referent hk =>
    rw [naiveSchema_ptr _ _ _ hk] at h
    cases h0 : naiveSchema env f (env t).elem with
    | outOfFuel => rw [h0] at h; simp at h
    | panic => rw [h0] at h; simp at h
    | returned y =>
      rw [h0] at h
      cases y with
      | error e => simp at h
      | ok sch => exact ⟨sch, rfl⟩
  | @field sf hk hsf =>
    rw [naiveSchema_struct _ _ _ hk] at h
    cases h0 : naiveFields (fun ft => naiveSchema env f ft) (env t).fields [] with
    | outOfFuel => rw [h0] at h; simp at h
    | panic => rw [h0] at h; simp at h
    | returned y =>
      rw [h0] at h
      cases y with
      | error e => simp at h
      | ok out => exact naiveFields_ok_mem _ _ _ _ h0 sf hsf

theorem naiveSchema_reachable (env : Env) {w v : Nat} (hr : Reachable env w v) :
    ∀ (f : Nat) (r : Schema), naiveSchema env f w = .returned (.ok r) →
      ∃ f1 r1, f1 ≤ f ∧ naiveSchema env f1 v = .returned (.ok r1) := by
  induction hr using Relation.ReflTransGen.head_induction_on with
  | refl => intro f r h; exact ⟨f, r, le_refl _, h⟩
  | head hc _ ih =>
    intro f r h
    cases f with
    | zero => simp [naiveSchema] at h
    | succ n =>
      obtain ⟨r0, h0⟩ := naiveSchema_component env n _ _ r h hc
      obtain ⟨f1, r1, hle, h1⟩ := ih n r0 h0
      exact ⟨f1, r1, by omega, h1⟩

theorem naiveSchema_no_cycle (env : Env) :
    ∀ (f t w v : Nat) (r : Schema), naiveSchema env f t = .returned (.ok r) →
      Component env t w → Reachable env w v → env v = env t → False := by
  intro f
  induction f using Nat.strong_induction_on with
  | _ f ih =>
    intro t w v r h hc hr henv
    cases f with
    | zero => simp [naiveSchema] at h
    | succ n =>
      obtain ⟨r0, h0⟩ := naiveSchema_component env n _ _ r h hc
      obtain ⟨f1, r1, hle, h1⟩ := naiveSchema_reachable env hr n r0 h0
      rw [naiveSchema_congr env henv] at h1
      exact ih f1 (by omega) t w v r1 h1 hc hr henv

theorem no_reentry (env : Env) (root : Nat) (hnames : DistinctNames env root)
    (m t : Nat) (s s2 : Registry) (fl : List SchemaField)
    (hrt : Reachable env root t) (ha : Agrees env root s)
    (hk : (env t).kind = .Struct) (hg : s.get (env t).name = none)
    (hfd : FieldsDerive env m (env t).fields s fl s2) :
    (env t).name ∉ s2.keys := by
  intro hin
  have hrun := schemaByType_record env m t s s2 fl hk hg hfd
  obtain ⟨_, f, hf⟩ := schemaByType_agrees env root hnames _ _ _ _ _ hrt ha hrun
  rcases structFields_keys env _
      (fun x a res b hr => schemaByType_keys env m x a b res hr) _ _ _ _ _
      (structFields_of_fieldsDerive env m hfd []) _ hin with h1 | ⟨sf, hsf, v, hv, hvk, hvn⟩
  · obtain ⟨R, hR⟩ := GoMap.get_of_mem_keys _ _ h1
    rw [hg] at hR; simp at hR
  · have hcomp : Component env t sf.Typ := Component.field hk hsf
    have henv : env v = env t :=
      hnames v t (hrt.trans (reachable_head hcomp hv)) hrt hvk hk hvn
    exact naiveSchema_no_cycle env f t sf.Typ v _ hf hcomp hv henv

/-! ## The occurrences of a successful run are deduplicated -/

theorem fieldsDerive_dedup (env : Env) (root n : Nat) (hnames : DistinctNames env root)
    (ih : ∀ (t : Nat) (s s1 : Registry) (r : Schema),
      Reachable env root t → Agrees env root s →
      schemaByType env n (some t) s = .returned (.ok r, s1) →
      (∀ p ∈ r.occurrences env t, Reachable env root p.1 ∧ (env p.1).kind = .Struct ∧
        (env p.1).name ∈ s1.keys) ∧
      (∀ built : String → Option RecordSchema,
        (∀ p ∈ r.occurrences env t, built (env p.1).name = s.get (env p.1).name) →
        Deduplicated env built (r.occurrences env t)) ∧
      (∀ (built : String → Option RecordSchema) (k : String), built k = s.get k →
        builtAfter env built (r.occurrences env t) k = s1.get k))
    {fs : List StructField} {s s1 : Registry} {fl : List SchemaField}
    (h : FieldsDerive env n fs s fl s1) :
    (∀ sf ∈ fs, Reachable env root sf.Typ) → Agrees env root s →
    (∀ p ∈ SchemaField.occurrencesList env fl fs, Reachable env root p.1 ∧
      (env p.1).kind = .Struct ∧ (env p.1).name ∈ s1.keys) ∧
    (∀ built : String → Option RecordSchema,
      (∀ p ∈ SchemaField.occurrencesList env fl fs,
        built (env p.1).name = s.get (env p.1).name) →
      Deduplicated env built (SchemaField.occurrencesList env fl fs)) ∧
    (∀ (built : String → Option RecordSchema) (k : String), built k = s.get k →
      builtAfter env built (SchemaField.occurrencesList env fl fs) k = s1.get k) := by
  induction h with
  | nil s =>
    intro _ _
    simp only [SchemaField.occurrencesList]
    exact ⟨fun p hp => by simp at hp, fun built _ => Deduplicated.nil _,
      fun built k hk => hk⟩
  | @cons sf rest s s1 s2 fieldType fl hd htl ihr =>
    intro hreach ha
    have hrsf := hreach sf (List.mem_cons_self _ _)
    obtain ⟨hA1, hB1, hC1⟩ := ih _ _ _ _ hrsf ha hd
    have ha1 := (schemaByType_agrees env root hnames _ _ _ _ _ hrsf ha hd).1
    obtain ⟨hA2, hB2, hC2⟩ := ihr (fun x hx => hreach x (List.mem_cons_of_mem _ hx)) ha1
    have hocc : SchemaField.occurrencesList env
        (SchemaField.mk (getNameByJSONTag sf) fieldType :: fl) (sf :: rest) =
        fieldType.occurrences env sf.Typ ++ SchemaField.occurrencesList env fl rest := by
      simp [SchemaField.occurrencesList, SchemaField.occurrences]
    rw [hocc]
    refine ⟨?_, ?_, ?_⟩
    · intro p hp
      rcases List.mem_append.1 hp with h1 | h2
      · obtain ⟨a, b, c⟩ := hA1 p h1
        exact ⟨a, b, fieldsDerive_keys_mono htl _ c⟩
      · exact hA2 p h2
    · intro built hb
      apply deduplicated_append
      · exact hB1 built (fun p hp => hb p (List.mem_append.2 (Or.inl hp)))
      · apply hB2
        intro p hp
        exact hC1 built _ (hb p (List.mem_append.2 (Or.inr hp)))
    · intro built k hk
      rw [builtAfter_append]
      exact hC2 _ k (hC1 built k hk)

theorem schemaByType_dedup (env : Env) (root : Nat) (hnames : DistinctNames env root) :
    ∀ (fuel t : Nat) (s s1 : Registry) (r : Schema),
      Reachable env root t → Agrees env root s →
      schemaByType env fuel (some t) s = .returned (.ok r, s1) →
      (∀ p ∈ r.occurrences env t, Reachable env root p.1 ∧ (env p.1).kind = .Struct ∧
        (env p.1).name ∈ s1.keys) ∧
      (∀ built : String → Option RecordSchema,
        (∀ p ∈ r.occurrences env t, built (env p.1).name = s.get (env p.1).name) →
        Deduplicated env built (r.occurrences env t)) ∧
      (∀ (built : String → Option RecordSchema) (k : String), built k = s.get k →
        builtAfter env built (r.occurrences env t) k = s1.get k) := by
  intro fuel
  induction fuel with
  | zero => intro t s s1 r _ _ h; simp [schemaByType] at h
  | succ n ih =>
    intro t s s1 r hrt ha h
    by_cases hseq : (env t).kind = .Array ∨ (env t).kind = .Slice
    · rw [schemaByType_seq _ _ _ _ hseq] at h
      by_cases he : (env (env t).elem).kind = .Uint8
      · rw [if_pos he] at h
        simp at h
        rw [← h.1, ← h.2]
        simp only [Schema.occurrences]
        exact ⟨fun p hp => by simp at hp, fun built _ => Deduplicated.nil _,
          fun built k hk => hk⟩
      · rw [if_neg he] at h
        obtain ⟨r0, h0, hr⟩ := wrapElem_ok h
        rw [hr]
        simp only [Schema.occurrences]
        exact ih _ _ _ _ (Relation.ReflTransGen.tail hrt (Component.elem hseq he)) ha h0
    by_cases hmap : (env t).kind = .Map
    · rw [schemaByType_map _ _ _ _ hmap] at h
      by_cases he : (env (env t).key).kind ≠ .String
      · rw [if_pos he] at h; simp at h
      · rw [if_neg he] at h
        obtain ⟨r0, h0, hr⟩ := wrapElem_ok h
        rw [hr]
        simp only [Schema.occurrences]
        exact ih _ _ _ _ (Relation.ReflTransGen.tail hrt (Component.value hmap)) ha h0
    by_cases hptr : (env t).kind = .Ptr
    · rw [schemaByType_ptr _ _ _ _ hptr] at h
      obtain ⟨r0, h0, hr⟩ := wrapElem_ok h
      rw [hr]
      simp only [Schema.occurrences, Schema.occurrencesList, List.nil_append, List.append_nil]
      exact ih _ _ _ _ (Relation.ReflTransGen.tail hrt (Component.referent hptr)) ha h0
    by_cases hst : (env t).kind = .Struct
    · rw [schemaByType_struct _ _ _ _ hst] at h
      cases hg : GoMap.get s (env t).name with
      | some actual =>
        rw [hg] at h
        simp at h
        rw [← h.1, ← h.2]
        simp only [Schema.occurrences]
        refine ⟨?_, ?_, ?_⟩
        · intro p hp
          simp at hp
          subst hp
          exact ⟨hrt, hst, GoMap.mem_keys_of_get _ _ _ hg⟩
        · intro built hb
          have := hb (t, .RecursiveSchema actual) (by simp)
          simp only at this
          exact Deduplicated.later (by rw [this, hg]) (Deduplicated.nil _)
        · intro built k hk
          simpa [builtAfter] using hk
      | none =>
        rw [hg] at h
        simp only at h
        obtain ⟨fl, s2, h0, hs1, hr⟩ := finishRecord_ok h
        obtain ⟨fl0, hfl0, hfd⟩ := fieldsDerive_of_structFields env n _ _ _ _ _ h0
        simp at hfl0
        subst hfl0
        have hreach : ∀ sf ∈ (env t).fields, Reachable env root sf.Typ :=
          fun sf hsf => Relation.ReflTransGen.tail hrt (Component.field hst hsf)
        obtain ⟨hA, hB, hC⟩ := fieldsDerive_dedup env root n hnames ih hfd hreach ha
        have hno := no_reentry env root hnames n t s s2 fl hrt ha hst hg hfd
        have hne : ∀ p ∈ SchemaField.occurrencesList env fl (env t).fields,
            (env p.1).name ≠ (env t).name := by
          intro p hp heq
          exact hno (heq ▸ (hA p hp).2.2)
        rw [hr, hs1]
        simp only [Schema.occurrences, RecordSchema.occurrences]
        refine ⟨?_, ?_, ?_⟩
        · intro p hp
          rcases List.mem_cons.1 hp with heq | hmem
          · subst heq
            exact ⟨hrt, hst, (GoMap.mem_keys_set _ _ _ _).2 (Or.inl rfl)⟩
          · obtain ⟨a, b, c⟩ := hA p hmem
            exact ⟨a, b, (GoMap.mem_keys_set _ _ _ _).2 (Or.inr c)⟩
        · intro built hb
          have hhead := hb (t, .RecordSchema (.mk (env t).name fl)) (List.mem_cons_self _ _)
          simp only at hhead
          refine Deduplicated.first (by rw [hhead, hg]) (hB _ ?_)
          intro p hp
          rw [Function.update_noteq (hne p hp)]
          exact hb p (List.mem_cons_of_mem _ hp)
        · intro built k hk
          simp only [builtAfter]
          rw [GoMap.get_set]
          by_cases hname : (env t).name = k
          · rw [if_pos hname, builtAfter_untouched env k _ _
              (fun p hp => hname ▸ hne p hp), ← hname]
            simp
          · rw [if_neg hname]
            apply hC
            rw [Function.update_noteq (Ne.symm hname)]
            exact hk
    · push_neg at hseq
      have hs1 := schemaByType_leaf env n t s s1 (.ok r) hseq.1 hseq.2 hmap hptr hst h
      have hocc : r.occurrences env t = [] := by
        clear ih
        cases hk : (env t).kind <;> simp_all [schemaByType] <;>
          (subst_vars; simp [Schema.occurrences])
      rw [hocc, hs1]
      exact ⟨fun p hp => by simp at hp, fun built _ => Deduplicated.nil _,
        fun built k hk => hk⟩

/-! ## C14: a struct whose name is registered, continued -/

/-- C14 (amended): when the name of a struct type is in the registry,
`schemaByType` returns the reference to exactly the record stored under that
name, with one level of budget (the fields of the struct are not examined, so
an unsupported field type does not matter), and leaves the registry as it was.
Consequently, in a tree derived from the empty registry for an input among
whose reachable types struct types with the same name are the same type: every
occurrence is of a struct type; the first occurrence of a struct type is a
`Record`; every later occurrence of that struct type is the `Recursive`
reference to the record of its first occurrence.  And in such a run a call on
a struct whose name is registered finds there the record returned by a call of
the run on this same struct type, made when the name was not registered. -/
theorem C14_registered_struct (env : Env) :
    (∀ (fuel t : Nat) (schemas : Registry) (actual : RecordSchema),
      (env t).kind = .Struct → schemas.get (env t).name = some actual →
      schemaByType env (fuel + 1) (some t) schemas =
        .returned (.ok (.RecursiveSchema actual), schemas)) ∧
    (∀ (root fuel : Nat) (tree : Schema) (after : Registry),
      DistinctNames env root →
      schemaByType env fuel (some root) [] = .returned (.ok tree, after) →
      ∀ (pre : List (Nat × Schema)) (u : Nat) (node : Schema) (post : List (Nat × Schema)),
        tree.occurrences env root = pre ++ (u, node) :: post →
        (env u).kind = .Struct ∧
        ((∀ p ∈ pre, env p.1 ≠ env u) → ∃ R, node = .RecordSchema R) ∧
        (∀ (pre1 : List (Nat × Schema)) (v : Nat) (nodev : Schema)
          (pre2 : List (Nat × Schema)),
          pre = pre1 ++ (v, nodev) :: pre2 → env v = env u →
          (∀ p ∈ pre1, env p.1 ≠ env u) →
          ∃ R, nodev = .RecordSchema R ∧ node = .RecursiveSchema R)) ∧
    (∀ (root t : Nat) (schemas : Registry) (actual : RecordSchema),
      DistinctNames env root → Calls env root [] t schemas → (env t).kind = .Struct →
      schemas.get (env t).name = some actual →
      ∃ (first : Nat) (s0 : Registry) (f : Nat) (s1 : Registry),
        Calls env root [] first s0 ∧ env first = env t ∧ s0.get (env t).name = none ∧
        schemaByType env f (some first) s0 = .returned (.ok (.RecordSchema actual), s1)) := by
  refine ⟨?_, ?_, ?_⟩
  · intro fuel t schemas actual hk hg
    rw [schemaByType_struct env fuel t schemas hk, hg]
  · intro root fuel tree after hnames hrun pre u node post hocc
    obtain ⟨hA, hB, _⟩ := schemaByType_dedup env root hnames fuel root [] after tree
      Relation.ReflTransGen.refl (agrees_empty env root) hrun
    have hd : Deduplicated env (fun _ => none) (tree.occurrences env root) :=
      hB _ (fun p _ => by simp [GoMap.get])
    rw [hocc] at hd hA
    have hu := hA (u, node) (by simp)
    have hsame : ∀ p ∈ pre, (env p.1).name = (env u).name → env p.1 = env u := by
      intro p hp heq
      have hp1 := hA p (by simp [hp])
      exact hnames p.1 u hp1.1 hu.1 hp1.2.1 hu.2.1 heq
    refine ⟨hu.2.1, ?_, ?_⟩
    · intro hfirst
      obtain ⟨R, hR, _⟩ := deduplicated_first env u node post pre _ hd rfl
        (fun p hp heq => hfirst p hp (hsame p hp heq))
      exact ⟨R, hR⟩
    · intro pre1 v nodev pre2 hpre henv hfirst
      subst hpre
      rw [List.append_assoc, List.cons_append] at hd
      have hname : (env v).name = (env u).name := by rw [henv]
      obtain ⟨R, hR, hall⟩ := deduplicated_first env v nodev (pre2 ++ (u, node) :: post)
        pre1 _ hd rfl
        (fun p hp heq => hfirst p hp (hsame p (by simp [hp]) (heq.trans hname)))
      exact ⟨R, hR, hall (u, node) (by simp) hname.symm⟩
  · intro root t schemas actual hnames hc hk hg
    rcases calls_entries env hc _ _ hg with h1 | ⟨u, s0, f, s1, hcu, hku, hnu, hgu, hru⟩
    · simp [GoMap.get] at h1
    · exact ⟨u, s0, f, s1, hcu,
        hnames u t (calls_reachable hcu) (calls_reachable hc) hku hk hnu, hgu, hru⟩

/-- C14 (witness): the tree of `StructPointer` has three occurrences, of
`StructPointer`, of `Pointer` (under `P`) and of `Pointer` again (under
`PND`): the second occurrence of `Pointer` is the reference to the record of
the first; and a call on `Pointer` with `Pointer` registered returns the
reference with one level of budget. -/
theorem C14_registered_struct_witness :
    schemaByType sampleEnv 1 (some 14)
        [("Pointer", .mk "Pointer" [.mk "in" (.UnionSchema [.NullSchema, .LongSchema])])] =
      .returned (.ok (.RecursiveSchema
          (.mk "Pointer" [.mk "in" (.UnionSchema [.NullSchema, .LongSchema])])),
        [("Pointer", .mk "Pointer" [.mk "in" (.UnionSchema [.NullSchema, .LongSchema])])]) ∧
    (Schema.RecordSchema (.mk "StructPointer"
        [.mk "P" (.ArraySchema (.UnionSchema [.NullSchema, .RecordSchema
          (.mk "Pointer" [.mk "in" (.UnionSchema [.NullSchema, .LongSchema])])])),
         .mk "PND" (.UnionSchema [.NullSchema, .RecursiveSchema
          (.mk "Pointer" [.mk "in" (.UnionSchema [.NullSchema, .LongSchema])])])])).occurrences
        sampleEnv 16 =
      [(16, .RecordSchema (.mk "StructPointer"
        [.mk "P" (.ArraySchema (.UnionSchema [.NullSchema, .RecordSchema
          (.mk "Pointer" [.mk "in" (.UnionSchema [.NullSchema, .LongSchema])])])),
         .mk "PND" (.UnionSchema [.NullSchema, .RecursiveSchema
          (.mk "Pointer" [.mk "in" (.UnionSchema [.NullSchema, .LongSchema])])])]))] ++
       (14, .RecordSchema (.mk "Pointer" [.mk "in" (.UnionSchema [.NullSchema, .LongSchema])])) ::
       [] ++
       (14, .RecursiveSchema
          (.mk "Pointer" [.mk "in" (.UnionSchema [.NullSchema, .LongSchema])])) :: [] ∧
    (∃ R, Schema.RecordSchema
          (.mk "Pointer" [.mk "in" (.UnionSchema [.NullSchema, .LongSchema])]) =
        .RecordSchema R ∧
      Schema.RecursiveSchema
          (.mk "Pointer" [.mk "in" (.UnionSchema [.NullSchema, .LongSchema])]) =
        .RecursiveSchema R) :=
  ⟨(C14_registered_struct sampleEnv).1 0 14
      [("Pointer", .mk "Pointer" [.mk "in" (.UnionSchema [.NullSchema, .LongSchema])])]
      (.mk "Pointer" [.mk "in" (.UnionSchema [.NullSchema, .LongSchema])]) rfl rfl,
   rfl,
   ((C14_registered_struct sampleEnv).2.1 16 6 _ _ (sampleEnv_distinctNames 16) rfl
      ([(16, .RecordSchema (.mk "StructPointer"
        [.mk "P" (.ArraySchema (.UnionSchema [.NullSchema, .RecordSchema
          (.mk "Pointer" [.mk "in" (.UnionSchema [.NullSchema, .LongSchema])])])),
         .mk "PND" (.UnionSchema [.NullSchema, .RecursiveSchema
          (.mk "Pointer" [.mk "in" (.UnionSchema [.NullSchema, .LongSchema])])])]))] ++
       (14, .RecordSchema (.mk "Pointer" [.mk "in" (.UnionSchema [.NullSchema, .LongSchema])])) ::
       [])
      14 (.RecursiveSchema (.mk "Pointer" [.mk "in" (.UnionSchema [.NullSchema, .LongSchema])]))
      [] rfl).2.2
      [(16, .RecordSchema (.mk "StructPointer"
        [.mk "P" (.ArraySchema (.UnionSchema [.NullSchema, .RecordSchema
          (.mk "Pointer" [.mk "in" (.UnionSchema [.NullSchema, .LongSchema])])])),
         .mk "PND" (.UnionSchema [.NullSchema, .RecursiveSchema
          (.mk "Pointer" [.mk "in" (.UnionSchema [.NullSchema, .LongSchema])])])]))]
      14 (.RecordSchema (.mk "Pointer" [.mk "in" (.UnionSchema [.NullSchema, .LongSchema])]))
      [] rfl rfl
      (fun p hp => by
        simp only [List.mem_singleton] at hp
        subst hp
        show sampleEnv 16 ≠ sampleEnv 14
        decide)⟩

end Navro
